import Mathlib

/-!
Go-Study: the channel programs and the `defer` examples.

A verification development for the bounded task pool of
`codes/02-02-chan/demo_3.go` together with its `main` (namespace `Demo3`),
for the results-stream worker pool of `codes/08-chan/demo_2.go` (namespace
`Demo2`), for the producer/consumer program of `codes/02-02-chan/demo_4.go`
(namespace `Demo4`) and for the functions `f2` and `f3` of
`codes/05-01-defer/demo_1.go` (namespace `DeferDemo`).

The channel programs are goroutine programs.  Each is embedded as a labelled
transition system: the state holds the shared objects of the program (channels,
wait-group counters, cancellation flag) together with the program counter of
every goroutine, and `step s l` performs the atomic action named by the label
`l` (one channel operation, one `select`, one wait-group operation).  Any
interleaving of the goroutines is a list of labels.  History variables
(`accepted`, `received`, and so on) only record what happened; no action reads
them.

Go channel semantics used throughout (The Go Programming Language
Specification, "Channel types", "Send statements", "Receive operator",
"Select statements", "Close"):

* a send on a closed channel panics, also when it is a `select` case;
* a send on a buffered channel proceeds when the buffer has room; a send on an
  unbuffered channel proceeds when a receiver is blocked on the channel;
* a receive takes the oldest buffered value; on a closed and drained channel
  it yields the zero value with `ok = false`; otherwise it blocks;
* `select` picks any one of the cases that can proceed, and `default` only
  when none can;
* closing a closed channel panics;
* `make(chan T, n)` panics when `n` is negative or when the buffer of `n`
  elements is beyond the allocation limit of the runtime.
-/

namespace Go

/-- A Go channel: capacity, buffered values (oldest first), closed flag. -/
structure Chan (α : Type) where
  cap : Nat
  buf : List α
  closed : Bool

/-- The allocation limit `maxAlloc` of the Go runtime on a 64-bit platform
(linux/amd64): `2^48` bytes. -/
def maxAlloc : Nat := 281474976710656

/-- The size `hchanSize` of the header of a channel on a 64-bit platform, in
bytes (Go up to 1.22; later versions add one word, which moves the limit of
`make` by less than one element). -/
def hchanSize : Nat := 96

/-- The builtin `make(chan T, size)` for an element type of `elemSize` bytes
(`runtime.makechan`).  It panics with `makechan: size out of range` when the
size is negative or the buffer of `size * elemSize` bytes exceeds
`maxAlloc - hchanSize`.  Within that range the runtime allocates the buffer;
`allocOk` says whether the machine provides the memory, and when it does not
the runtime ends the program with `fatal error: out of memory`.  The result is
`none` in all three cases: the program does not get a channel and ends. -/
def Chan.make (α : Type) (elemSize : Nat) (allocOk : Bool) (size : Int) : Option (Chan α) :=
  if size < 0 ∨ ((maxAlloc - hchanSize : Nat) : Int) < size * (elemSize : Int) then none
  else if allocOk then some { cap := size.toNat, buf := [], closed := false }
  else none

end Go

namespace Demo3

open Go

/-! Section: Data model (`demo_3.go`, lines 12-24) -/

/-- Values of static type `any` occurring in the program. -/
inductive GoAny where
  | nil
  | int (n : Int)
  | str (s : String)
  deriving DecidableEq, Repr

/-- A Go `error` value: `none` is the nil error. -/
abbrev GoError := Option String

/-- What a call of a closure does to the state `σ` it acts on: it returns a
value, or it panics with a message; either way it leaves a state.  (A call
that never returns is an action that is never taken.) -/
inductive Outcome (α σ : Type) where
  | returned (val : α) (w : σ)
  | panicked (msg : String) (w : σ)

/-- The struct `Task`.  `σ` is the state that the two closures of a task act on
(in `main`, the caller's own wait group and standard output); a nil func value
is `none`.  The closures act on `σ` only: they do not call back into the
pool. -/
structure Task (σ : Type) where
  Input : GoAny
  Execute : Option (GoAny → σ → Outcome (GoAny × GoError) σ)
  Callback : Option (GoAny → GoError → σ → Outcome Unit σ)

/-- The struct `ThreadPool`.  `wg` is the counter of the `sync.WaitGroup`;
`ctxDone` says that `cancel` has been called, that is, `ctx.Done()` is closed. -/
structure ThreadPool (σ : Type) where
  taskChan : Chan (Task σ)
  workerCount : Int
  wg : Int
  ctxDone : Bool

/-- Size of a `Task` value on a 64-bit platform: an interface value (two
words) and two func values (one word each), in bytes. -/
def taskElemSize : Nat := 32

/-- The constructor `NewThreadPool` (lines 26-36); `allocOk` says whether the
machine provides the memory for the buffer of the queue; `none` when `make`
does not return a channel. -/
def NewThreadPool {σ : Type} (allocOk : Bool) (workerCount taskQueueSize : Int) :
    Option (ThreadPool σ) :=
  match Chan.make (Task σ) taskElemSize allocOk taskQueueSize with
  | none => none
  | some ch => some { taskChan := ch, workerCount := workerCount, wg := 0, ctxDone := false }

/-! Section: Goroutines -/

/-- Program counter of a goroutine running `tp.worker(id)` (lines 64-87). -/
inductive WorkerPC (σ : Type) where
  /-- created by `go tp.worker(i)`, body not begun -/
  | entry
  /-- at the `select` of line 68 -/
  | loop
  /-- received `t` with `ok = true`, about to run lines 79-83 -/
  | task (t : Task σ)
  /-- returned; the deferred `tp.wg.Done()` has run -/
  | exited

/-- Whether a worker goroutine has returned. -/
def WorkerPC.isExited {σ : Type} : WorkerPC σ → Bool
  | .exited => true
  | _ => false

/-- Program counter of the goroutine that owns the pool and calls `Start` and
`Stop` on it, one call at a time. -/
inductive OwnerPC where
  /-- between calls -/
  | idle
  /-- inside `Start`, at the loop test with counter `i` -/
  | start (i : Int)
  /-- inside `Stop`, after `tp.cancel()` -/
  | stopCancelled
  /-- inside `Stop`, after `close(tp.taskChan)`, in `tp.wg.Wait()` -/
  | stopClosed
  deriving DecidableEq, Repr

/-- What a call of `Submit` did: returned an error value, or panicked. -/
inductive SubmitResult where
  | returned (err : GoError)
  | panicked (msg : String)
  deriving DecidableEq, Repr

/-- State of a running program that uses one pool. -/
structure Sys (σ : Type) where
  tp : ThreadPool σ
  /-- worker goroutines in spawn order: the `id` argument and the program counter -/
  workers : List (Int × WorkerPC σ)
  owner : OwnerPC
  /-- the state the closures of the tasks act on -/
  world : σ
  /-- lines written to standard output by the pool -/
  out : List String
  /-- message of the panic that ended the program, if any -/
  crashed : Option String
  /-- history: tasks for which `Submit` returned nil, in order -/
  accepted : List (Task σ)
  /-- history: every `Submit` call with its result -/
  submitLog : List (Task σ × SubmitResult)
  /-- history: tasks received from `taskChan`, with the receiving goroutine -/
  received : List (Nat × Task σ)
  /-- history: calls of `Execute` that returned, with goroutine and returned pair -/
  executed : List (Nat × Task σ × GoAny × GoError)
  /-- history: calls of `Callback`, with goroutine and arguments -/
  callbacks : List (Nat × Task σ × GoAny × GoError)
  /-- history: panics raised by a closure of a task (or by the call of a nil
  `Execute`), with goroutine, task and message -/
  panics : List (Nat × Task σ × String)
  /-- history: number of completed `Stop` calls -/
  stopsReturned : Nat

/-- The program state right after `tp := NewThreadPool(..)`. -/
def Sys.init {σ : Type} (tp : ThreadPool σ) (w : σ) : Sys σ :=
  { tp := tp, workers := [], owner := .idle, world := w, out := [], crashed := none,
    accepted := [], submitLog := [], received := [], executed := [], callbacks := [],
    panics := [], stopsReturned := 0 }

/-- Replace the buffer of `taskChan`. -/
def Sys.setBuf {σ : Type} (s : Sys σ) (b : List (Task σ)) : Sys σ :=
  { s with tp := { s.tp with taskChan := { s.tp.taskChan with buf := b } } }

/-- Move goroutine `k` to program counter `pc`. -/
def Sys.setPC {σ : Type} (s : Sys σ) (k : Nat) (id : Int) (pc : WorkerPC σ) : Sys σ :=
  { s with workers := s.workers.set k (id, pc) }

/-- A panic ends the program. -/
def Sys.panic {σ : Type} (s : Sys σ) (msg : String) : Sys σ :=
  { s with crashed := some msg }

/-- Write a line to standard output. -/
def Sys.print {σ : Type} (s : Sys σ) (line : String) : Sys σ :=
  { s with out := s.out ++ [line] }

/-- The call `tp.wg.Add(1)`. -/
def Sys.wgAdd {σ : Type} (s : Sys σ) : Sys σ :=
  { s with tp := { s.tp with wg := s.tp.wg + 1 } }

/-- The call `tp.wg.Done()`: a counter below zero panics. -/
def Sys.wgDone {σ : Type} (s : Sys σ) : Sys σ :=
  if s.tp.wg - 1 < 0 then s.panic "sync: negative WaitGroup counter"
  else { s with tp := { s.tp with wg := s.tp.wg - 1 } }

/-! Section: `Submit` (lines 44-53) -/

/-- The case of the `select` in `Submit` that is taken. -/
inductive SubmitCase where
  /-- the case `tp.taskChan <- t` into the buffer (or the panic of a closed channel) -/
  | send
  /-- the case `tp.taskChan <- t` on an unbuffered channel, taken over directly by
  goroutine `k`, which is blocked in its `select`; on a buffered channel the
  same hand-over is the `send` case followed at once by the receive of `k` -/
  | handoff (k : Nat)
  /-- the case `<-tp.ctx.Done()` -/
  | done
  /-- the `default` case -/
  | default
  deriving DecidableEq, Repr

/-- Goroutine `k` can be blocked in the `select` of line 68: it is at the
`select` and neither of its cases can proceed.  (It may also not have been
scheduled since it reached the `select`, so that a sender does not find it
waiting: both are possible.) -/
def Sys.blockedInSelect {σ : Type} (s : Sys σ) (k : Nat) : Bool :=
  match s.workers[k]? with
  | some (_, .loop) => !s.tp.ctxDone && s.tp.taskChan.buf.isEmpty && !s.tp.taskChan.closed
  | _ => false

/-- The call `tp.Submit(t)` taking case `c` of its `select`; `none` when the `select`
cannot take that case in state `s`.  The result is what the call did and the
state it leaves. -/
def Submit {σ : Type} (s : Sys σ) (t : Task σ) : SubmitCase → Option (SubmitResult × Sys σ)
  | .send =>
    if s.tp.taskChan.closed then
      some (.panicked "send on closed channel", s.panic "send on closed channel")
    else if s.tp.taskChan.buf.length < s.tp.taskChan.cap then
      some (.returned none,
        { s.setBuf (s.tp.taskChan.buf ++ [t]) with accepted := s.accepted ++ [t] })
    else none
  | .handoff k =>
    match s.workers[k]? with
    | some (id, _) =>
      if s.tp.taskChan.cap = 0 ∧ s.blockedInSelect k = true then
        some (.returned none,
          { s.setPC k id (.task t) with
            accepted := s.accepted ++ [t], received := s.received ++ [(k, t)] })
      else none
    | none => none
  | .done =>
    if s.tp.ctxDone then some (.returned (some "Pool is stopped"), s) else none
  | .default =>
    if s.tp.ctxDone = false ∧ s.tp.taskChan.closed = false
        ∧ ¬ s.tp.taskChan.buf.length < s.tp.taskChan.cap then
      some (.returned (some "Task queue is full"), s)
    else none

/-! Section: `worker` (lines 64-87) -/

/-- Leaving `worker`: the deferred `tp.wg.Done()` runs and the goroutine ends. -/
def workerReturn {σ : Type} (s : Sys σ) (k : Nat) (id : Int) : Sys σ :=
  (s.setPC k id .exited).wgDone

/-- A panic raised while goroutine `k` runs a closure of task `t`: `worker` has
no `recover`, so the goroutine unwinds, its deferred `tp.wg.Done()` runs, and
the program ends with the panic. -/
def workerPanic {σ : Type} (s : Sys σ) (k : Nat) (id : Int) (t : Task σ) (msg : String) :
    Sys σ :=
  { workerReturn s k id with crashed := some msg, panics := s.panics ++ [(k, t, msg)] }

/-- Lines 79-83 for a received task `t`: call `Execute`; when it has returned,
call the callback if there is one; when that has returned, print line 82; then
go back to the `select`.  The call of a nil `Execute` and a panic of either
closure end the program. -/
def workerTask {σ : Type} (s : Sys σ) (k : Nat) (id : Int) (t : Task σ) : Sys σ :=
  match t.Execute with
  | none =>
    workerPanic s k id t "runtime error: invalid memory address or nil pointer dereference"
  | some execute =>
    match execute t.Input s.world with
    | .panicked msg w => workerPanic { s with world := w } k id t msg
    | .returned r w =>
      match t.Callback with
      | none =>
        ({ s with world := w, executed := s.executed ++ [(k, t, r.1, r.2)] } : Sys σ).setPC
          k id .loop
      | some callback =>
        match callback r.1 r.2 w with
        | .panicked msg w2 =>
          workerPanic
            { s with world := w2, executed := s.executed ++ [(k, t, r.1, r.2)],
                     callbacks := s.callbacks ++ [(k, t, r.1, r.2)] } k id t msg
        | .returned _ w2 =>
          (({ s with world := w2, executed := s.executed ++ [(k, t, r.1, r.2)],
                     callbacks := s.callbacks ++ [(k, t, r.1, r.2)] } : Sys σ).print
            s!"Worker {id} finished task\n").setPC k id .loop

/-- Actions of a worker goroutine. -/
inductive WorkerStep where
  /-- line 66: print the start line and reach the `select` -/
  | enter
  /-- the case `<-tp.ctx.Done()` -/
  | done
  /-- the case `task, ok := <-tp.taskChan` -/
  | recv
  /-- lines 79-83 -/
  | exec
  deriving DecidableEq, Repr

/-- One action of worker goroutine `k`; `none` when the goroutine cannot do it. -/
def worker {σ : Type} (s : Sys σ) (k : Nat) (a : WorkerStep) : Option (Sys σ) :=
  match s.workers[k]?, a with
  | some (id, .entry), .enter => some ((s.print s!"Worker {id} started\n").setPC k id .loop)
  | some (id, .loop), .done =>
    if s.tp.ctxDone then some (workerReturn (s.print s!"Worker {id} stopped\n") k id)
    else none
  | some (id, .loop), .recv =>
    match s.tp.taskChan.buf with
    | t :: rest =>
      some { (s.setBuf rest).setPC k id (.task t) with received := s.received ++ [(k, t)] }
    | [] =>
      if s.tp.taskChan.closed then
        some (workerReturn (s.print s!"Worker {id} stopping\n") k id)
      else none
  | some (id, .task t), .exec => some (workerTask s k id t)
  | _, _ => none

/-! Section: `Start` (lines 38-43) and `Stop` (lines 54-62) -/

/-- Actions of the owner goroutine. -/
inductive OwnerStep where
  /-- call `tp.Start()` -/
  | callStart
  /-- one round of the loop in `Start`: `tp.wg.Add(1); go tp.worker(i); i++` -/
  | spawn
  /-- the loop test of `Start` fails and `Start` returns -/
  | startReturn
  /-- call `tp.Stop()` and run `tp.cancel()` -/
  | stopCancel
  /-- the statement `close(tp.taskChan)` -/
  | stopClose
  /-- the call `tp.wg.Wait()` returns, the line is printed and `Stop` returns -/
  | stopReturn
  deriving DecidableEq, Repr

/-- One action of the owner goroutine; `none` when it cannot do it. -/
def owner {σ : Type} (s : Sys σ) : OwnerStep → Option (Sys σ)
  | .callStart =>
    match s.owner with
    | .idle => some { s with owner := .start 0 }
    | _ => none
  | .spawn =>
    match s.owner with
    | .start i =>
      if i < s.tp.workerCount then
        some { s.wgAdd with workers := s.workers ++ [(i, .entry)], owner := .start (i + 1) }
      else none
    | _ => none
  | .startReturn =>
    match s.owner with
    | .start i => if i < s.tp.workerCount then none else some { s with owner := .idle }
    | _ => none
  | .stopCancel =>
    match s.owner with
    | .idle => some { s with tp := { s.tp with ctxDone := true }, owner := .stopCancelled }
    | _ => none
  | .stopClose =>
    match s.owner with
    | .stopCancelled =>
      if s.tp.taskChan.closed then some (s.panic "close of closed channel")
      else some { s with
        tp := { s.tp with taskChan := { s.tp.taskChan with closed := true } },
        owner := .stopClosed }
    | _ => none
  | .stopReturn =>
    match s.owner with
    | .stopClosed =>
      if s.tp.wg = 0 then
        some { s.print "Pool stopped\n" with owner := .idle, stopsReturned := s.stopsReturned + 1 }
      else none
    | _ => none

/-! Section: The transition system -/

/-- Atomic actions of the program. -/
inductive Label (σ : Type) where
  /-- some goroutine calls `tp.Submit(t)` and its `select` takes case `c` -/
  | submit (t : Task σ) (c : SubmitCase)
  | worker (k : Nat) (a : WorkerStep)
  | owner (a : OwnerStep)

/-- One atomic action.  Nothing runs after a panic. -/
def step {σ : Type} (s : Sys σ) (l : Label σ) : Option (Sys σ) :=
  if s.crashed.isSome then none
  else
    match l with
    | .submit t c =>
      match Submit s t c with
      | some (r, s') => some { s' with submitLog := s.submitLog ++ [(t, r)] }
      | none => none
    | .worker k a => worker s k a
    | .owner a => owner s a

/-- Run a list of actions in order; `none` when one of them is not possible. -/
def run {σ : Type} (s : Sys σ) : List (Label σ) → Option (Sys σ)
  | [] => some s
  | l :: ls =>
    match step s l with
    | some s' => run s' ls
    | none => none

/-- States of the executions of a program that builds its pool with
`NewThreadPool(workerCount, taskQueueSize)`. -/
inductive Reachable {σ : Type} (workerCount taskQueueSize : Int) (w : σ) : Sys σ → Prop where
  | init (allocOk : Bool) (tp : ThreadPool σ) :
      NewThreadPool allocOk workerCount taskQueueSize = some tp →
      Reachable workerCount taskQueueSize w (Sys.init tp w)
  | step (s : Sys σ) (l : Label σ) (s' : Sys σ) :
      Reachable workerCount taskQueueSize w s → step s l = some s' →
      Reachable workerCount taskQueueSize w s'

/-! Section: the tasks of `main` (lines 89-120) -/

/-- State owned by `main`: the counter of its own wait group `wg` and the
lines its tasks print. -/
structure MainWorld where
  wg : Int
  out : List String

/-- The verb `%v` on the values that occur. -/
def fmtAny : GoAny → String
  | .nil => "<nil>"
  | .int n => toString n
  | .str x => x

/-- The `Execute` closure of the tasks of `main` (lines 97-102); the sleep is
not modelled.  The type assertion `input.(int)` panics on another value. -/
def mainExecute (input : GoAny) (w : MainWorld) : Outcome (GoAny × GoError) MainWorld :=
  match input with
  | .int id =>
    .returned (.str s!"Result of task {id}", none)
      { w with out := w.out ++ [s!"Processing task {id}\n"] }
  | .nil => .panicked "interface conversion: interface \x7b\x7d is nil, not int" w
  | .str _ => .panicked "interface conversion: interface \x7b\x7d is string, not int" w

/-- The `Callback` closure of the tasks of `main` (lines 103-110): the message,
then the deferred `wg.Done()` on the wait group of `main`, which panics when
the counter would go below zero. -/
def mainCallback (result : GoAny) (err : GoError) (w : MainWorld) : Outcome Unit MainWorld :=
  let w1 : MainWorld :=
    match err with
    | some e => { w with out := w.out ++ [s!"Task failed: {e}\n"] }
    | none => { w with out := w.out ++ [s!"Task completed: {fmtAny result}\n"] }
  if w1.wg - 1 < 0 then .panicked "sync: negative WaitGroup counter" w1
  else .returned () { w1 with wg := w1.wg - 1 }

/-- The task built in round `i` of the loop of `main` (lines 95-110). -/
def mainTask (i : Int) : Task MainWorld :=
  { Input := .int i, Execute := some mainExecute, Callback := some mainCallback }

/-- The state of `main` before its loop. -/
def mainWorld0 : MainWorld := { wg := 0, out := [] }

/-- The pool value that `NewThreadPool(workerCount, n)` returns when `make`
returns a channel. -/
def freshPool (σ : Type) (workerCount : Int) (n : Nat) : ThreadPool σ :=
  { taskChan := { cap := n, buf := [], closed := false }, workerCount := workerCount,
    wg := 0, ctxDone := false }

/-- Number of worker goroutines that have not returned. -/
def live {σ : Type} : List (Int × WorkerPC σ) → Nat
  | [] => 0
  | w :: ws => (if w.2.isExited then 0 else 1) + live ws

/-- A task whose `Execute` fails, for the examples of C6. -/
def failingTask : Task MainWorld :=
  { Input := GoAny.int 7
    Execute := some (fun _ w => Outcome.returned (GoAny.nil, some "boom") w)
    Callback := some mainCallback }

/-- A task with the closures of `main` whose `Input` is not an `int`: the type
assertion of line 98 panics.  For the examples of C6. -/
def badInputTask : Task MainWorld :=
  { Input := GoAny.str "seven"
    Execute := some mainExecute
    Callback := some mainCallback }

/-! Section: invariants of the transition system -/

/-- What holds in every state of every execution of a pool whose queue has
capacity `n`. -/
structure Inv {σ : Type} (n : Nat) (s : Sys σ) : Prop where
  cap_eq : s.tp.taskChan.cap = n
  len_le : s.tp.taskChan.buf.length ≤ n
  closed_done : s.tp.taskChan.closed = true → s.tp.ctxDone = true
  fifo : s.accepted = s.received.map Prod.snd ++ s.tp.taskChan.buf
  wg_live : s.tp.wg = (live s.workers : Int)
  owner_done : s.owner = OwnerPC.stopCancelled → s.tp.ctxDone = true

/-- Facts about the history of `Submit` calls that hold in every state of every
execution of a pool whose queue has capacity `n`. -/
structure LogInv {σ : Type} (n : Nat) (s : Sys σ) : Prop where
  acc_le : s.accepted.length ≤ s.submitLog.length
  first_ok : s.tp.ctxDone = false →
    ∀ e ∈ s.submitLog.take n, e.2 = SubmitResult.returned none
  crash_done : s.crashed.isSome = true → s.tp.ctxDone = true ∨ s.panics ≠ []

end Demo3

namespace Demo3

open Go

/-! Section: the cancellation signal and repeated `Stop` -/

/-- The call `tp.cancel()`, the `CancelFunc` that `context.WithCancel` returned
to `NewThreadPool`: it closes `ctx.Done()`; a call after the first does
nothing. -/
def ThreadPool.cancel {σ : Type} (tp : ThreadPool σ) : ThreadPool σ :=
  { tp with ctxDone := true }

/-- What holds in every state of every execution about completed calls of
`Stop`. -/
structure StopInv {σ : Type} (s : Sys σ) : Prop where
  le_one : s.stopsReturned ≤ 1
  ret_closed : s.stopsReturned = 1 → s.tp.taskChan.closed = true
  wait_open : s.owner = OwnerPC.stopClosed →
    s.tp.taskChan.closed = true ∧ s.stopsReturned = 0

/-- Two tasks without callback whose `Execute` returns different pairs and
leaves the state of `main` alone, for the example of C15. -/
def silentTask (output : GoAny) (err : GoError) : Task MainWorld :=
  { Input := GoAny.nil
    Execute := some (fun _ w => Outcome.returned (output, err) w)
    Callback := none }

end Demo3

namespace Demo3

open Go

/-! Section: the program `main` (lines 89-120) -/

/-- Program counter of `main`. -/
inductive MainLine where
  /-- line 91, before `tp.Start()` -/
  | callStart
  /-- inside `tp.Start()` -/
  | inStart
  /-- line 94, at the loop test with counter `i` -/
  | loop (i : Int)
  /-- line 111: `tp.Submit` of round `i` has returned `err` -/
  | submitted (i : Int) (err : GoError)
  /-- line 118, in `wg.Wait()` -/
  | wait
  /-- line 119: `wg.Wait()` has returned, `tp.Stop()` is not yet called -/
  | callStop
  /-- inside `tp.Stop()` -/
  | inStop
  /-- returned: the program has ended -/
  | finished
  deriving DecidableEq, Repr

/-- State of the running program `main`: the pool with its worker goroutines
(`main` is the owner; `sys.world` holds the wait group `wg` of line 93),
the program counter of `main` and the bound of the loop of line 94. -/
structure MainSys where
  sys : Sys MainWorld
  pc : MainLine
  numTasks : Int

/-- The program state right after line 90, for the constants of lines 90 and
94 (`3`, `10` and `20` in the source). -/
def MainSys.init (allocOk : Bool) (workerCount taskQueueSize numTasks : Int) :
    Option MainSys :=
  match (NewThreadPool allocOk workerCount taskQueueSize : Option (ThreadPool MainWorld)) with
  | some tp => some { sys := Sys.init tp mainWorld0, pc := .callStart, numTasks := numTasks }
  | none => none

/-- The state `MainSys.init` returns when `make` returns a channel. -/
def MainSys.start (workerCount : Int) (taskQueueSize : Nat) (numTasks : Int) : MainSys :=
  { sys := Sys.init (freshPool MainWorld workerCount taskQueueSize) mainWorld0,
    pc := .callStart, numTasks := numTasks }

/-- The next action of `main`, `c` being the case its `select` takes when the
action is the call of `Submit`; `none` when `main` is blocked or has returned. -/
def main (s : MainSys) (c : SubmitCase) : Option MainSys :=
  match s.pc with
  | .callStart =>
    match owner s.sys .callStart with
    | some s' => some { s with sys := s', pc := .inStart }
    | none => none
  | .inStart =>
    match owner s.sys .spawn with
    | some s' => some { s with sys := s' }
    | none =>
      match owner s.sys .startReturn with
      | some s' => some { s with sys := s', pc := .loop 0 }
      | none => none
  | .loop i =>
    if i < s.numTasks then
      match Submit s.sys (mainTask i) c with
      | some (.returned err, s') =>
        some { s with
          sys := { s' with submitLog := s.sys.submitLog ++ [(mainTask i, .returned err)] },
          pc := .submitted i err }
      | some (.panicked msg, s') =>
        some { s with
          sys := { s' with submitLog := s.sys.submitLog ++ [(mainTask i, .panicked msg)] } }
      | none => none
    else some { s with pc := .wait }
  | .submitted i (some e) =>
    some { s with
      sys := { s.sys with world := { s.sys.world with out := s.sys.world.out ++ [e ++ "\n"] } },
      pc := .loop (i + 1) }
  | .submitted i none =>
    some { s with
      sys := { s.sys with world := { s.sys.world with wg := s.sys.world.wg + 1 } },
      pc := .loop (i + 1) }
  | .wait => if s.sys.world.wg = 0 then some { s with pc := .callStop } else none
  | .callStop =>
    match owner s.sys .stopCancel with
    | some s' => some { s with sys := s', pc := .inStop }
    | none => none
  | .inStop =>
    match owner s.sys .stopClose with
    | some s' => some { s with sys := s' }
    | none =>
      match owner s.sys .stopReturn with
      | some s' => some { s with sys := s', pc := .finished }
      | none => none
  | .finished => none

/-- One action of worker goroutine `k` in the program `main`. -/
def poolWorker (s : MainSys) (k : Nat) (a : WorkerStep) : Option MainSys :=
  match worker s.sys k a with
  | some s' => some { s with sys := s' }
  | none => none

/-- Atomic actions of the program `main`. -/
inductive MainLabel where
  /-- the next action of `main`, with the `select` case of `Submit` -/
  | main (c : SubmitCase)
  | worker (k : Nat) (a : WorkerStep)
  deriving DecidableEq, Repr

/-- One atomic action.  Nothing runs after a panic or after `main` has
returned. -/
def progStep (s : MainSys) (l : MainLabel) : Option MainSys :=
  if s.sys.crashed.isSome ∨ s.pc = .finished then none
  else
    match l with
    | .main c => main s c
    | .worker k a => poolWorker s k a

/-- Run a list of actions in order; `none` when one of them is not possible. -/
def progRun (s : MainSys) : List MainLabel → Option MainSys
  | [] => some s
  | l :: ls =>
    match progStep s l with
    | some s' => progRun s' ls
    | none => none

/-- States of the executions of `main` with the given three constants. -/
inductive ProgReachable (workerCount taskQueueSize numTasks : Int) : MainSys → Prop where
  | init (allocOk : Bool) (s : MainSys) :
      MainSys.init allocOk workerCount taskQueueSize numTasks = some s →
      ProgReachable workerCount taskQueueSize numTasks s
  | step (s : MainSys) (l : MainLabel) (s' : MainSys) :
      ProgReachable workerCount taskQueueSize numTasks s → progStep s l = some s' →
      ProgReachable workerCount taskQueueSize numTasks s'

/-- The tasks that worker goroutines have received and not yet executed. -/
def heldTasks {σ : Type} : List (Int × WorkerPC σ) → List (Task σ)
  | [] => []
  | (_, .task t) :: ws => t :: heldTasks ws
  | (_, .entry) :: ws => heldTasks ws
  | (_, .loop) :: ws => heldTasks ws
  | (_, .exited) :: ws => heldTasks ws

/-- Number of `wg.Add(1)` calls that `main` still owes for a `Submit` that has
returned nil: 1 between lines 111 and 114, else 0. -/
def pendingAdd : MainLine → Int
  | .submitted _ none => 1
  | _ => 0

/-- Whether `main` has not yet called `tp.Stop()`. -/
def MainLine.beforeStop : MainLine → Bool
  | .inStop => false
  | .finished => false
  | _ => true

/-- The task a worker goroutine has received and not yet executed. -/
def WorkerPC.holds {σ : Type} : WorkerPC σ → List (Task σ)
  | .task t => [t]
  | _ => []

/-- What holds in every state of every execution of `main` when the queue
has capacity `n` and the loop of line 94 has the bound `numTasks`. -/
structure MainInv (n : Nat) (numTasks : Int) (s : MainSys) : Prop where
  pool : Inv n s.sys
  bound : s.numTasks = numTasks
  isOpen : s.pc.beforeStop = true →
    s.sys.tp.ctxDone = false ∧ s.sys.tp.taskChan.closed = false
  ctr : ∀ i, (s.pc = MainLine.loop i ∨ ∃ e, s.pc = MainLine.submitted i e) → 0 ≤ i
  tasks : ∀ t ∈ s.sys.accepted, ∃ j, t = mainTask j ∧ 0 ≤ j ∧ j < numTasks
    ∧ (∀ i, s.pc = MainLine.loop i → j < i) ∧ (∀ i e, s.pc = MainLine.submitted i e → j ≤ i)
  early : s.pc = MainLine.callStart ∨ s.pc = MainLine.inStart → s.sys.accepted = []
  distinct : s.sys.accepted.Pairwise (fun a b => a.Input ≠ b.Input)
  held : (s.sys.executed.map (fun e => e.2.1) ++ heldTasks s.sys.workers).Perm
    (s.sys.received.map Prod.snd)
  cbs : s.sys.callbacks = s.sys.executed
  count : s.sys.crashed = none →
    s.sys.world.wg + s.sys.callbacks.length + pendingAdd s.pc = s.sys.accepted.length
  log : s.sys.submitLog.countP (fun e => decide (e.2 = SubmitResult.returned none))
    = s.sys.accepted.length
  waited : s.pc = MainLine.callStop → s.sys.crashed = none ∧ s.sys.world.wg = 0

/-- One complete execution of `main` up to the return of `wg.Wait()`: `Start`,
the three workers reach their `select`, ten tasks are accepted, each worker
receives one, three more tasks are accepted, the last seven submissions find
the queue full, then the workers execute the thirteen accepted tasks. -/
def demoSchedule : List MainLabel :=
  List.replicate 5 (MainLabel.main SubmitCase.send)
    ++ [MainLabel.worker 0 WorkerStep.enter, MainLabel.worker 1 WorkerStep.enter,
        MainLabel.worker 2 WorkerStep.enter]
    ++ List.replicate 20 (MainLabel.main SubmitCase.send)
    ++ [MainLabel.worker 0 WorkerStep.recv, MainLabel.worker 1 WorkerStep.recv,
        MainLabel.worker 2 WorkerStep.recv]
    ++ List.replicate 6 (MainLabel.main SubmitCase.send)
    ++ (List.replicate 7
        [MainLabel.main SubmitCase.default, MainLabel.main SubmitCase.send]).flatten
    ++ [MainLabel.main SubmitCase.send]
    ++ [MainLabel.worker 0 WorkerStep.exec, MainLabel.worker 1 WorkerStep.exec,
        MainLabel.worker 2 WorkerStep.exec]
    ++ [MainLabel.worker 0 WorkerStep.recv, MainLabel.worker 0 WorkerStep.exec,
       MainLabel.worker 1 WorkerStep.recv, MainLabel.worker 1 WorkerStep.exec,
       MainLabel.worker 2 WorkerStep.recv, MainLabel.worker 2 WorkerStep.exec,
       MainLabel.worker 0 WorkerStep.recv, MainLabel.worker 0 WorkerStep.exec,
       MainLabel.worker 1 WorkerStep.recv, MainLabel.worker 1 WorkerStep.exec,
       MainLabel.worker 2 WorkerStep.recv, MainLabel.worker 2 WorkerStep.exec,
       MainLabel.worker 0 WorkerStep.recv, MainLabel.worker 0 WorkerStep.exec,
       MainLabel.worker 1 WorkerStep.recv, MainLabel.worker 1 WorkerStep.exec,
       MainLabel.worker 2 WorkerStep.recv, MainLabel.worker 2 WorkerStep.exec,
       MainLabel.worker 0 WorkerStep.recv, MainLabel.worker 0 WorkerStep.exec]
    ++ [MainLabel.main SubmitCase.send]

end Demo3

namespace Demo2

open Go

/-! Section: Data model (`08-chan/demo_2.go`, lines 13-21) -/

/-- Go `int` on a 64-bit platform: the value of an arithmetic result, wrapped
to the range from `-2^63` to `2^63 - 1` (`2^63 = 9223372036854775808`). -/
def wrapInt (x : Int) : Int :=
  (x + 9223372036854775808) % 18446744073709551616 - 9223372036854775808

/-- The struct `Task`. -/
structure Task where
  ID : Int
  Payload : Int
  deriving DecidableEq, Repr

/-- The struct `Result`. -/
structure Result where
  TaskID : Int
  Output : Int
  deriving DecidableEq, Repr

/-- The `Result` a worker builds for a task at line 74. -/
def resultOf (t : Task) : Result := { TaskID := t.ID, Output := wrapInt (t.Payload * 2) }

/-! Section: Goroutines -/

/-- Program counter of `main` (lines 23-64). -/
inductive MainPC where
  /-- at the loop test of line 34 with counter `i` -/
  | spawn (i : Int)
  /-- about to start the task generator, line 39 -/
  | goProducer
  /-- about to start the goroutine that closes `results`, line 49 -/
  | goCloser
  /-- in the loop `for result := range results`, line 58 -/
  | range
  /-- after line 62: `main` has returned and the program has ended -/
  | finished
  deriving DecidableEq, Repr

/-- Program counter of the task generator (lines 39-47). -/
inductive ProducerPC where
  | notStarted
  /-- at the loop test of line 41 with counter `i` -/
  | loop (i : Int)
  /-- at the send of line 43 with the task built for round `i` -/
  | send (i : Int) (t : Task)
  /-- after `close(tasks)` -/
  | finished
  deriving DecidableEq, Repr

/-- Program counter of the goroutine of lines 49-52. -/
inductive CloserPC where
  | notStarted
  /-- in `wg.Wait()` -/
  | waiting
  /-- about to run `close(results)` -/
  | closing
  | finished
  deriving DecidableEq, Repr

/-- Program counter of a goroutine running `worker` (lines 66-77). -/
inductive WorkerPC where
  /-- at `for task := range tasks` -/
  | range
  /-- received `t`, in the sleep of line 70 -/
  | task (t : Task)
  /-- at the send of line 74 -/
  | send (r : Result)
  /-- returned; the deferred `wg.Done()` has run -/
  | exited
  deriving DecidableEq, Repr

/-- Whether a worker goroutine has returned. -/
def WorkerPC.isExited : WorkerPC → Bool
  | .exited => true
  | _ => false

/-- The result a worker goroutine still has to send, if any. -/
def WorkerPC.held : WorkerPC → Option Result
  | .task t => some (resultOf t)
  | .send r => some r
  | _ => none

/-- The goroutines of the program. -/
inductive Goroutine where
  | main
  | producer
  | closer
  | worker (k : Nat)
  deriving DecidableEq, Repr

/-- State of the running program.  `numWorkers` and `numTasks` are the two
constants of lines 26-27 (3 and 10 in the source). -/
structure Sys where
  numWorkers : Int
  numTasks : Int
  tasks : Chan Task
  results : Chan Result
  /-- counter of the wait group `wg` -/
  wg : Int
  main : MainPC
  producer : ProducerPC
  closer : CloserPC
  /-- worker goroutines in spawn order: the `id` argument and the program counter -/
  workers : List (Int × WorkerPC)
  /-- lines written to standard output -/
  out : List String
  /-- message of the panic that ended the program, if any -/
  crashed : Option String
  /-- history: tasks built by the generator, in order -/
  generated : List Task
  /-- history: tasks received from `tasks`, with the receiving goroutine -/
  received : List (Nat × Task)
  /-- history: results sent on `results`, with the sending goroutine -/
  sent : List (Nat × Result)
  /-- history: results received by `main` -/
  printed : List Result
  /-- history: every `close(results)`: who ran it and the counter of `wg` then -/
  closeLog : List (Goroutine × Int)
  /-- history: number of `wg.Done()` calls -/
  doneCalls : Nat

/-- Size of a `Task` and of a `Result` value on a 64-bit platform: two `int`
fields, in bytes. -/
def elemSize : Nat := 16

/-- The program state after lines 26-32: both channels made, nothing started;
`allocTasks` and `allocResults` say whether the machine provides the memory
for the two buffers; `none` when a `make` does not return a channel. -/
def Sys.init (allocTasks allocResults : Bool) (numWorkers numTasks : Int) : Option Sys :=
  match Chan.make Task elemSize allocTasks numWorkers,
      Chan.make Result elemSize allocResults numTasks with
  | some tasks, some results =>
    some { numWorkers := numWorkers, numTasks := numTasks, tasks := tasks, results := results,
           wg := 0, main := .spawn 0, producer := .notStarted, closer := .notStarted,
           workers := [], out := [], crashed := none, generated := [], received := [], sent := [],
           printed := [], closeLog := [], doneCalls := 0 }
  | _, _ => none

/-- The state that `Sys.init` returns for two constants that `make` accepts as
sizes. -/
def Sys.start (numWorkers numTasks : Nat) : Sys :=
  { numWorkers := numWorkers, numTasks := numTasks,
    tasks := { cap := numWorkers, buf := [], closed := false },
    results := { cap := numTasks, buf := [], closed := false },
    wg := 0, main := .spawn 0, producer := .notStarted, closer := .notStarted,
    workers := [], out := [], crashed := none, generated := [], received := [], sent := [],
    printed := [], closeLog := [], doneCalls := 0 }

/-- A panic ends the program. -/
def Sys.panic (s : Sys) (msg : String) : Sys :=
  { s with crashed := some msg }

/-- Write a line to standard output. -/
def Sys.print (s : Sys) (line : String) : Sys :=
  { s with out := s.out ++ [line] }

/-- Move worker goroutine `k` to program counter `pc`. -/
def Sys.setPC (s : Sys) (k : Nat) (id : Int) (pc : WorkerPC) : Sys :=
  { s with workers := s.workers.set k (id, pc) }

/-! Section: `main` (lines 23-64) -/

/-- The next action of `main`; `none` when it is blocked or has returned. -/
def mainStep (s : Sys) : Option Sys :=
  match s.main with
  | .spawn i =>
    if i < s.numWorkers then
      some { s with wg := s.wg + 1, workers := s.workers ++ [(i, .range)], main := .spawn (i + 1) }
    else some { s with main := .goProducer }
  | .goProducer => some { s with producer := .loop 0, main := .goCloser }
  | .goCloser => some { s with closer := .waiting, main := .range }
  | .range =>
    match s.results.buf with
    | r :: rest =>
      some { s.print s!"Main: Result\x7b Task ID: {r.TaskID}, Output: {r.Output} \x7d\n" with
        results := { s.results with buf := rest }, printed := s.printed ++ [r] }
    | [] =>
      if s.results.closed then
        some { s.print "Main: All workers completed.\n" with main := .finished }
      else none
  | .finished => none

/-! Section: the task generator (lines 39-47) -/

/-- The next action of the task generator, `p` being the value that
`rand.Intn(100)` returns when a task is built; `none` when it is blocked. -/
def producerStep (s : Sys) (p : Int) : Option Sys :=
  match s.producer with
  | .notStarted => none
  | .loop i =>
    if i < s.numTasks then
      if 0 ≤ p ∧ p < 100 then
        some { s.print s!"Main: Generated Task ID: {i}\n" with
          generated := s.generated ++ [{ ID := i, Payload := p }],
          producer := .send i { ID := i, Payload := p } }
      else none
    else if s.tasks.closed then some (s.panic "close of closed channel")
    else some { s with tasks := { s.tasks with closed := true }, producer := .finished }
  | .send i t =>
    if s.tasks.closed then some (s.panic "send on closed channel")
    else if s.tasks.buf.length < s.tasks.cap then
      some { s with tasks := { s.tasks with buf := s.tasks.buf ++ [t] }, producer := .loop (i + 1) }
    else none
  | .finished => none

/-! Section: the goroutine that closes `results` (lines 49-52) -/

/-- The next action of the closing goroutine; `none` when it is blocked. -/
def closerStep (s : Sys) : Option Sys :=
  match s.closer with
  | .notStarted => none
  | .waiting => if s.wg = 0 then some { s with closer := .closing } else none
  | .closing =>
    if s.results.closed then some (s.panic "close of closed channel")
    else some { s with results := { s.results with closed := true },
                       closeLog := s.closeLog ++ [(Goroutine.closer, s.wg)],
                       closer := .finished }
  | .finished => none

/-! Section: `worker` (lines 66-77) -/

/-- The next action of worker goroutine `k`; `none` when it is blocked or has
returned. -/
def workerStep (s : Sys) (k : Nat) : Option Sys :=
  match s.workers[k]? with
  | some (id, .range) =>
    match s.tasks.buf with
    | t :: rest =>
      some { s.setPC k id (.task t) with
        tasks := { s.tasks with buf := rest }, received := s.received ++ [(k, t)] }
    | [] =>
      if s.tasks.closed then
        if s.wg - 1 < 0 then some (s.panic "sync: negative WaitGroup counter")
        else some { s.setPC k id .exited with wg := s.wg - 1, doneCalls := s.doneCalls + 1 }
      else none
  | some (id, .task t) =>
    some ((s.print s!"Worker {id} processing Task ID: {t.ID}\n").setPC k id
      (.send { TaskID := t.ID, Output := wrapInt (t.Payload * 2) }))
  | some (id, .send r) =>
    if s.results.closed then some (s.panic "send on closed channel")
    else if s.results.buf.length < s.results.cap then
      some { s.setPC k id .range with
        results := { s.results with buf := s.results.buf ++ [r] },
        sent := s.sent ++ [(k, r)] }
    else none
  | _ => none

/-! Section: the transition system -/

/-- Atomic actions of the program. -/
inductive Label where
  | main
  /-- the generator, `p` being what `rand.Intn(100)` returns -/
  | producer (p : Int)
  | closer
  | worker (k : Nat)
  deriving DecidableEq, Repr

/-- One atomic action.  Nothing runs after a panic or after `main` has returned. -/
def step (s : Sys) (l : Label) : Option Sys :=
  if s.crashed.isSome ∨ s.main = .finished then none
  else
    match l with
    | .main => mainStep s
    | .producer p => producerStep s p
    | .closer => closerStep s
    | .worker k => workerStep s k

/-- Run a list of actions in order; `none` when one of them is not possible. -/
def run (s : Sys) : List Label → Option Sys
  | [] => some s
  | l :: ls =>
    match step s l with
    | some s' => run s' ls
    | none => none

/-- States of the executions of the program with the given two constants. -/
inductive Reachable (numWorkers numTasks : Int) : Sys → Prop where
  | init (allocTasks allocResults : Bool) (s : Sys) :
      Sys.init allocTasks allocResults numWorkers numTasks = some s →
      Reachable numWorkers numTasks s
  | step (s : Sys) (l : Label) (s' : Sys) :
      Reachable numWorkers numTasks s → step s l = some s' → Reachable numWorkers numTasks s'

/-- Number of worker goroutines that have not returned. -/
def live : List (Int × WorkerPC) → Nat
  | [] => 0
  | w :: ws => (if w.2.isExited then 0 else 1) + live ws

/-- How often the result `x` is still held by a worker goroutine. -/
def heldCount (x : Result) : List (Int × WorkerPC) → Nat
  | [] => 0
  | w :: ws => (if w.2.held = some x then 1 else 0) + heldCount x ws

/-- The task the generator has built and not yet sent, if any. -/
def ProducerPC.held : ProducerPC → List Task
  | .send _ t => [t]
  | _ => []

/-! Section: a bound on the number of actions still possible -/

/-- Weight of the program counter of `main`. -/
def MainPC.weight (numWorkers : Int) : MainPC → Nat
  | .spawn i => 2 * (numWorkers - i).toNat + 4
  | .goProducer => 3
  | .goCloser => 2
  | .range => 1
  | .finished => 0

/-- Weight of the program counter of the generator: 8 for each task not yet
built, 7 for the task built and not yet sent. -/
def ProducerPC.weight (numTasks : Int) : ProducerPC → Nat
  | .notStarted => 8 * numTasks.toNat + 2
  | .loop i => 8 * (numTasks - i).toNat + 1
  | .send i _ => 8 * (numTasks - i - 1).toNat + 7
  | .finished => 0

/-- Weight of the program counter of the closing goroutine. -/
def CloserPC.weight : CloserPC → Nat
  | .notStarted => 3
  | .waiting => 2
  | .closing => 1
  | .finished => 0

/-- Weight of the program counter of a worker. -/
def WorkerPC.weight : WorkerPC → Nat
  | .range => 1
  | .task _ => 4
  | .send _ => 3
  | .exited => 0

/-- Sum of the weights of the workers. -/
def workersWeight : List (Int × WorkerPC) → Nat
  | [] => 0
  | w :: ws => w.2.weight + workersWeight ws

/-- A number that every action makes smaller: no execution from `s` has more
actions than this. -/
def Sys.measure (s : Sys) : Nat :=
  s.main.weight s.numWorkers + s.producer.weight s.numTasks + s.closer.weight
    + workersWeight s.workers + 5 * s.tasks.buf.length + s.results.buf.length
    + (if s.crashed.isSome then 0 else 1)

/-! Section: what one worker received and sent -/

/-- The tasks that worker goroutine `k` has received, in the order received. -/
def receivedBy (k : Nat) (s : Sys) : List Task :=
  (s.received.filter (fun e => decide (e.1 = k))).map Prod.snd

/-- The results that worker goroutine `k` has sent, in the order sent. -/
def sentBy (k : Nat) (s : Sys) : List Result :=
  (s.sent.filter (fun e => decide (e.1 = k))).map Prod.snd

/-- The result that worker goroutine `k` still has to send: none or one. -/
def heldOf (s : Sys) (k : Nat) : List Result :=
  match s.workers[k]? with
  | some (_, pc) => pc.held.toList
  | none => []

/-! Section: invariants of the transition system -/

/-- What holds in every state of every execution of the program with the
constants `nW` and `nT`: the bookkeeping of program counters, channels and
wait group. -/
structure Inv (nW nT : Int) (s : Sys) : Prop where
  nw : s.numWorkers = nW
  nt : s.numTasks = nT
  nw0 : 0 ≤ nW
  nt0 : 0 ≤ nT
  tcap : s.tasks.cap = nW.toNat
  rcap : s.results.cap = nT.toNat
  wg_live : s.wg = (live s.workers : Int)
  done_live : s.doneCalls + live s.workers = s.workers.length
  nocrash : s.crashed = none
  m_spawn : ∀ i, s.main = MainPC.spawn i →
    (s.workers.length : Int) = i ∧ i ≤ nW ∧ s.producer = ProducerPC.notStarted
      ∧ s.closer = CloserPC.notStarted
  m_goP : s.main = MainPC.goProducer →
    (s.workers.length : Int) = nW ∧ s.producer = ProducerPC.notStarted
      ∧ s.closer = CloserPC.notStarted
  m_goC : s.main = MainPC.goCloser →
    (s.workers.length : Int) = nW ∧ s.closer = CloserPC.notStarted
  m_range : s.main = MainPC.range ∨ s.main = MainPC.finished →
    (s.workers.length : Int) = nW
  c_wg : s.closer = CloserPC.closing ∨ s.closer = CloserPC.finished → s.wg = 0
  r_closed : s.results.closed = true ↔ s.closer = CloserPC.finished
  clog : s.closeLog = if s.closer = CloserPC.finished then [(Goroutine.closer, 0)] else []
  fin_closed : s.main = MainPC.finished → s.results.closed = true
  t_closed : s.tasks.closed = true ↔ s.producer = ProducerPC.finished
  p_not : s.producer = ProducerPC.notStarted → s.generated = [] ∧ s.tasks.buf = []
  p_loop : ∀ i, s.producer = ProducerPC.loop i → (s.generated.length : Int) = i ∧ i ≤ nT
  p_send : ∀ i t, s.producer = ProducerPC.send i t →
    (s.generated.length : Int) = i + 1 ∧ i < nT
  p_fin : s.producer = ProducerPC.finished → (s.generated.length : Int) = nT
  exited_drained : ∀ w ∈ s.workers, w.2 = WorkerPC.exited →
    s.tasks.closed = true ∧ s.tasks.buf = []
  started_p : s.main = MainPC.goCloser ∨ s.main = MainPC.range ∨ s.main = MainPC.finished →
    s.producer ≠ ProducerPC.notStarted
  started_c : s.main = MainPC.range ∨ s.main = MainPC.finished →
    s.closer ≠ CloserPC.notStarted

/-- Every result of a generated task is in exactly one place: already sent,
held by a worker, waiting as a task in `tasks`, or held by the generator; and
what was sent is what `main` has received followed by what `results` buffers. -/
structure CountInv (s : Sys) : Prop where
  count : ∀ x : Result, List.count x (s.generated.map resultOf)
    = List.count x (s.sent.map Prod.snd) + heldCount x s.workers
      + List.count x (s.tasks.buf.map resultOf) + List.count x (s.producer.held.map resultOf)
  printed : s.sent.map Prod.snd = s.printed ++ s.results.buf

/-- One worker of the program at its `range` loop, the tasks channel closed
with two tasks still buffered; the first payload doubles past the largest
Go `int`. -/
def oneWorkerState : Sys :=
  { Sys.start 1 2 with
    main := .range, wg := 1, workers := [(0, .range)],
    tasks := { cap := 2,
               buf := [{ ID := 0, Payload := 4611686018427387904 }, { ID := 1, Payload := 21 }],
               closed := true } }

end Demo2

namespace Demo4

open Go

/-! Section: Data model (`02-02-chan/demo_4.go`, lines 10-13) -/

/-- The struct `Item`. -/
structure Item where
  ID : Int
  Value : Int
  deriving DecidableEq, Repr

/-! Section: Goroutines -/

/-- Program counter of `main` (lines 34-62). -/
inductive MainPC where
  /-- at the loop test of line 42 with counter `i` -/
  | spawnP (i : Int)
  /-- at the loop test of line 48 with counter `i` -/
  | spawnC (i : Int)
  /-- before the `go` statement of line 53 -/
  | goCloser
  /-- in `wg2.Wait()` (line 58) -/
  | wait
  /-- returned: the program has ended -/
  | finished
  deriving DecidableEq, Repr

/-- Program counter of a goroutine running `producer` (lines 15-24); the sleep
of line 22 is not modelled. -/
inductive ProducerPC where
  /-- at the loop test of line 18 with counter `i` -/
  | loop (i : Int)
  /-- at the send of line 21 with the item built in round `i` -/
  | send (i : Int) (item : Item)
  /-- returned; the deferred `wg.Done()` has run -/
  | exited
  deriving DecidableEq, Repr

/-- Program counter of a goroutine running `consumer` (lines 26-32); the sleep
of line 30 is not modelled. -/
inductive ConsumerPC where
  /-- at the receive of the `range` loop (line 28) -/
  | range
  /-- in the loop body with the received item (line 29) -/
  | body (item : Item)
  /-- returned; the deferred `wg.Done()` has run -/
  | exited
  deriving DecidableEq, Repr

/-- Program counter of the goroutine of lines 53-56. -/
inductive CloserPC where
  | notStarted
  /-- in `wg1.Wait()` -/
  | waiting
  /-- before `close(itemCh)` -/
  | closing
  | finished
  deriving DecidableEq, Repr

/-- State of the running program. -/
structure Sys where
  nProducer : Int
  nConsumer : Int
  itemCh : Chan Item
  /-- counters of the wait groups `wg1` and `wg2` -/
  wg1 : Int
  wg2 : Int
  main : MainPC
  /-- producer goroutines in spawn order: the `producerID` argument and the
  program counter -/
  producers : List (Int × ProducerPC)
  /-- consumer goroutines in spawn order: the `consumerID` argument and the
  program counter -/
  consumers : List (Int × ConsumerPC)
  closer : CloserPC
  /-- lines written to standard output -/
  out : List String
  /-- message of the panic that ended the program, if any -/
  crashed : Option String
  /-- history: items sent on `itemCh`, with the sending goroutine -/
  sent : List (Nat × Item)
  /-- history: items received from `itemCh`, with the receiving goroutine -/
  consumed : List (Nat × Item)

/-- The program state after line 39, for the two constants of lines 37-38
(`2` and `10` in the source); an `Item` has two `int` fields, 16 bytes;
`allocOk` says whether the machine provides the memory for the buffer. -/
def Sys.init (allocOk : Bool) (nProducer nConsumer : Int) : Option Sys :=
  match Chan.make Item 16 allocOk 10 with
  | some ch =>
    some { nProducer := nProducer, nConsumer := nConsumer, itemCh := ch, wg1 := 0, wg2 := 0,
           main := .spawnP 0, producers := [], consumers := [], closer := .notStarted,
           out := [], crashed := none, sent := [], consumed := [] }
  | none => none

/-- The state that `Sys.init` returns when `make` returns a channel. -/
def Sys.start (nProducer nConsumer : Int) : Sys :=
  { nProducer := nProducer, nConsumer := nConsumer,
    itemCh := { cap := 10, buf := [], closed := false }, wg1 := 0, wg2 := 0,
    main := .spawnP 0, producers := [], consumers := [], closer := .notStarted,
    out := [], crashed := none, sent := [], consumed := [] }

/-- A panic ends the program. -/
def Sys.panic (s : Sys) (msg : String) : Sys :=
  { s with crashed := some msg }

/-- Write a line to standard output. -/
def Sys.print (s : Sys) (line : String) : Sys :=
  { s with out := s.out ++ [line] }

/-! Section: `main` (lines 34-62) -/

/-- The next action of `main`; `none` when it is blocked or has returned. -/
def mainStep (s : Sys) : Option Sys :=
  match s.main with
  | .spawnP i =>
    if i < s.nProducer then
      some { s with wg1 := s.wg1 + 1, producers := s.producers ++ [(i, .loop 0)],
                    main := .spawnP (i + 1) }
    else some { s with main := .spawnC 0 }
  | .spawnC i =>
    if i < s.nConsumer then
      some { s with wg2 := s.wg2 + 1, consumers := s.consumers ++ [(i, .range)],
                    main := .spawnC (i + 1) }
    else some { s with main := .goCloser }
  | .goCloser => some { s with closer := .waiting, main := .wait }
  | .wait =>
    if s.wg2 = 0 then
      some { s.print "All producers and consumers have completed.\n" with main := .finished }
    else none
  | .finished => none

/-! Section: `producer` (lines 15-24) -/

/-- The item built at line 19 in round `i` by the producer with argument
`producerID`, `v` being what `rand.Intn(100)` returns (Go `int` arithmetic). -/
def mkItem (producerID i v : Int) : Item :=
  { ID := Demo2.wrapInt (Demo2.wrapInt (producerID * 10) + i), Value := v }

/-- The line printed at line 20. -/
def producerLine (producerID : Int) (item : Item) : String :=
  s!"Producer[ {producerID} ] produce item: \x7bID:  {item.ID} , Value:  {item.Value} \x7d\n"

/-- The next action of producer goroutine `k`, `v` being the value that
`rand.Intn(100)` returns when an item is built; `none` when the goroutine is
blocked or has returned. -/
def producerStep (s : Sys) (k : Nat) (v : Int) : Option Sys :=
  match s.producers[k]? with
  | some (id, .loop i) =>
    if i < 10 then
      if 0 ≤ v ∧ v < 100 then
        some { s.print (producerLine id (mkItem id i v)) with
          producers := s.producers.set k (id, .send i (mkItem id i v)) }
      else none
    else if s.wg1 - 1 < 0 then some (s.panic "sync: negative WaitGroup counter")
    else some { s with wg1 := s.wg1 - 1, producers := s.producers.set k (id, .exited) }
  | some (id, .send i item) =>
    if s.itemCh.closed then some (s.panic "send on closed channel")
    else if s.itemCh.buf.length < s.itemCh.cap then
      some { s with itemCh := { s.itemCh with buf := s.itemCh.buf ++ [item] },
                    sent := s.sent ++ [(k, item)],
                    producers := s.producers.set k (id, .loop (i + 1)) }
    else none
  | _ => none

/-! Section: `consumer` (lines 26-32) -/

/-- The line printed at line 29. -/
def consumerLine (consumerID : Int) (item : Item) : String :=
  s!"\t\t\t\t\t\t\tConsumer[ {consumerID} ] consume item: \x7bID:  {item.ID} , Value:  {item.Value} \x7d\n"

/-- The next action of consumer goroutine `k`; `none` when it is blocked or
has returned. -/
def consumerStep (s : Sys) (k : Nat) : Option Sys :=
  match s.consumers[k]? with
  | some (id, .range) =>
    match s.itemCh.buf with
    | item :: rest =>
      some { s with itemCh := { s.itemCh with buf := rest },
                    consumed := s.consumed ++ [(k, item)],
                    consumers := s.consumers.set k (id, .body item) }
    | [] =>
      if s.itemCh.closed then
        if s.wg2 - 1 < 0 then some (s.panic "sync: negative WaitGroup counter")
        else some { s with wg2 := s.wg2 - 1, consumers := s.consumers.set k (id, .exited) }
      else none
  | some (id, .body item) =>
    some { s.print (consumerLine id item) with
      consumers := s.consumers.set k (id, .range) }
  | _ => none

/-! Section: the goroutine that closes `itemCh` (lines 53-56) -/

/-- The next action of the closing goroutine; `none` when it is blocked. -/
def closerStep (s : Sys) : Option Sys :=
  match s.closer with
  | .notStarted => none
  | .waiting => if s.wg1 = 0 then some { s with closer := .closing } else none
  | .closing =>
    if s.itemCh.closed then some (s.panic "close of closed channel")
    else some { s with itemCh := { s.itemCh with closed := true }, closer := .finished }
  | .finished => none

/-! Section: the transition system -/

/-- Atomic actions of the program. -/
inductive Label where
  | main
  /-- producer goroutine `k`, `v` being what `rand.Intn(100)` returns -/
  | producer (k : Nat) (v : Int)
  | consumer (k : Nat)
  | closer
  deriving DecidableEq, Repr

/-- One atomic action.  Nothing runs after a panic or after `main` has
returned. -/
def step (s : Sys) (l : Label) : Option Sys :=
  if s.crashed.isSome ∨ s.main = .finished then none
  else
    match l with
    | .main => mainStep s
    | .producer k v => producerStep s k v
    | .consumer k => consumerStep s k
    | .closer => closerStep s

/-- Run a list of actions in order; `none` when one of them is not possible. -/
def run (s : Sys) : List Label → Option Sys
  | [] => some s
  | l :: ls =>
    match step s l with
    | some s' => run s' ls
    | none => none

/-- States of the executions of the program with the given two constants. -/
inductive Reachable (nProducer nConsumer : Int) : Sys → Prop where
  | init (allocOk : Bool) (s : Sys) :
      Sys.init allocOk nProducer nConsumer = some s → Reachable nProducer nConsumer s
  | step (s : Sys) (l : Label) (s' : Sys) :
      Reachable nProducer nConsumer s → step s l = some s' →
      Reachable nProducer nConsumer s'

/-! Section: counting -/

/-- The sum of `f` over a list of goroutines. -/
def total {α : Type} (f : α → Nat) (ws : List α) : Nat := (ws.map f).sum

/-- Whether a producer goroutine has not returned: 1 or 0. -/
def liveP : Int × ProducerPC → Nat
  | (_, .exited) => 0
  | _ => 1

/-- Whether a consumer goroutine has not returned: 1 or 0. -/
def liveC : Int × ConsumerPC → Nat
  | (_, .exited) => 0
  | _ => 1

/-- Number of items a producer goroutine has sent. -/
def sentOf : Int × ProducerPC → Nat
  | (_, .loop i) => i.toNat
  | (_, .send i _) => i.toNat
  | (_, .exited) => 10

/-- The range of the loop counter of a producer goroutine. -/
def ProducerPC.inRange : ProducerPC → Prop
  | .loop i => 0 ≤ i ∧ i ≤ 10
  | .send i _ => 0 ≤ i ∧ i < 10
  | .exited => True

/-- What holds in every state of every execution of the program with the
constants `nProducer` and `nConsumer`. -/
structure Inv (nProducer nConsumer : Int) (s : Sys) : Prop where
  constP : s.nProducer = nProducer
  constC : s.nConsumer = nConsumer
  nocrash : s.crashed = none
  fifo : s.consumed.map Prod.snd ++ s.itemCh.buf = s.sent.map Prod.snd
  wg1_live : s.wg1 = (total liveP s.producers : Int)
  wg2_live : s.wg2 = (total liveC s.consumers : Int)
  sent_total : s.sent.length = total sentOf s.producers
  ctr : ∀ w ∈ s.producers, w.2.inRange
  spawningP : ∀ i, s.main = MainPC.spawnP i →
    0 ≤ i ∧ s.producers.length = i.toNat ∧ (i ≤ nProducer ∨ i = 0) ∧ s.consumers = []
  spawnedP : (∀ i, s.main ≠ MainPC.spawnP i) → s.producers.length = nProducer.toNat
  spawningC : ∀ i, s.main = MainPC.spawnC i →
    0 ≤ i ∧ s.consumers.length = i.toNat ∧ (i ≤ nConsumer ∨ i = 0)
  spawnedC : s.main = MainPC.goCloser ∨ s.main = MainPC.wait ∨ s.main = MainPC.finished →
    s.consumers.length = nConsumer.toNat
  closerStarted : s.closer ≠ CloserPC.notStarted →
    s.main = MainPC.wait ∨ s.main = MainPC.finished
  closerWaited : s.closer = CloserPC.closing ∨ s.closer = CloserPC.finished → s.wg1 = 0
  closedBy : s.itemCh.closed = true ↔ s.closer = CloserPC.finished
  drained : ∀ w ∈ s.consumers, w.2 = ConsumerPC.exited →
    s.itemCh.closed = true ∧ s.itemCh.buf = []
  mainDone : s.main = MainPC.finished → s.wg2 = 0

/-- One complete execution of the program with one producer and one consumer:
the goroutines are started, the producer sends its ten items (the random
value being 7 each time) and returns, the channel is closed, the consumer
receives the ten items and returns, `main` returns. -/
def fullSchedule : List Label :=
  List.replicate 5 Label.main
    ++ (List.replicate 10 [Label.producer 0 7, Label.producer 0 7]).flatten
    ++ [Label.producer 0 7, Label.closer, Label.closer]
    ++ List.replicate 21 (Label.consumer 0)
    ++ [Label.main]

end Demo4

namespace DeferDemo

/-! Section: `f2` and `f3` of `codes/05-01-defer/demo_1.go` (lines 108-129) -/

/-- The variables of a running call of `f2` or `f3`: the result slot that the
caller reads, the local variable `result` of `f3` (in `f2` the name `result`
is the result slot itself), and the lines printed. -/
structure Frame where
  slot : Int
  resultVar : Int
  out : List String
  deriving DecidableEq, Repr

/-- Run the deferred calls of a function that is returning, last deferred
first; the list holds them in the order they were deferred. -/
def runDeferred (deferred : List (Frame → Frame)) (fr : Frame) : Frame :=
  deferred.foldr (fun d acc => d acc) fr

/-- The closure deferred by `f2` (lines 113-115): `result += 10` on the named
result. -/
def f2Deferred (fr : Frame) : Frame :=
  { fr with slot := Demo2.wrapInt (fr.slot + 10) }

/-- The function `f2` (lines 111-117): the returned value and the output.  The
statement `return 5` stores 5 in the named result, then the deferred calls
run, then the caller gets the named result. -/
def f2 : Int × List String :=
  let fr0 : Frame := { slot := 0, resultVar := 0, out := [] }
  let fr1 : Frame :=
    { fr0 with out := fr0.out ++ ["---------------- f2 -------------------\n"] }
  let deferred := [f2Deferred]
  let fr2 : Frame := { fr1 with slot := 5 }
  let fr3 := runDeferred deferred fr2
  (fr3.slot, fr3.out)

/-- The closure deferred by `f3` (lines 124-127): `result += 10` on the local
variable, and a line of output. -/
def f3Deferred (fr : Frame) : Frame :=
  let r := Demo2.wrapInt (fr.resultVar + 10)
  { fr with resultVar := r, out := fr.out ++ [s!"defer result: {r}\n"] }

/-- The function `f3` (lines 121-129): the returned value and the output.  The
statement `return result` copies the local variable into the unnamed result
slot, then the deferred calls run, then the caller gets the slot. -/
def f3 : Int × List String :=
  let fr0 : Frame := { slot := 0, resultVar := 0, out := [] }
  let fr1 : Frame :=
    { fr0 with out := fr0.out ++ ["---------------- f3 -------------------\n"] }
  let fr2 : Frame := { fr1 with resultVar := 5 }
  let deferred := [f3Deferred]
  let fr3 : Frame := { fr2 with slot := fr2.resultVar }
  let fr4 := runDeferred deferred fr3
  (fr4.slot, fr4.out)

end DeferDemo

namespace Go

theorem mem_of_getElem? {α : Type} (xs : List α) (k : Nat) (x : α) (h : xs[k]? = some x) :
    x ∈ xs := by
  rw [List.getElem?_eq_some] at h
  obtain ⟨hk, rfl⟩ := h
  exact List.getElem_mem hk

theorem make_some_inv {α : Type} (elemSize : Nat) (allocOk : Bool) (size : Int) (ch : Chan α)
    (h : Chan.make α elemSize allocOk size = some ch) :
    0 ≤ size ∧ size * (elemSize : Int) ≤ ((maxAlloc - hchanSize : Nat) : Int)
      ∧ ch = { cap := size.toNat, buf := [], closed := false } := by
  unfold Chan.make at h
  split at h
  · simp at h
  · rename_i hn
    split at h
    · simp only [Option.some.injEq] at h
      refine ⟨by omega, by omega, h.symm⟩
    · simp at h

theorem make_ofNat {α : Type} (elemSize n : Nat) (h : n * elemSize ≤ maxAlloc - hchanSize) :
    Chan.make α elemSize true (n : Int) = some { cap := n, buf := [], closed := false } := by
  have h1 : ¬ ((n : Int) < 0) := by omega
  have h2 : ¬ (((maxAlloc - hchanSize : Nat) : Int) < (n : Int) * (elemSize : Int)) := by
    have : ((n * elemSize : Nat) : Int) ≤ ((maxAlloc - hchanSize : Nat) : Int) :=
      Int.ofNat_le.2 h
    push_cast at this
    omega
  simp [Chan.make, h1, h2]

end Go

namespace Demo3

open Go

/-! Section: basic facts about the worker list -/

theorem live_append {σ : Type} (xs ys : List (Int × WorkerPC σ)) :
    live (xs ++ ys) = live xs + live ys := by
  induction xs with
  | nil => simp [live]
  | cons x xs ih => simp [live, ih, Nat.add_assoc]

theorem live_set {σ : Type} (ws : List (Int × WorkerPC σ)) (k : Nat) (w w' : Int × WorkerPC σ)
    (h : ws[k]? = some w) :
    live (ws.set k w') + (if w.2.isExited then 0 else 1)
      = live ws + (if w'.2.isExited then 0 else 1) := by
  induction ws generalizing k with
  | nil => simp at h
  | cons x xs ih =>
    cases k with
    | zero =>
      simp at h
      subst h
      simp [live]
      omega
    | succ k =>
      simp at h
      have := ih k h
      simp [live]
      omega

theorem live_eq_zero {σ : Type} (ws : List (Int × WorkerPC σ)) :
    live ws = 0 ↔ ∀ w ∈ ws, w.2.isExited = true := by
  induction ws with
  | nil => simp [live]
  | cons x xs ih =>
    simp only [live, List.mem_cons, forall_eq_or_imp]
    rw [← ih]
    by_cases hx : x.2.isExited = true <;> simp [hx]

/-! Section: the invariant of the transition system -/

theorem Inv_init {σ : Type} (allocOk : Bool) (workerCount taskQueueSize : Int) (w : σ)
    (tp : ThreadPool σ) (h : NewThreadPool allocOk workerCount taskQueueSize = some tp) :
    Inv taskQueueSize.toNat (Sys.init tp w) := by
  unfold NewThreadPool at h
  split at h
  · simp at h
  · rename_i ch hch
    obtain ⟨-, -, rfl⟩ := make_some_inv _ _ _ _ hch
    simp only [Option.some.injEq] at h
    subst h
    constructor <;> simp [Sys.init, live]

theorem Inv_Submit {σ : Type} (n : Nat) (s s' : Sys σ) (t : Task σ) (c : SubmitCase)
    (r : SubmitResult) (hi : Inv n s) (h : Submit s t c = some (r, s')) : Inv n s' := by
  obtain ⟨h1, h2, h3, h4, h5, h6⟩ := hi
  cases c with
  | send =>
    simp only [Submit] at h
    split at h
    · simp at h
      obtain ⟨-, rfl⟩ := h
      constructor <;> simp_all [Sys.panic]
    · split at h
      · simp at h
        obtain ⟨-, rfl⟩ := h
        constructor <;> simp_all [Sys.setBuf]
        omega
      · simp at h
  | handoff k =>
    simp only [Submit] at h
    split at h
    · rename_i id pc hk
      split at h
      · rename_i hc
        simp at h
        obtain ⟨-, rfl⟩ := h
        obtain ⟨hc0, hb⟩ := hc
        unfold Sys.blockedInSelect at hb
        rw [hk] at hb
        cases pc <;> simp at hb
        have hl := live_set s.workers k (id, WorkerPC.loop) (id, WorkerPC.task t) hk
        simp [WorkerPC.isExited] at hl
        constructor <;> simp_all [Sys.setPC]
      · simp at h
    · simp at h
  | done =>
    simp only [Submit] at h
    split at h
    · simp at h
      obtain ⟨-, rfl⟩ := h
      exact ⟨h1, h2, h3, h4, h5, h6⟩
    · simp at h
  | default =>
    simp only [Submit] at h
    split at h
    · simp at h
      obtain ⟨-, rfl⟩ := h
      exact ⟨h1, h2, h3, h4, h5, h6⟩
    · simp at h

theorem Inv_workerReturn {σ : Type} (n : Nat) (s : Sys σ) (k : Nat) (id : Int)
    (pc : WorkerPC σ) (hk : s.workers[k]? = some (id, pc)) (hpc : pc.isExited = false)
    (hi : Inv n s) : Inv n (workerReturn s k id) := by
  obtain ⟨h1, h2, h3, h4, h5, h6⟩ := hi
  have hl := live_set s.workers k (id, pc) (id, WorkerPC.exited) hk
  have hl2 : live (s.workers.set k (id, WorkerPC.exited)) + 1 = live s.workers := by
    have he : (WorkerPC.exited : WorkerPC σ).isExited = true := rfl
    simpa [hpc, he] using hl
  unfold workerReturn Sys.wgDone
  split
  · rename_i hneg
    simp [Sys.setPC] at hneg
    omega
  · refine ⟨h1, h2, h3, h4, ?_, h6⟩
    simp only [Sys.setPC]
    omega

theorem Inv_print {σ : Type} (n : Nat) (s : Sys σ) (line : String) (hi : Inv n s) :
    Inv n (s.print line) := by
  obtain ⟨h1, h2, h3, h4, h5, h6⟩ := hi
  exact ⟨h1, h2, h3, h4, h5, h6⟩

/-- What lines 79-83 can do: the closures change `world` and the histories of
their calls; then either a panic ends the program, or the goroutine is back
at its `select`, line 82 printed or not. -/
theorem workerTask_cases {σ : Type} (s : Sys σ) (k : Nat) (id : Int) (t : Task σ) :
    ∃ w ex cb,
      (∃ msg, workerTask s k id t
          = workerPanic { s with world := w, executed := ex, callbacks := cb } k id t msg)
      ∨ (∃ out, workerTask s k id t
          = { s with world := w, executed := ex, callbacks := cb, out := out,
                     workers := s.workers.set k (id, WorkerPC.loop) }) := by
  unfold workerTask
  split
  · exact ⟨s.world, s.executed, s.callbacks, Or.inl ⟨_, rfl⟩⟩
  · split
    · rename_i msg w _
      exact ⟨w, s.executed, s.callbacks, Or.inl ⟨msg, rfl⟩⟩
    · rename_i r w _
      split
      · exact ⟨w, _, s.callbacks, Or.inr ⟨s.out, rfl⟩⟩
      · split
        · rename_i msg w2 _
          exact ⟨w2, _, _, Or.inl ⟨msg, rfl⟩⟩
        · rename_i w2 _
          exact ⟨w2, _, _, Or.inr ⟨_, rfl⟩⟩

theorem Inv_workerPanic {σ : Type} (n : Nat) (s : Sys σ) (k : Nat) (id : Int)
    (pc : WorkerPC σ) (t : Task σ) (msg : String) (hk : s.workers[k]? = some (id, pc))
    (hpc : pc.isExited = false) (hi : Inv n s) : Inv n (workerPanic s k id t msg) := by
  obtain ⟨h1, h2, h3, h4, h5, h6⟩ := Inv_workerReturn n s k id pc hk hpc hi
  exact ⟨h1, h2, h3, h4, h5, h6⟩

theorem Inv_worker {σ : Type} (n : Nat) (s s' : Sys σ) (k : Nat) (a : WorkerStep)
    (hi : Inv n s) (h : worker s k a = some s') : Inv n s' := by
  unfold worker at h
  split at h
  · rename_i id hk
    simp at h
    subst h
    obtain ⟨h1, h2, h3, h4, h5, h6⟩ := hi
    have hl := live_set s.workers k (id, WorkerPC.entry) (id, WorkerPC.loop) hk
    simp [WorkerPC.isExited] at hl
    constructor <;> simp_all [Sys.setPC, Sys.print]
  · rename_i id hk
    split at h
    · simp at h
      subst h
      exact Inv_workerReturn n _ k id WorkerPC.loop hk rfl (Inv_print n s _ hi)
    · simp at h
  · rename_i id hk
    split at h
    · rename_i t rest hb
      simp at h
      subst h
      obtain ⟨h1, h2, h3, h4, h5, h6⟩ := hi
      have hl := live_set s.workers k (id, WorkerPC.loop) (id, WorkerPC.task t) hk
      simp [WorkerPC.isExited] at hl
      constructor <;> simp_all [Sys.setPC, Sys.setBuf]
      omega
    · split at h
      · simp at h
        subst h
        exact Inv_workerReturn n _ k id WorkerPC.loop hk rfl (Inv_print n s _ hi)
      · simp at h
  · rename_i id t hk
    simp at h
    subst h
    obtain ⟨w, ex, cb, hc | hc⟩ := workerTask_cases s k id t
    · obtain ⟨msg, hc⟩ := hc
      rw [hc]
      exact Inv_workerPanic n _ k id (WorkerPC.task t) t msg hk rfl
        ⟨hi.cap_eq, hi.len_le, hi.closed_done, hi.fifo, hi.wg_live, hi.owner_done⟩
    · obtain ⟨out, hc⟩ := hc
      rw [hc]
      obtain ⟨h1, h2, h3, h4, h5, h6⟩ := hi
      have hl := live_set s.workers k (id, WorkerPC.task t) (id, WorkerPC.loop) hk
      simp [WorkerPC.isExited] at hl
      refine ⟨h1, h2, h3, h4, ?_, h6⟩
      simp only
      omega
  · simp at h

theorem Inv_owner {σ : Type} (n : Nat) (s s' : Sys σ) (a : OwnerStep)
    (hi : Inv n s) (h : owner s a = some s') : Inv n s' := by
  obtain ⟨h1, h2, h3, h4, h5, h6⟩ := hi
  cases a with
  | callStart =>
    simp only [owner] at h
    split at h
    · simp at h
      subst h
      refine ⟨h1, h2, h3, h4, h5, ?_⟩
      simp
    · simp at h
  | spawn =>
    simp only [owner] at h
    split at h
    · split at h
      · simp at h
        subst h
        refine ⟨h1, h2, h3, h4, ?_, ?_⟩
        · simp [Sys.wgAdd, live_append, live, WorkerPC.isExited, h5]
        · simp
      · simp at h
    · simp at h
  | startReturn =>
    simp only [owner] at h
    split at h
    · split at h
      · simp at h
      · simp at h
        subst h
        refine ⟨h1, h2, h3, h4, h5, ?_⟩
        simp
    · simp at h
  | stopCancel =>
    simp only [owner] at h
    split at h
    · simp at h
      subst h
      refine ⟨h1, h2, ?_, h4, h5, ?_⟩ <;> simp
    · simp at h
  | stopClose =>
    simp only [owner] at h
    split at h
    · rename_i ho
      split at h
      · simp at h
        subst h
        exact ⟨h1, h2, h3, h4, h5, h6⟩
      · simp at h
        subst h
        refine ⟨h1, h2, ?_, h4, h5, ?_⟩
        · intro _
          exact h6 ho
        · simp
    · simp at h
  | stopReturn =>
    simp only [owner] at h
    split at h
    · split at h
      · simp at h
        subst h
        refine ⟨h1, h2, h3, h4, h5, ?_⟩
        simp [Sys.print]
      · simp at h
    · simp at h

theorem Inv_step {σ : Type} (n : Nat) (s s' : Sys σ) (l : Label σ)
    (hi : Inv n s) (h : step s l = some s') : Inv n s' := by
  unfold step at h
  split at h
  · simp at h
  · cases l with
    | submit t c =>
      simp only at h
      split at h
      · rename_i r s1 hs
        simp at h
        subst h
        obtain ⟨h1, h2, h3, h4, h5, h6⟩ := Inv_Submit n s s1 t c r hi hs
        exact ⟨h1, h2, h3, h4, h5, h6⟩
      · simp at h
    | worker k a => exact Inv_worker n s s' k a hi h
    | owner a => exact Inv_owner n s s' a hi h

theorem Inv_reachable {σ : Type} (workerCount taskQueueSize : Int) (w : σ) (s : Sys σ)
    (h : Reachable workerCount taskQueueSize w s) : Inv taskQueueSize.toNat s := by
  induction h with
  | init allocOk tp htp => exact Inv_init allocOk workerCount taskQueueSize w tp htp
  | step s l s' _ hs ih => exact Inv_step _ s s' l ih hs

theorem Reachable_run {σ : Type} (workerCount taskQueueSize : Int) (w : σ) (s s' : Sys σ)
    (ls : List (Label σ)) (h : Reachable workerCount taskQueueSize w s)
    (hr : run s ls = some s') : Reachable workerCount taskQueueSize w s' := by
  induction ls generalizing s with
  | nil =>
    simp [run] at hr
    subst hr
    exact h
  | cons l ls ih =>
    simp only [run] at hr
    split at hr
    · rename_i s1 hs1
      exact ih s1 (Reachable.step s l s1 h hs1) hr
    · simp at hr

/-! Section: what each kind of action leaves alone -/

theorem workerReturn_frame {σ : Type} (n : Nat) (s : Sys σ) (k : Nat) (id : Int)
    (pc : WorkerPC σ) (hk : s.workers[k]? = some (id, pc)) (hpc : pc.isExited = false)
    (hi : Inv n s) :
    workerReturn s k id =
      { s with workers := s.workers.set k (id, WorkerPC.exited),
               tp := { s.tp with wg := s.tp.wg - 1 } } := by
  have hl := live_set s.workers k (id, pc) (id, WorkerPC.exited) hk
  have hl2 : live (s.workers.set k (id, WorkerPC.exited)) + 1 = live s.workers := by
    have he : (WorkerPC.exited : WorkerPC σ).isExited = true := rfl
    simpa [hpc, he] using hl
  have h5 := hi.wg_live
  unfold workerReturn Sys.wgDone
  split
  · rename_i hneg
    simp [Sys.setPC] at hneg
    omega
  · rfl

theorem workerPanic_frame {σ : Type} (s : Sys σ) (k : Nat) (id : Int) (t : Task σ)
    (msg : String) :
    (workerPanic s k id t msg).accepted = s.accepted
      ∧ (workerPanic s k id t msg).submitLog = s.submitLog
      ∧ (workerPanic s k id t msg).tp.ctxDone = s.tp.ctxDone
      ∧ (workerPanic s k id t msg).owner = s.owner
      ∧ (workerPanic s k id t msg).stopsReturned = s.stopsReturned
      ∧ (workerPanic s k id t msg).tp.taskChan = s.tp.taskChan
      ∧ (workerPanic s k id t msg).received = s.received
      ∧ (workerPanic s k id t msg).executed = s.executed
      ∧ (workerPanic s k id t msg).callbacks = s.callbacks
      ∧ (workerPanic s k id t msg).world = s.world
      ∧ (workerPanic s k id t msg).out = s.out
      ∧ (workerPanic s k id t msg).workers = s.workers.set k (id, WorkerPC.exited)
      ∧ (workerPanic s k id t msg).crashed = some msg
      ∧ (workerPanic s k id t msg).panics = s.panics ++ [(k, t, msg)] := by
  unfold workerPanic workerReturn Sys.wgDone
  split <;> simp [Sys.setPC, Sys.panic]

theorem worker_frame {σ : Type} (n : Nat) (s s' : Sys σ) (k : Nat) (a : WorkerStep)
    (hi : Inv n s) (h : worker s k a = some s') :
    s'.accepted = s.accepted ∧ s'.submitLog = s.submitLog ∧ s'.tp.ctxDone = s.tp.ctxDone
      ∧ ((s'.crashed = s.crashed ∧ s'.panics = s.panics) ∨ s'.panics ≠ [])
      ∧ s'.owner = s.owner ∧ s'.stopsReturned = s.stopsReturned
      ∧ s'.tp.taskChan.closed = s.tp.taskChan.closed := by
  unfold worker at h
  split at h
  · simp at h
    subst h
    simp [Sys.setPC, Sys.print]
  · rename_i id hk
    split at h
    · simp at h
      subst h
      rw [workerReturn_frame n (s.print _) k id WorkerPC.loop hk rfl (Inv_print n s _ hi)]
      simp [Sys.print]
    · simp at h
  · rename_i id hk
    split at h
    · simp at h
      subst h
      simp [Sys.setPC, Sys.setBuf]
    · split at h
      · simp at h
        subst h
        rw [workerReturn_frame n (s.print _) k id WorkerPC.loop hk rfl (Inv_print n s _ hi)]
        simp [Sys.print]
      · simp at h
  · rename_i id t hk
    simp at h
    subst h
    obtain ⟨w, ex, cb, hc | hc⟩ := workerTask_cases s k id t
    · obtain ⟨msg, hc⟩ := hc
      rw [hc]
      obtain ⟨f1, f2, f3, f4, f5, f6, -, -, -, -, -, -, -, f14⟩ :=
        workerPanic_frame
          ({ s with world := w, executed := ex, callbacks := cb } : Sys σ) k id t msg
      refine ⟨f1, f2, f3, Or.inr ?_, f4, f5, ?_⟩
      · rw [f14]
        simp
      · rw [f6]
    · obtain ⟨out, hc⟩ := hc
      rw [hc]
      simp
  · simp at h

theorem owner_frame {σ : Type} (s s' : Sys σ) (a : OwnerStep) (h : owner s a = some s') :
    s'.accepted = s.accepted ∧ s'.submitLog = s.submitLog
      ∧ (s.tp.ctxDone = true → s'.tp.ctxDone = true)
      ∧ (s'.crashed = s.crashed ∨ s.owner = OwnerPC.stopCancelled)
      ∧ s'.executed = s.executed ∧ s'.callbacks = s.callbacks ∧ s'.world = s.world
      ∧ (a ≠ OwnerStep.spawn → s'.workers = s.workers) := by
  cases a with
  | callStart =>
    simp only [owner] at h
    split at h
    · simp at h
      subst h
      simp
    · simp at h
  | spawn =>
    simp only [owner] at h
    split at h
    · split at h
      · simp at h
        subst h
        simp [Sys.wgAdd]
      · simp at h
    · simp at h
  | startReturn =>
    simp only [owner] at h
    split at h
    · split at h
      · simp at h
      · simp at h
        subst h
        simp
    · simp at h
  | stopCancel =>
    simp only [owner] at h
    split at h
    · simp at h
      subst h
      simp
    · simp at h
  | stopClose =>
    simp only [owner] at h
    split at h
    · rename_i ho
      split at h
      · simp at h
        subst h
        simp [Sys.panic, ho]
      · simp at h
        subst h
        simp
    · simp at h
  | stopReturn =>
    simp only [owner] at h
    split at h
    · split at h
      · simp at h
        subst h
        simp [Sys.print]
      · simp at h
    · simp at h

theorem LogInv_step {σ : Type} (n : Nat) (s s' : Sys σ) (l : Label σ)
    (hi : Inv n s) (hl : LogInv n s) (h : step s l = some s') : LogInv n s' := by
  obtain ⟨l1, l2, l3⟩ := hl
  unfold step at h
  split at h
  · simp at h
  · rename_i hcr
    cases l with
    | submit t c =>
      have hlen : s.tp.taskChan.buf.length ≤ s.submitLog.length := by
        have := congrArg List.length hi.fifo
        simp at this
        omega
      have hcap := hi.cap_eq
      have key : ∀ r : SubmitResult, (s.tp.ctxDone = false → r = SubmitResult.returned none) →
          s.tp.ctxDone = false →
          ∀ e ∈ (s.submitLog ++ [(t, r)]).take n, e.2 = SubmitResult.returned none := by
        intro r hr hc e he
        rw [List.take_append_eq_append_take] at he
        rcases List.mem_append.1 he with he | he
        · exact l2 hc e he
        · have := List.mem_of_mem_take he
          simp at this
          subst this
          exact hr hc
      simp only at h
      split at h
      · rename_i r s1 hs
        simp at h
        subst h
        cases c with
        | send =>
          simp only [Submit] at hs
          split at hs
          · rename_i hclosed
            simp at hs
            obtain ⟨rfl, rfl⟩ := hs
            have hd := hi.closed_done hclosed
            refine ⟨?_, ?_, ?_⟩
            · simp [Sys.panic]; omega
            · intro hc
              simp [Sys.panic, hd] at hc
            · intro _
              exact Or.inl (by simpa [Sys.panic] using hd)
          · split at hs
            · simp at hs
              obtain ⟨rfl, rfl⟩ := hs
              refine ⟨?_, ?_, ?_⟩
              · simp [Sys.setBuf]; omega
              · intro hc
                exact key _ (fun _ => rfl) (by simpa [Sys.setBuf] using hc)
              · intro hc2
                exact absurd (by simpa [Sys.setBuf] using hc2) hcr
            · simp at hs
        | handoff k =>
          simp only [Submit] at hs
          split at hs
          · split at hs
            · simp at hs
              obtain ⟨rfl, rfl⟩ := hs
              refine ⟨?_, ?_, ?_⟩
              · simp [Sys.setPC]; omega
              · intro hc
                exact key _ (fun _ => rfl) (by simpa [Sys.setPC] using hc)
              · intro hc2
                exact absurd (by simpa [Sys.setPC] using hc2) hcr
            · simp at hs
          · simp at hs
        | done =>
          simp only [Submit] at hs
          split at hs
          · rename_i hd
            simp at hs
            obtain ⟨rfl, rfl⟩ := hs
            refine ⟨?_, ?_, ?_⟩
            · simp; omega
            · intro hc
              simp [hd] at hc
            · intro _
              exact Or.inl (by simpa using hd)
          · simp at hs
        | default =>
          simp only [Submit] at hs
          split at hs
          · rename_i hd
            simp at hs
            obtain ⟨rfl, rfl⟩ := hs
            refine ⟨?_, ?_, ?_⟩
            · simp; omega
            · intro hc e he
              have hn : n ≤ s.submitLog.length := by
                have := hd.2.2
                omega
              rw [List.take_append_of_le_length hn] at he
              exact l2 hc e he
            · intro hc2
              exact l3 (by simpa using hc2)
          · simp at hs
      · simp at h
    | worker k a =>
      obtain ⟨f1, f2, f3, f4, -, -, -⟩ := worker_frame n s s' k a hi h
      refine ⟨?_, ?_, ?_⟩
      · rw [f1, f2]; exact l1
      · rw [f2, f3]; exact l2
      · intro hc2
        rcases f4 with ⟨f4a, -⟩ | f4
        · rw [f4a] at hc2
          exact absurd hc2 hcr
        · exact Or.inr f4
    | owner a =>
      obtain ⟨f1, f2, f3, f4, -, -, -, -⟩ := owner_frame s s' a h
      refine ⟨?_, ?_, ?_⟩
      · rw [f1, f2]; exact l1
      · intro hc
        rw [f2]
        apply l2
        cases hd : s.tp.ctxDone
        · rfl
        · rw [f3 hd] at hc
          cases hc
      · intro hc2
        rcases f4 with f4 | f4
        · rw [f4] at hc2
          exact absurd hc2 hcr
        · exact Or.inl (f3 (hi.owner_done f4))

theorem LogInv_reachable {σ : Type} (workerCount taskQueueSize : Int) (w : σ) (s : Sys σ)
    (h : Reachable workerCount taskQueueSize w s) : LogInv taskQueueSize.toNat s := by
  induction h with
  | init allocOk tp htp => constructor <;> simp [Sys.init]
  | step s l s' hr hs ih =>
    exact LogInv_step _ s s' l (Inv_reachable workerCount taskQueueSize w s hr) ih hs

theorem Reachable_size_nonneg {σ : Type} (workerCount taskQueueSize : Int) (w : σ) (s : Sys σ)
    (h : Reachable workerCount taskQueueSize w s) : 0 ≤ taskQueueSize := by
  induction h with
  | init allocOk tp htp =>
    unfold NewThreadPool at htp
    split at htp
    · simp at htp
    · rename_i ch hch
      exact (make_some_inv _ _ _ _ hch).1
  | step s l s' _ _ ih => exact ih

theorem NewThreadPool_ofNat {σ : Type} (workerCount : Int) (n : Nat)
    (hn : n * taskElemSize ≤ maxAlloc - hchanSize) :
    NewThreadPool true workerCount (n : Int) = some (freshPool σ workerCount n) := by
  simp [NewThreadPool, make_ofNat taskElemSize n hn, freshPool]

/-! Section: the claims about `Submit` -/

/-- C1: in every state of every execution of a pool in which the cancellation
signal is not set, (a) when the queue holds fewer tasks than its capacity the
`select` of `Submit(t)` can only take the send case, which returns the nil error
and puts `t` behind the tasks already buffered, these staying as they were, and
no panic has happened, unless a closure of a task has raised one; (b) the first
`taskQueueSize` calls of `Submit` made so far have all returned nil, whatever
the workers did in between. -/
theorem C1_submit_accepts_below_capacity {σ : Type} (workerCount taskQueueSize : Int) (w : σ)
    (s : Sys σ) (hr : Reachable workerCount taskQueueSize w s)
    (hc : s.tp.ctxDone = false) :
    (∀ t : Task σ, s.tp.taskChan.buf.length < s.tp.taskChan.cap →
      (∃ s', Submit s t SubmitCase.send = some (SubmitResult.returned none, s')
        ∧ s'.tp.taskChan.buf = s.tp.taskChan.buf ++ [t]
        ∧ s'.accepted = s.accepted ++ [t])
      ∧ (∀ c r s', Submit s t c = some (r, s') → c = SubmitCase.send)
      ∧ (s.panics = [] → s.crashed = none))
    ∧ (∀ e ∈ s.submitLog.take taskQueueSize.toNat, e.2 = SubmitResult.returned none) := by
  have hi := Inv_reachable workerCount taskQueueSize w s hr
  have hl := LogInv_reachable workerCount taskQueueSize w s hr
  refine ⟨?_, hl.first_ok hc⟩
  intro t hlt
  have hclosed : s.tp.taskChan.closed = false := by
    cases h : s.tp.taskChan.closed
    · rfl
    · have := hi.closed_done h
      rw [hc] at this
      cases this
  refine ⟨?_, ?_, ?_⟩
  · refine ⟨{ s.setBuf (s.tp.taskChan.buf ++ [t]) with accepted := s.accepted ++ [t] },
      ?_, ?_, ?_⟩
    · simp only [Submit, hclosed, hlt]
      simp
    · simp [Sys.setBuf]
    · simp
  · intro c r s' h
    cases c with
    | send => rfl
    | handoff k =>
      simp only [Submit] at h
      split at h
      · split at h
        · rename_i hh
          omega
        · simp at h
      · simp at h
    | done => simp [Submit, hc] at h
    | default => simp [Submit, hlt] at h
  · intro hp
    cases hcr : s.crashed with
    | none => rfl
    | some m =>
      rcases hl.crash_done (by simp [hcr]) with h | h
      · rw [hc] at h
        cases h
      · exact absurd hp h

/-- C1, on an execution of the pool of `main` (3 workers, capacity 10): after
`Start` and two accepted tasks a third `Submit` is accepted as well. -/
theorem C1_submit_accepts_below_capacity_witness :
    ∃ s, run (Sys.init (freshPool MainWorld 3 10) mainWorld0)
        [Label.owner OwnerStep.callStart, Label.owner OwnerStep.spawn,
         Label.submit (mainTask 0) SubmitCase.send,
         Label.submit (mainTask 1) SubmitCase.send] = some s
      ∧ s.tp.ctxDone = false
      ∧ s.tp.taskChan.buf.length < s.tp.taskChan.cap
      ∧ (∃ s', Submit s (mainTask 2) SubmitCase.send = some (SubmitResult.returned none, s')
          ∧ s'.tp.taskChan.buf = s.tp.taskChan.buf ++ [mainTask 2]
          ∧ s'.accepted = s.accepted ++ [mainTask 2])
      ∧ (∀ e ∈ s.submitLog.take (10 : Int).toNat, e.2 = SubmitResult.returned none) := by
  refine ⟨_, rfl, rfl, by decide, ?_, ?_⟩
  · exact ((C1_submit_accepts_below_capacity 3 10 mainWorld0 _
      (Reachable_run 3 10 mainWorld0 _ _
        [Label.owner OwnerStep.callStart, Label.owner OwnerStep.spawn,
         Label.submit (mainTask 0) SubmitCase.send,
         Label.submit (mainTask 1) SubmitCase.send]
        (Reachable.init true _ (NewThreadPool_ofNat 3 10 (by decide))) rfl) rfl).1 (mainTask 2) (by decide)).1
  · exact (C1_submit_accepts_below_capacity 3 10 mainWorld0 _
      (Reachable_run 3 10 mainWorld0 _ _
        [Label.owner OwnerStep.callStart, Label.owner OwnerStep.spawn,
         Label.submit (mainTask 0) SubmitCase.send,
         Label.submit (mainTask 1) SubmitCase.send]
        (Reachable.init true _ (NewThreadPool_ofNat 3 10 (by decide))) rfl) rfl).2

/-- C2, the claim as stated fails on a pool with an unbuffered queue: after
`NewThreadPool(1, 0)` and `Start`, once worker 0 waits in its `select` the
cancellation signal is not set and the queue holds as many tasks as its
capacity (none), yet `Submit` can hand the task over to the waiting worker and
return the nil error. -/
theorem C2_counterexample_unbuffered_handoff :
    ∃ s s', run (Sys.init (freshPool MainWorld 1 0) mainWorld0)
        [Label.owner OwnerStep.callStart, Label.owner OwnerStep.spawn,
         Label.owner OwnerStep.startReturn, Label.worker 0 WorkerStep.enter] = some s
      ∧ s.tp.ctxDone = false
      ∧ s.tp.taskChan.buf.length = s.tp.taskChan.cap
      ∧ Submit s (mainTask 0) (SubmitCase.handoff 0) = some (SubmitResult.returned none, s')
      ∧ s'.accepted = [mainTask 0]
      ∧ s'.received = [(0, mainTask 0)] :=
  ⟨_, _, rfl, rfl, rfl, rfl, rfl, rfl⟩

/-- C2 (amended): in every state of every execution of a pool in which the
cancellation signal is not set and the queue is full, provided the capacity is
at least 1 or no worker waits in its `select`, the `select` of `Submit(t)` can
only take `default`: the call returns at once with the error
"Task queue is full" and leaves the whole state, the queue included, exactly as
it was. -/
theorem C2_submit_rejects_when_full {σ : Type} (workerCount taskQueueSize : Int) (w : σ)
    (s : Sys σ) (hr : Reachable workerCount taskQueueSize w s)
    (hc : s.tp.ctxDone = false)
    (hfull : s.tp.taskChan.buf.length = s.tp.taskChan.cap)
    (hq : 0 < s.tp.taskChan.cap ∨ ∀ k, s.blockedInSelect k = false) (t : Task σ) :
    Submit s t SubmitCase.default
        = some (SubmitResult.returned (some "Task queue is full"), s)
      ∧ (∀ c r s', Submit s t c = some (r, s') →
          c = SubmitCase.default ∧ r = SubmitResult.returned (some "Task queue is full")
            ∧ s' = s) := by
  have hi := Inv_reachable workerCount taskQueueSize w s hr
  have hclosed : s.tp.taskChan.closed = false := by
    cases h : s.tp.taskChan.closed
    · rfl
    · have := hi.closed_done h
      rw [hc] at this
      cases this
  have hd : Submit s t SubmitCase.default
      = some (SubmitResult.returned (some "Task queue is full"), s) := by
    simp [Submit, hc, hclosed, hfull]
  refine ⟨hd, ?_⟩
  intro c r s' h
  cases c with
  | send => simp [Submit, hclosed, hfull] at h
  | handoff k =>
    simp only [Submit] at h
    split at h
    · split at h
      · rename_i hh
        rcases hq with hq | hq
        · omega
        · rw [hq k] at hh
          simp at hh
      · simp at h
    · simp at h
  | done => simp [Submit, hc] at h
  | default =>
    rw [hd] at h
    simp at h
    exact ⟨rfl, h.1.symm, h.2.symm⟩

/-- C2 (amended), on an execution of a pool of capacity 1: with one task
buffered the next `Submit` is rejected and nothing changes. -/
theorem C2_submit_rejects_when_full_witness :
    ∃ s, run (Sys.init (freshPool MainWorld 1 1) mainWorld0)
        [Label.owner OwnerStep.callStart, Label.owner OwnerStep.spawn,
         Label.submit (mainTask 0) SubmitCase.send] = some s
      ∧ s.tp.ctxDone = false
      ∧ s.tp.taskChan.buf.length = s.tp.taskChan.cap
      ∧ 0 < s.tp.taskChan.cap
      ∧ Submit s (mainTask 1) SubmitCase.default
          = some (SubmitResult.returned (some "Task queue is full"), s) := by
  refine ⟨_, rfl, rfl, rfl, by decide, ?_⟩
  exact (C2_submit_rejects_when_full 1 1 mainWorld0 _
    (Reachable_run 1 1 mainWorld0 _ _
      [Label.owner OwnerStep.callStart, Label.owner OwnerStep.spawn,
       Label.submit (mainTask 0) SubmitCase.send]
      (Reachable.init true _ (NewThreadPool_ofNat 1 1 (by decide))) rfl) rfl rfl (Or.inl (by decide))
    (mainTask 1)).1

/-- C3, the code at the failing inputs.  On the pool of `NewThreadPool(1, 1)`,
started:
(a) once `Stop` has run `tp.cancel()` and before it closes the channel, the
`select` of `Submit` can take the send case, returning the nil error with the
task enqueued; (b) once `Stop` has closed the channel, the send case of the
`select` panics with "send on closed channel".  In both states the case
`<-tp.ctx.Done()` with the error "Pool is stopped" can be taken as well. -/
theorem C3_submit_after_cancel_not_always_rejected :
    (∃ s s', run (Sys.init (freshPool MainWorld 1 1) mainWorld0)
        [Label.owner OwnerStep.callStart, Label.owner OwnerStep.spawn,
         Label.owner OwnerStep.startReturn, Label.worker 0 WorkerStep.enter,
         Label.owner OwnerStep.stopCancel] = some s
      ∧ s.tp.ctxDone = true
      ∧ Submit s (mainTask 0) SubmitCase.send = some (SubmitResult.returned none, s')
      ∧ s'.tp.taskChan.buf = [mainTask 0]
      ∧ Submit s (mainTask 0) SubmitCase.done
          = some (SubmitResult.returned (some "Pool is stopped"), s))
    ∧ (∃ s s', run (Sys.init (freshPool MainWorld 1 1) mainWorld0)
        [Label.owner OwnerStep.callStart, Label.owner OwnerStep.spawn,
         Label.owner OwnerStep.startReturn, Label.worker 0 WorkerStep.enter,
         Label.owner OwnerStep.stopCancel, Label.owner OwnerStep.stopClose,
         Label.worker 0 WorkerStep.done, Label.owner OwnerStep.stopReturn] = some s
      ∧ s.tp.ctxDone = true ∧ s.stopsReturned = 1
      ∧ Submit s (mainTask 0) SubmitCase.send
          = some (SubmitResult.panicked "send on closed channel", s')
      ∧ s'.crashed = some "send on closed channel"
      ∧ Submit s (mainTask 0) SubmitCase.done
          = some (SubmitResult.returned (some "Pool is stopped"), s)) :=
  ⟨⟨_, _, rfl, rfl, rfl, rfl, rfl⟩, ⟨_, _, rfl, rfl, rfl, rfl, rfl, rfl⟩⟩

/-- C4: in every state of every execution of a pool built by
`NewThreadPool(w, n)`, whatever `Submit` calls, worker actions and `Start` and
`Stop` actions led to it, the number of buffered tasks is between 0 and `n`. -/
theorem C4_queue_length_within_capacity {σ : Type} (workerCount taskQueueSize : Int) (w : σ)
    (s : Sys σ) (hr : Reachable workerCount taskQueueSize w s) :
    0 ≤ (s.tp.taskChan.buf.length : Int) ∧ (s.tp.taskChan.buf.length : Int) ≤ taskQueueSize := by
  have hi := Inv_reachable workerCount taskQueueSize w s hr
  have := hi.len_le
  have := Reachable_size_nonneg workerCount taskQueueSize w s hr
  omega

/-- C4, on an execution of a pool of capacity 2 that fills the queue. -/
theorem C4_queue_length_within_capacity_witness :
    ∃ s, run (Sys.init (freshPool MainWorld 1 2) mainWorld0)
        [Label.submit (mainTask 0) SubmitCase.send,
         Label.submit (mainTask 1) SubmitCase.send] = some s
      ∧ s.tp.taskChan.buf.length = 2
      ∧ 0 ≤ (s.tp.taskChan.buf.length : Int) ∧ (s.tp.taskChan.buf.length : Int) ≤ 2 := by
  refine ⟨_, rfl, rfl, ?_⟩
  exact C4_queue_length_within_capacity 1 2 mainWorld0 _
    (Reachable_run 1 2 mainWorld0 _ _
      [Label.submit (mainTask 0) SubmitCase.send,
       Label.submit (mainTask 1) SubmitCase.send]
      (Reachable.init true _ (NewThreadPool_ofNat 1 2 (by decide))) rfl)

/-- C5: in every state of every execution, the tasks received by workers so
far, in receive order, are a prefix of the tasks accepted by `Submit`, in
acceptance order (the rest of the accepted tasks being exactly the buffered
ones); so no more tasks were received than accepted, and the receive number
`i` handed over the accepted task number `i`, to the one goroutine recorded
with it. -/
theorem C5_received_prefix_of_accepted {σ : Type} (workerCount taskQueueSize : Int) (w : σ)
    (s : Sys σ) (hr : Reachable workerCount taskQueueSize w s) :
    s.received.map Prod.snd <+: s.accepted
      ∧ s.accepted = s.received.map Prod.snd ++ s.tp.taskChan.buf
      ∧ s.received.length ≤ s.accepted.length
      ∧ (∀ (i k : Nat) (t : Task σ), s.received[i]? = some (k, t) → s.accepted[i]? = some t) := by
  have hf := (Inv_reachable workerCount taskQueueSize w s hr).fifo
  refine ⟨⟨_, hf.symm⟩, hf, ?_, ?_⟩
  · have := congrArg List.length hf
    simp at this
    omega
  · intro i k t hi
    rw [hf]
    have hlt : i < (s.received.map Prod.snd).length := by
      rw [List.getElem?_eq_some] at hi
      obtain ⟨h, -⟩ := hi
      simpa using h
    rw [List.getElem?_append_left hlt]
    simp [hi]

/-- C5, on an execution in which two tasks are accepted and the first one is
received by worker 0. -/
theorem C5_received_prefix_of_accepted_witness :
    ∃ s, run (Sys.init (freshPool MainWorld 1 2) mainWorld0)
        [Label.owner OwnerStep.callStart, Label.owner OwnerStep.spawn,
         Label.owner OwnerStep.startReturn, Label.worker 0 WorkerStep.enter,
         Label.submit (mainTask 0) SubmitCase.send,
         Label.submit (mainTask 1) SubmitCase.send,
         Label.worker 0 WorkerStep.recv] = some s
      ∧ s.received = [(0, mainTask 0)]
      ∧ s.accepted = [mainTask 0, mainTask 1]
      ∧ s.received.map Prod.snd <+: s.accepted := by
  refine ⟨_, rfl, rfl, rfl, ?_⟩
  exact (C5_received_prefix_of_accepted 1 2 mainWorld0 _
    (Reachable_run 1 2 mainWorld0 _ _
      [Label.owner OwnerStep.callStart, Label.owner OwnerStep.spawn,
       Label.owner OwnerStep.startReturn, Label.worker 0 WorkerStep.enter,
       Label.submit (mainTask 0) SubmitCase.send,
       Label.submit (mainTask 1) SubmitCase.send,
       Label.worker 0 WorkerStep.recv]
      (Reachable.init true _ (NewThreadPool_ofNat 1 2 (by decide))) rfl)).1

/-! Section: the claims about the worker loop and `Stop` -/

theorem workerTask_returned {σ : Type} (s : Sys σ) (k : Nat) (id : Int) (t : Task σ)
    (execute : GoAny → σ → Outcome (GoAny × GoError) σ)
    (callback : GoAny → GoError → σ → Outcome Unit σ)
    (output : GoAny) (err : GoError) (w1 w2 : σ)
    (hex : t.Execute = some execute)
    (hret : execute t.Input s.world = Outcome.returned (output, err) w1)
    (hcb : t.Callback = some callback)
    (hc : callback output err w1 = Outcome.returned () w2) :
    workerTask s k id t
      = (({ s with world := w2, executed := s.executed ++ [(k, t, output, err)],
                   callbacks := s.callbacks ++ [(k, t, output, err)] } : Sys σ).print
          s!"Worker {id} finished task\n").setPC k id WorkerPC.loop := by
  simp only [workerTask, hex, hret, hcb, hc]

theorem workerTask_callbackPanic {σ : Type} (s : Sys σ) (k : Nat) (id : Int) (t : Task σ)
    (execute : GoAny → σ → Outcome (GoAny × GoError) σ)
    (callback : GoAny → GoError → σ → Outcome Unit σ)
    (output : GoAny) (err : GoError) (w1 w2 : σ) (msg : String)
    (hex : t.Execute = some execute)
    (hret : execute t.Input s.world = Outcome.returned (output, err) w1)
    (hcb : t.Callback = some callback)
    (hc : callback output err w1 = Outcome.panicked msg w2) :
    workerTask s k id t
      = workerPanic
          ({ s with world := w2, executed := s.executed ++ [(k, t, output, err)],
                    callbacks := s.callbacks ++ [(k, t, output, err)] } : Sys σ)
          k id t msg := by
  simp only [workerTask, hex, hret, hcb, hc]

/-- C6, the claim as stated fails when a closure of the task panics, because
`worker` has no `recover`.  (a) Worker 0 has received `failingTask`, whose
`Execute` returns the error "boom" and whose callback is the one of `main`,
while the counter of its wait group is 0: the callback is called once with
that error, its deferred `wg.Done()` panics, and the worker does not go on to
its next loop iteration: it has ended, the program has ended with the panic
and no action follows.  (b) Worker 0 has received `badInputTask`, whose
`Execute` panics in its type assertion: the callback is not called at all. -/
theorem C6_counterexample_closure_panics :
    ∃ s1 s2 s3 s4,
      run (Sys.init (freshPool MainWorld 1 1) mainWorld0)
        [Label.owner OwnerStep.callStart, Label.owner OwnerStep.spawn,
         Label.owner OwnerStep.startReturn, Label.worker 0 WorkerStep.enter,
         Label.submit failingTask SubmitCase.send,
         Label.worker 0 WorkerStep.recv] = some s1
      ∧ s1.workers = [(0, WorkerPC.task failingTask)] ∧ s1.crashed = none
      ∧ step s1 (Label.worker 0 WorkerStep.exec) = some s2
      ∧ s2.callbacks = [(0, failingTask, GoAny.nil, some "boom")]
      ∧ s2.world.out = ["Task failed: boom\n"]
      ∧ s2.workers = [(0, WorkerPC.exited)]
      ∧ s2.crashed = some "sync: negative WaitGroup counter"
      ∧ (∀ l, step s2 l = none)
      ∧ run (Sys.init (freshPool MainWorld 1 1) mainWorld0)
        [Label.owner OwnerStep.callStart, Label.owner OwnerStep.spawn,
         Label.owner OwnerStep.startReturn, Label.worker 0 WorkerStep.enter,
         Label.submit badInputTask SubmitCase.send,
         Label.worker 0 WorkerStep.recv] = some s3
      ∧ s3.workers = [(0, WorkerPC.task badInputTask)] ∧ s3.crashed = none
      ∧ step s3 (Label.worker 0 WorkerStep.exec) = some s4
      ∧ s4.callbacks = [] ∧ s4.executed = []
      ∧ s4.workers = [(0, WorkerPC.exited)]
      ∧ s4.crashed = some "interface conversion: interface \x7b\x7d is string, not int"
      ∧ (∀ l, step s4 l = none) := by
  refine ⟨_, _, _, _, rfl, rfl, rfl, rfl, rfl, rfl, rfl, rfl, ?_, rfl, rfl, rfl, rfl, rfl, rfl,
    rfl, rfl, ?_⟩
  · intro l
    rfl
  · intro l
    rfl

/-- C6 (amended): when goroutine `k` holds a received task `t` whose `Callback`
is not nil and whose `Execute`, called on `t.Input`, returns the pair `(output,
err)`, the next action of `k` calls `Execute` once and the callback once, with
exactly that pair; the queue, the cancellation signal and the histories of
`Submit` and of the receives are as they were.  When the callback returns as
well, then whatever `err` is the worker is back at its `select` (it has not
returned), the pool value is as it was, line 82 is printed and no panic is
raised.  When the callback panics, the worker ends and the program ends with
that panic. -/
theorem C6_worker_calls_callback_once {σ : Type} (s : Sys σ) (k : Nat) (id : Int) (t : Task σ)
    (execute : GoAny → σ → Outcome (GoAny × GoError) σ)
    (callback : GoAny → GoError → σ → Outcome Unit σ)
    (output : GoAny) (err : GoError) (w1 : σ)
    (hk : s.workers[k]? = some (id, WorkerPC.task t))
    (hex : t.Execute = some execute)
    (hret : execute t.Input s.world = Outcome.returned (output, err) w1)
    (hcb : t.Callback = some callback) :
    ∃ s', worker s k WorkerStep.exec = some s'
      ∧ s'.executed = s.executed ++ [(k, t, output, err)]
      ∧ s'.callbacks = s.callbacks ++ [(k, t, output, err)]
      ∧ s'.tp.taskChan = s.tp.taskChan ∧ s'.tp.ctxDone = s.tp.ctxDone
      ∧ s'.accepted = s.accepted ∧ s'.received = s.received
      ∧ (∀ w2, callback output err w1 = Outcome.returned () w2 →
          s'.world = w2
          ∧ s'.workers = s.workers.set k (id, WorkerPC.loop)
          ∧ s'.tp = s.tp
          ∧ s'.crashed = s.crashed ∧ s'.panics = s.panics
          ∧ s'.out = s.out ++ [s!"Worker {id} finished task\n"])
      ∧ (∀ msg w2, callback output err w1 = Outcome.panicked msg w2 →
          s'.world = w2
          ∧ s'.workers = s.workers.set k (id, WorkerPC.exited)
          ∧ s'.crashed = some msg ∧ s'.panics = s.panics ++ [(k, t, msg)]
          ∧ s'.out = s.out) := by
  refine ⟨workerTask s k id t, ?_, ?_⟩
  · simp [worker, hk]
  · cases hc : callback output err w1 with
    | returned val w2 =>
      rw [workerTask_returned s k id t execute callback output err w1 w2 hex hret hcb hc]
      refine ⟨rfl, rfl, rfl, rfl, rfl, rfl, ?_, ?_⟩
      · intro w3 h3
        simp only [Outcome.returned.injEq] at h3
        obtain ⟨-, rfl⟩ := h3
        exact ⟨rfl, rfl, rfl, rfl, rfl, rfl⟩
      · intro msg w3 h3
        simp at h3
    | panicked msg w2 =>
      rw [workerTask_callbackPanic s k id t execute callback output err w1 w2 msg hex hret hcb
        hc]
      obtain ⟨f1, f2, f3, f4, f5, f6, f7, f8, f9, f10, f11, f12, f13, f14⟩ :=
        workerPanic_frame
          ({ s with world := w2, executed := s.executed ++ [(k, t, output, err)],
                    callbacks := s.callbacks ++ [(k, t, output, err)] } : Sys σ)
          k id t msg
      refine ⟨f8, f9, f6, f3, f1, f7, ?_, ?_⟩
      · intro w3 h3
        simp at h3
      · intro msg2 w3 h3
        simp only [Outcome.panicked.injEq] at h3
        obtain ⟨rfl, rfl⟩ := h3
        exact ⟨f10, f12, f13, f14, f11⟩

/-- C6 (amended), on an execution in which worker 0 receives a task whose
`Execute` returns the error "boom" while the counter of the wait group of
`main` is 1: the callback gets exactly that error and returns, and the worker
is back at its `select`. -/
theorem C6_worker_calls_callback_once_witness :
    ∃ s, run (Sys.init (freshPool MainWorld 1 1) { wg := 1, out := [] })
        [Label.owner OwnerStep.callStart, Label.owner OwnerStep.spawn,
         Label.owner OwnerStep.startReturn, Label.worker 0 WorkerStep.enter,
         Label.submit failingTask SubmitCase.send,
         Label.worker 0 WorkerStep.recv] = some s
      ∧ s.workers[0]? = some (0, WorkerPC.task failingTask)
      ∧ mainCallback GoAny.nil (some "boom") { wg := 1, out := [] }
          = Outcome.returned () { wg := 0, out := ["Task failed: boom\n"] }
      ∧ ∃ s', worker s 0 WorkerStep.exec = some s'
        ∧ s'.executed = s.executed ++ [(0, failingTask, GoAny.nil, some "boom")]
        ∧ s'.callbacks = s.callbacks ++ [(0, failingTask, GoAny.nil, some "boom")]
        ∧ s'.tp.taskChan = s.tp.taskChan ∧ s'.tp.ctxDone = s.tp.ctxDone
        ∧ s'.accepted = s.accepted ∧ s'.received = s.received
        ∧ (∀ w2, mainCallback GoAny.nil (some "boom") { wg := 1, out := [] }
              = Outcome.returned () w2 →
            s'.world = w2
            ∧ s'.workers = s.workers.set 0 (0, WorkerPC.loop)
            ∧ s'.tp = s.tp
            ∧ s'.crashed = s.crashed ∧ s'.panics = s.panics
            ∧ s'.out = s.out ++ ["Worker 0 finished task\n"])
        ∧ (∀ msg w2, mainCallback GoAny.nil (some "boom") { wg := 1, out := [] }
              = Outcome.panicked msg w2 →
            s'.world = w2
            ∧ s'.workers = s.workers.set 0 (0, WorkerPC.exited)
            ∧ s'.crashed = some msg ∧ s'.panics = s.panics ++ [(0, failingTask, msg)]
            ∧ s'.out = s.out) := by
  refine ⟨_, rfl, rfl, rfl, ?_⟩
  exact C6_worker_calls_callback_once _ 0 0 failingTask
    (fun _ w => Outcome.returned (GoAny.nil, some "boom") w) mainCallback
    GoAny.nil (some "boom") { wg := 1, out := [] } rfl rfl rfl rfl

theorem quiet_step {σ : Type} (s s' : Sys σ) (l : Label σ)
    (hq : ∀ wk ∈ s.workers, wk.2.isExited = true) (ho : ∀ i, s.owner ≠ OwnerPC.start i)
    (h : step s l = some s') (hl : l ≠ Label.owner OwnerStep.callStart) :
    (∀ wk ∈ s'.workers, wk.2.isExited = true) ∧ (∀ i, s'.owner ≠ OwnerPC.start i)
      ∧ s'.executed = s.executed ∧ s'.callbacks = s.callbacks ∧ s'.world = s.world := by
  unfold step at h
  split at h
  · simp at h
  · cases l with
    | submit t c =>
      simp only at h
      split at h
      · rename_i r s1 hs
        simp at h
        subst h
        cases c with
        | send =>
          simp only [Submit] at hs
          split at hs
          · simp at hs
            obtain ⟨-, rfl⟩ := hs
            exact ⟨hq, ho, rfl, rfl, rfl⟩
          · split at hs
            · simp at hs
              obtain ⟨-, rfl⟩ := hs
              exact ⟨hq, ho, rfl, rfl, rfl⟩
            · simp at hs
        | handoff k =>
          simp only [Submit] at hs
          split at hs
          · rename_i id pc hk
            split at hs
            · rename_i hb
              have hb2 := hb.2
              unfold Sys.blockedInSelect at hb2
              rw [hk] at hb2
              have := hq _ (mem_of_getElem? _ _ _ hk)
              cases pc <;> simp [WorkerPC.isExited] at hb2 this
            · simp at hs
          · simp at hs
        | done =>
          simp only [Submit] at hs
          split at hs
          · simp at hs
            obtain ⟨-, rfl⟩ := hs
            exact ⟨hq, ho, rfl, rfl, rfl⟩
          · simp at hs
        | default =>
          simp only [Submit] at hs
          split at hs
          · simp at hs
            obtain ⟨-, rfl⟩ := hs
            exact ⟨hq, ho, rfl, rfl, rfl⟩
          · simp at hs
      · simp at h
    | worker k a =>
      exfalso
      simp only at h
      unfold worker at h
      split at h
      · rename_i id hk
        have := hq _ (mem_of_getElem? _ _ _ hk)
        simp [WorkerPC.isExited] at this
      · rename_i id hk
        have := hq _ (mem_of_getElem? _ _ _ hk)
        simp [WorkerPC.isExited] at this
      · rename_i id hk
        have := hq _ (mem_of_getElem? _ _ _ hk)
        simp [WorkerPC.isExited] at this
      · rename_i id t hk
        have := hq _ (mem_of_getElem? _ _ _ hk)
        simp [WorkerPC.isExited] at this
      · simp at h
    | owner a =>
      simp only at h
      obtain ⟨-, -, -, -, f5, f6, f7, f8⟩ := owner_frame s s' a h
      cases a with
      | callStart => exact absurd rfl hl
      | spawn =>
        simp only [owner] at h
        simp at h
      | startReturn =>
        simp only [owner] at h
        simp at h
      | stopCancel =>
        rw [f8 (by simp)]
        refine ⟨hq, ?_, f5, f6, f7⟩
        simp only [owner] at h
        split at h
        · simp at h
          subst h
          simp
        · simp at h
      | stopClose =>
        rw [f8 (by simp)]
        refine ⟨hq, ?_, f5, f6, f7⟩
        simp only [owner] at h
        split at h
        · split at h
          · simp at h
            subst h
            simpa [Sys.panic] using ho
          · simp at h
            subst h
            simp
        · simp at h
      | stopReturn =>
        rw [f8 (by simp)]
        refine ⟨hq, ?_, f5, f6, f7⟩
        simp only [owner] at h
        split at h
        · split at h
          · simp at h
            subst h
            simp
          · simp at h
        · simp at h

theorem quiet_run {σ : Type} (s s' : Sys σ) (ls : List (Label σ))
    (hq : ∀ wk ∈ s.workers, wk.2.isExited = true) (ho : ∀ i, s.owner ≠ OwnerPC.start i)
    (h : run s ls = some s') (hl : ∀ l ∈ ls, l ≠ Label.owner OwnerStep.callStart) :
    (∀ wk ∈ s'.workers, wk.2.isExited = true)
      ∧ s'.executed = s.executed ∧ s'.callbacks = s.callbacks ∧ s'.world = s.world := by
  induction ls generalizing s with
  | nil =>
    simp [run] at h
    subst h
    exact ⟨hq, rfl, rfl, rfl⟩
  | cons l ls ih =>
    simp only [run] at h
    split at h
    · rename_i s1 hs1
      obtain ⟨q1, q2, q3, q4, q5⟩ := quiet_step s s1 l hq ho hs1 (hl l (by simp))
      obtain ⟨r1, r2, r3, r4⟩ := ih s1 q1 q2 h (fun l' hl' => hl l' (by simp [hl']))
      exact ⟨r1, r2.trans q3, r3.trans q4, r4.trans q5⟩
    · simp at h

/-- C7, the claim as stated fails when `Start` is called again after `Stop`
has returned: `Start` has no guard.  A pool with one worker is started, one
task is accepted and stays buffered, `Stop` is called and returns (counter 0,
the worker has returned, nothing executed).  Then `Start` is called again: the
new worker finds the buffered task in the closed channel, receives it, and
runs its `Execute` and its callback. -/
theorem C7_counterexample_start_after_stop :
    ∃ s1 s2,
      run (Sys.init (freshPool MainWorld 1 1) { wg := 1, out := [] })
        [Label.owner OwnerStep.callStart, Label.owner OwnerStep.spawn,
         Label.owner OwnerStep.startReturn, Label.worker 0 WorkerStep.enter,
         Label.submit (mainTask 0) SubmitCase.send,
         Label.owner OwnerStep.stopCancel, Label.owner OwnerStep.stopClose,
         Label.worker 0 WorkerStep.done, Label.owner OwnerStep.stopReturn] = some s1
      ∧ s1.stopsReturned = 1 ∧ s1.tp.wg = 0 ∧ s1.workers = [(0, WorkerPC.exited)]
      ∧ s1.executed = [] ∧ s1.callbacks = []
      ∧ run s1
        [Label.owner OwnerStep.callStart, Label.owner OwnerStep.spawn,
         Label.owner OwnerStep.startReturn, Label.worker 1 WorkerStep.enter,
         Label.worker 1 WorkerStep.recv, Label.worker 1 WorkerStep.exec] = some s2
      ∧ s2.stopsReturned = 1 ∧ s2.crashed = none
      ∧ s2.executed = [(1, mainTask 0, GoAny.str "Result of task 0", none)]
      ∧ s2.callbacks = [(1, mainTask 0, GoAny.str "Result of task 0", none)]
      ∧ s2.world.out = ["Processing task 0\n", "Task completed: Result of task 0\n"] :=
  ⟨_, _, rfl, rfl, rfl, rfl, rfl, rfl, rfl, rfl, rfl, rfl, rfl, rfl⟩

/-- C7 (amended): whenever `Stop` returns in an execution, at that moment the
counter of the wait group is zero and every worker goroutine spawned so far
has returned; and from then on, as long as `Start` is not called again, no
action runs `Execute` or a callback: the histories of both and the state they
act on stay as they were when `Stop` returned, and all workers stay
returned. -/
theorem C7_stop_returns_after_workers_exit {σ : Type} (workerCount taskQueueSize : Int) (w : σ)
    (s s' : Sys σ) (hr : Reachable workerCount taskQueueSize w s)
    (hs : step s (Label.owner OwnerStep.stopReturn) = some s') :
    s'.tp.wg = 0 ∧ (∀ wk ∈ s'.workers, wk.2.isExited = true)
      ∧ s'.stopsReturned = s.stopsReturned + 1
      ∧ (∀ (ls : List (Label σ)) (s'' : Sys σ), run s' ls = some s'' →
          (∀ l ∈ ls, l ≠ Label.owner OwnerStep.callStart) →
          (∀ wk ∈ s''.workers, wk.2.isExited = true)
            ∧ s''.executed = s'.executed ∧ s''.callbacks = s'.callbacks
            ∧ s''.world = s'.world) := by
  have hi := Inv_reachable workerCount taskQueueSize w s hr
  unfold step at hs
  split at hs
  · simp at hs
  · simp only [owner] at hs
    split at hs
    · split at hs
      · rename_i hwg
        simp at hs
        subst hs
        have hlive : live s.workers = 0 := by
          have := hi.wg_live
          omega
        have hq : ∀ wk ∈ s.workers, wk.2.isExited = true := (live_eq_zero s.workers).1 hlive
        refine ⟨hwg, hq, rfl, ?_⟩
        intro ls s'' hrun hl
        exact quiet_run _ s'' ls hq (by simp) hrun hl
      · simp at hs
    · simp at hs

/-- C7 (amended), on an execution in which a pool with one worker is started and stopped:
`Stop` returns, the counter is zero, the worker has returned, and a later
`Submit` runs nothing. -/
theorem C7_stop_returns_after_workers_exit_witness :
    ∃ s s', run (Sys.init (freshPool MainWorld 1 1) mainWorld0)
        [Label.owner OwnerStep.callStart, Label.owner OwnerStep.spawn,
         Label.owner OwnerStep.startReturn, Label.worker 0 WorkerStep.enter,
         Label.owner OwnerStep.stopCancel, Label.owner OwnerStep.stopClose,
         Label.worker 0 WorkerStep.done] = some s
      ∧ step s (Label.owner OwnerStep.stopReturn) = some s'
      ∧ s'.tp.wg = 0 ∧ (∀ wk ∈ s'.workers, wk.2.isExited = true)
      ∧ s'.stopsReturned = s.stopsReturned + 1 := by
  refine ⟨_, _, rfl, rfl, ?_⟩
  obtain ⟨h1, h2, h3, -⟩ := C7_stop_returns_after_workers_exit 1 1 mainWorld0 _ _
    (Reachable_run 1 1 mainWorld0 _ _
      [Label.owner OwnerStep.callStart, Label.owner OwnerStep.spawn,
       Label.owner OwnerStep.startReturn, Label.worker 0 WorkerStep.enter,
       Label.owner OwnerStep.stopCancel, Label.owner OwnerStep.stopClose,
       Label.worker 0 WorkerStep.done]
      (Reachable.init true _ (NewThreadPool_ofNat 1 1 (by decide))) rfl) rfl
  exact ⟨h1, h2, h3⟩

theorem run_append {σ : Type} (s : Sys σ) (l1 l2 : List (Label σ)) :
    run s (l1 ++ l2) = (run s l1).bind (fun s1 => run s1 l2) := by
  induction l1 generalizing s with
  | nil => simp [run]
  | cons l l1 ih =>
    simp only [List.cons_append, run]
    cases step s l with
    | none => simp
    | some s1 => simpa using ih s1

theorem run_submits {σ : Type} (xs : List (Task σ)) (s : Sys σ) (hcr : s.crashed = none)
    (hcl : s.tp.taskChan.closed = false)
    (hlen : s.tp.taskChan.buf.length + xs.length ≤ s.tp.taskChan.cap) :
    run s (xs.map (fun x => Label.submit x SubmitCase.send))
      = some { s.setBuf (s.tp.taskChan.buf ++ xs) with
          accepted := s.accepted ++ xs,
          submitLog := s.submitLog ++ xs.map (fun x => (x, SubmitResult.returned none)) } := by
  induction xs generalizing s with
  | nil =>
    simp [run, Sys.setBuf]
  | cons x xs ih =>
    have hlt : s.tp.taskChan.buf.length < s.tp.taskChan.cap := by
      simp at hlen
      omega
    have hstep : step s (Label.submit x SubmitCase.send)
        = some { s.setBuf (s.tp.taskChan.buf ++ [x]) with
            accepted := s.accepted ++ [x],
            submitLog := s.submitLog ++ [(x, SubmitResult.returned none)] } := by
      simp [step, hcr, Submit, hcl, hlt]
    simp only [List.map_cons, run, hstep]
    rw [ih]
    · simp [Sys.setBuf]
    · exact hcr
    · exact hcl
    · simp [Sys.setBuf] at hlen ⊢
      omega

/-- C8: for every `k ≥ 1` that `make` accepts as a size (`k` being the number
of the tasks `t :: ts`), when the buffer is allocated, there is an execution of the
pool of `NewThreadPool(1, k)` in which the pool is started, the `k` tasks are
accepted and buffered, `Stop` is called while all of them are still buffered,
the one worker leaves through the cancellation case, and `Stop` returns with
the `k` tasks still in the queue and none of them received or executed, then
or later.  So `Stop` returns once the workers have left, drained queue or
not. -/
theorem C8_stop_returns_with_tasks_buffered {σ : Type} (w : σ) (t : Task σ)
    (ts : List (Task σ)) (hsize : (t :: ts).length * taskElemSize ≤ maxAlloc - hchanSize) :
    ∃ s1 s2 : Sys σ,
      NewThreadPool true 1 ((t :: ts).length : Int) = some (freshPool σ 1 (t :: ts).length)
      ∧ run (Sys.init (freshPool σ 1 (t :: ts).length) w)
          ([Label.owner OwnerStep.callStart, Label.owner OwnerStep.spawn,
            Label.owner OwnerStep.startReturn]
            ++ (t :: ts).map (fun x => Label.submit x SubmitCase.send)) = some s1
      ∧ s1.tp.taskChan.buf = t :: ts ∧ s1.accepted = t :: ts ∧ s1.tp.ctxDone = false
      ∧ run s1 [Label.owner OwnerStep.stopCancel, Label.owner OwnerStep.stopClose,
          Label.worker 0 WorkerStep.enter, Label.worker 0 WorkerStep.done,
          Label.owner OwnerStep.stopReturn] = some s2
      ∧ s2.stopsReturned = 1
      ∧ s2.workers = [(0, WorkerPC.exited)]
      ∧ s2.tp.taskChan.buf = t :: ts
      ∧ s2.received = [] ∧ s2.executed = [] ∧ s2.callbacks = []
      ∧ s2.out = ["Worker 0 started\n", "Worker 0 stopped\n", "Pool stopped\n"]
      ∧ (∀ (ls : List (Label σ)) (s3 : Sys σ), run s2 ls = some s3 →
          (∀ l ∈ ls, l ≠ Label.owner OwnerStep.callStart) →
          s3.executed = [] ∧ s3.callbacks = []) := by
  have h0 : run (Sys.init (freshPool σ 1 (t :: ts).length) w)
      [Label.owner OwnerStep.callStart, Label.owner OwnerStep.spawn,
        Label.owner OwnerStep.startReturn]
      = some ({
        tp := {
          taskChan := { cap := (t :: ts).length, buf := [], closed := false },
          workerCount := 1, wg := 1, ctxDone := false },
        workers := [(0, WorkerPC.entry)], owner := OwnerPC.idle, world := w, out := [],
        crashed := none, accepted := [], submitLog := [], received := [],
        executed := [], callbacks := [], panics := [], stopsReturned := 0 } : Sys σ) := by
    simp [run, step, owner, Sys.init, freshPool, Sys.wgAdd]
  have h1 := run_submits (t :: ts) ({
        tp := {
          taskChan := { cap := (t :: ts).length, buf := [], closed := false },
          workerCount := 1, wg := 1, ctxDone := false },
        workers := [(0, WorkerPC.entry)], owner := OwnerPC.idle, world := w, out := [],
        crashed := none, accepted := [], submitLog := [], received := [],
        executed := [], callbacks := [], panics := [], stopsReturned := 0 } : Sys σ) rfl rfl (by simp)
  have h2 : run (Sys.init (freshPool σ 1 (t :: ts).length) w)
      ([Label.owner OwnerStep.callStart, Label.owner OwnerStep.spawn,
        Label.owner OwnerStep.startReturn]
        ++ (t :: ts).map (fun x => Label.submit x SubmitCase.send))
      = some ({
        tp := {
          taskChan := { cap := (t :: ts).length, buf := t :: ts, closed := false },
          workerCount := 1, wg := 1, ctxDone := false },
        workers := [(0, WorkerPC.entry)], owner := OwnerPC.idle, world := w, out := [],
        crashed := none, accepted := t :: ts,
        submitLog := (t :: ts).map (fun x => (x, SubmitResult.returned none)),
        received := [], executed := [], callbacks := [], panics := [], stopsReturned := 0 } : Sys σ) := by
    rw [run_append, h0]
    simp only [Option.bind]
    rw [h1]
    simp [Sys.setBuf]
  obtain ⟨s2, e1, e2, e3, e4, e5, e6, e7, e8, e9⟩ :
      ∃ s2 : Sys σ, run ({
        tp := {
          taskChan := { cap := (t :: ts).length, buf := t :: ts, closed := false },
          workerCount := 1, wg := 1, ctxDone := false },
        workers := [(0, WorkerPC.entry)], owner := OwnerPC.idle, world := w, out := [],
        crashed := none, accepted := t :: ts,
        submitLog := (t :: ts).map (fun x => (x, SubmitResult.returned none)),
        received := [], executed := [], callbacks := [], panics := [], stopsReturned := 0 } : Sys σ)
          [Label.owner OwnerStep.stopCancel, Label.owner OwnerStep.stopClose,
          Label.worker 0 WorkerStep.enter, Label.worker 0 WorkerStep.done,
          Label.owner OwnerStep.stopReturn] = some s2
        ∧ s2.stopsReturned = 1
        ∧ s2.workers = [(0, WorkerPC.exited)]
        ∧ s2.tp.taskChan.buf = t :: ts
        ∧ s2.received = [] ∧ s2.executed = [] ∧ s2.callbacks = []
        ∧ s2.out = ["Worker 0 started\n", "Worker 0 stopped\n", "Pool stopped\n"]
        ∧ s2.owner = OwnerPC.idle :=
    ⟨_, rfl, rfl, rfl, rfl, rfl, rfl, rfl, rfl, rfl⟩
  refine ⟨_, s2, NewThreadPool_ofNat 1 _ hsize, h2, rfl, rfl, rfl, e1, e2, e3, e4, e5, e6, e7, e8, ?_⟩
  intro ls s3 hrun hl
  obtain ⟨-, q2, q3, -⟩ := quiet_run s2 s3 ls (by
    intro wk hwk
    rw [e3] at hwk
    simp at hwk
    subst hwk
    rfl) (by simp [e9]) hrun hl
  exact ⟨q2.trans e6, q3.trans e7⟩

/-- C8, on the pool of `NewThreadPool(1, 2)` with the first two tasks of
`main`. -/
theorem C8_stop_returns_with_tasks_buffered_witness :
    ∃ s1 s2 : Sys MainWorld,
      NewThreadPool true 1 ([mainTask 0, mainTask 1].length : Int)
        = some (freshPool MainWorld 1 [mainTask 0, mainTask 1].length)
      ∧ run (Sys.init (freshPool MainWorld 1 [mainTask 0, mainTask 1].length) mainWorld0)
          ([Label.owner OwnerStep.callStart, Label.owner OwnerStep.spawn,
            Label.owner OwnerStep.startReturn]
            ++ [mainTask 0, mainTask 1].map (fun x => Label.submit x SubmitCase.send)) = some s1
      ∧ s1.tp.taskChan.buf = [mainTask 0, mainTask 1]
      ∧ s1.accepted = [mainTask 0, mainTask 1] ∧ s1.tp.ctxDone = false
      ∧ run s1 [Label.owner OwnerStep.stopCancel, Label.owner OwnerStep.stopClose,
          Label.worker 0 WorkerStep.enter, Label.worker 0 WorkerStep.done,
          Label.owner OwnerStep.stopReturn] = some s2
      ∧ s2.stopsReturned = 1
      ∧ s2.workers = [(0, WorkerPC.exited)]
      ∧ s2.tp.taskChan.buf = [mainTask 0, mainTask 1]
      ∧ s2.received = [] ∧ s2.executed = [] ∧ s2.callbacks = []
      ∧ s2.out = ["Worker 0 started\n", "Worker 0 stopped\n", "Pool stopped\n"]
      ∧ (∀ (ls : List (Label MainWorld)) (s3 : Sys MainWorld), run s2 ls = some s3 →
          (∀ l ∈ ls, l ≠ Label.owner OwnerStep.callStart) →
          s3.executed = [] ∧ s3.callbacks = []) :=
  C8_stop_returns_with_tasks_buffered mainWorld0 (mainTask 0) [mainTask 1] (by decide)

end Demo3

namespace Demo2

open Go

/-! Section: basic facts about the worker list -/

theorem rs_live_append (xs ys : List (Int × WorkerPC)) : live (xs ++ ys) = live xs + live ys := by
  induction xs with
  | nil => simp [live]
  | cons x xs ih => simp [live, ih, Nat.add_assoc]

theorem rs_live_le_length (ws : List (Int × WorkerPC)) : live ws ≤ ws.length := by
  induction ws with
  | nil => simp [live]
  | cons x xs ih =>
    simp only [live, List.length_cons]
    split <;> omega

theorem rs_live_set (ws : List (Int × WorkerPC)) (k : Nat) (w w' : Int × WorkerPC)
    (h : ws[k]? = some w) :
    live (ws.set k w') + (if w.2.isExited then 0 else 1)
      = live ws + (if w'.2.isExited then 0 else 1) := by
  induction ws generalizing k with
  | nil => simp at h
  | cons x xs ih =>
    cases k with
    | zero =>
      simp at h
      subst h
      simp [live]
      omega
    | succ k =>
      simp at h
      have := ih k h
      simp [live]
      omega

theorem rs_live_eq_zero (ws : List (Int × WorkerPC)) :
    live ws = 0 ↔ ∀ w ∈ ws, w.2.isExited = true := by
  induction ws with
  | nil => simp [live]
  | cons x xs ih =>
    simp only [live, List.mem_cons, forall_eq_or_imp]
    rw [← ih]
    by_cases hx : x.2.isExited = true <;> simp [hx]

theorem rs_heldCount_append (x : Result) (xs ys : List (Int × WorkerPC)) :
    heldCount x (xs ++ ys) = heldCount x xs + heldCount x ys := by
  induction xs with
  | nil => simp [heldCount]
  | cons a xs ih => simp [heldCount, ih, Nat.add_assoc]

theorem rs_heldCount_set (x : Result) (ws : List (Int × WorkerPC)) (k : Nat)
    (w w' : Int × WorkerPC) (h : ws[k]? = some w) :
    heldCount x (ws.set k w') + (if w.2.held = some x then 1 else 0)
      = heldCount x ws + (if w'.2.held = some x then 1 else 0) := by
  induction ws generalizing k with
  | nil => simp at h
  | cons a xs ih =>
    cases k with
    | zero =>
      simp at h
      subst h
      simp [heldCount]
      omega
    | succ k =>
      simp at h
      have := ih k h
      simp [heldCount]
      omega

theorem rs_heldCount_eq_zero (x : Result) (ws : List (Int × WorkerPC))
    (h : ∀ w ∈ ws, w.2.isExited = true) : heldCount x ws = 0 := by
  induction ws with
  | nil => simp [heldCount]
  | cons a xs ih =>
    have ha := h a (by simp)
    have hx := ih (fun w hw => h w (by simp [hw]))
    cases hpc : a.2 <;> simp [hpc, WorkerPC.isExited] at ha
    simp [heldCount, hpc, WorkerPC.held, hx]

theorem rs_live_pos_of_mem (ws : List (Int × WorkerPC)) (w : Int × WorkerPC) (hw : w ∈ ws)
    (hne : w.2.isExited = false) : 0 < live ws := by
  rcases Nat.eq_zero_or_pos (live ws) with h0 | h0
  · have := (rs_live_eq_zero ws).1 h0 w hw
    rw [hne] at this
    cases this
  · exact h0

/-! Section: the invariant of the transition system -/

theorem rs_init_some (a1 a2 : Bool) (nW nT : Int) (s : Sys)
    (h : Sys.init a1 a2 nW nT = some s) :
    0 ≤ nW ∧ 0 ≤ nT ∧ s = Sys.start nW.toNat nT.toNat := by
  unfold Sys.init at h
  split at h
  · rename_i tasks results h1 h2
    obtain ⟨c1, -, c3⟩ := make_some_inv _ _ _ _ h1
    obtain ⟨d1, -, d3⟩ := make_some_inv _ _ _ _ h2
    simp only [Option.some.injEq] at h
    subst c3 d3
    refine ⟨c1, d1, ?_⟩
    rw [← h]
    simp only [Sys.start, Int.toNat_of_nonneg c1, Int.toNat_of_nonneg d1]
  · simp at h

theorem rs_Inv_init (a1 a2 : Bool) (nW nT : Int) (s : Sys)
    (h : Sys.init a1 a2 nW nT = some s) : Inv nW nT s := by
  obtain ⟨h1, h2, rfl⟩ := rs_init_some a1 a2 nW nT s h
  constructor <;> (try simp [Sys.start, live]) <;> (try omega)

theorem rs_Inv_main (nW nT : Int) (s s' : Sys) (hi : Inv nW nT s) (h : mainStep s = some s') :
    Inv nW nT s' := by
  unfold mainStep at h
  split at h
  · rename_i i hm
    obtain ⟨m1, m2, m3, m4⟩ := hi.m_spawn i hm
    split at h
    · rename_i hlt
      simp at h
      subst h
      have hnw := hi.nw
      exact { hi with
        wg_live := by
          have := hi.wg_live
          simp [rs_live_append, live, WorkerPC.isExited, this]
        done_live := by
          have := hi.done_live
          simp [rs_live_append, live, WorkerPC.isExited]
          omega
        m_spawn := by
          intro j hj
          simp at hj
          subst hj
          refine ⟨?_, ?_, m3, m4⟩
          · simp
            omega
          · omega
        m_goP := by intro h; cases h
        m_goC := by intro h; cases h
        m_range := by rintro (h | h) <;> cases h
        fin_closed := by intro h; cases h
        started_p := by rintro (h | h | h) <;> cases h
        started_c := by rintro (h | h) <;> cases h
        c_wg := by
          intro h
          rw [m4] at h
          simp at h
        exited_drained := by
          intro w hw hex
          rcases List.mem_append.1 hw with hw | hw
          · exact hi.exited_drained w hw hex
          · simp at hw
            subst hw
            cases hex }
    · rename_i hge
      simp at h
      subst h
      have hnw := hi.nw
      exact { hi with
        m_spawn := by intro j h; cases h
        m_goP := by
          intro _
          refine ⟨?_, m3, m4⟩
          show (s.workers.length : Int) = nW
          omega
        m_goC := by intro h; cases h
        m_range := by rintro (h | h) <;> cases h
        fin_closed := by intro h; cases h
        started_p := by rintro (h | h | h) <;> cases h
        started_c := by rintro (h | h) <;> cases h }
  · rename_i hm
    obtain ⟨m1, m3, m4⟩ := hi.m_goP hm
    simp at h
    subst h
    have hc : s.tasks.closed = false := by
      cases hcl : s.tasks.closed
      · rfl
      · have := hi.t_closed.1 hcl
        rw [m3] at this
        cases this
    exact { hi with
      m_spawn := by intro j h; cases h
      m_goP := by intro h; cases h
      m_goC := by
        intro _
        exact ⟨m1, m4⟩
      m_range := by rintro (h | h) <;> cases h
      fin_closed := by intro h; cases h
      started_p := by intro _ h; cases h
      started_c := by rintro (h | h) <;> cases h
      t_closed := by simp [hc]
      p_not := by intro h; cases h
      p_loop := by
        intro j hj
        simp at hj
        subst hj
        have := (hi.p_not m3).1
        have := hi.nt0
        simp [*]
      p_send := by intro j t h; cases h
      p_fin := by intro h; cases h }
  · rename_i hm
    obtain ⟨m1, m4⟩ := hi.m_goC hm
    simp at h
    subst h
    have hc : s.results.closed = false := by
      cases hcl : s.results.closed
      · rfl
      · have := hi.r_closed.1 hcl
        rw [m4] at this
        cases this
    exact { hi with
      m_spawn := by intro j h; cases h
      m_goP := by intro h; cases h
      m_goC := by intro h; cases h
      m_range := by
        intro _
        exact m1
      fin_closed := by intro h; cases h
      started_p := by
        intro _
        exact hi.started_p (Or.inl hm)
      started_c := by intro _ h; cases h
      c_wg := by rintro (h | h) <;> cases h
      r_closed := by simp [hc]
      clog := by
        have := hi.clog
        simpa [m4] using this }
  · rename_i hm
    split at h
    · simp at h
      subst h
      exact { hi with }
    · split at h
      · rename_i hcl
        simp at h
        subst h
        exact { hi with
          m_spawn := by intro j h; cases h
          m_goP := by intro h; cases h
          m_goC := by intro h; cases h
          m_range := by
            intro _
            exact hi.m_range (Or.inl hm)
          fin_closed := by
            intro _
            exact hcl
          started_p := by
            intro _
            exact hi.started_p (Or.inr (Or.inl hm))
          started_c := by
            intro _
            exact hi.started_c (Or.inl hm) }
      · simp at h
  · simp at h

theorem rs_Inv_producer (nW nT : Int) (s s' : Sys) (p : Int) (hi : Inv nW nT s)
    (h : producerStep s p = some s') : Inv nW nT s' := by
  unfold producerStep at h
  split at h
  · simp at h
  · rename_i i hp
    obtain ⟨p1, p2⟩ := hi.p_loop i hp
    have hc : s.tasks.closed = false := by
      cases hcl : s.tasks.closed
      · rfl
      · have := hi.t_closed.1 hcl
        rw [hp] at this
        cases this
    have hnt := hi.nt
    split at h
    · rename_i hlt
      split at h
      · simp at h
        subst h
        exact { hi with
          m_spawn := by
            intro j hj
            have := (hi.m_spawn j hj).2.2.1
            rw [hp] at this
            cases this
          m_goP := by
            intro hj
            have := (hi.m_goP hj).2.1
            rw [hp] at this
            cases this
          t_closed := by simp [Sys.print, hc]
          p_not := by intro h; cases h
          p_loop := by intro j h; cases h
          p_send := by
            intro j t hj
            simp at hj
            obtain ⟨rfl, -⟩ := hj
            simp [Sys.print]
            omega
          p_fin := by intro h; cases h
          started_p := by intro _ h; cases h }
      · simp at h
    · rename_i hge
      split at h
      · rename_i hcl
        rw [hc] at hcl
        cases hcl
      · simp at h
        subst h
        exact { hi with
          m_spawn := by
            intro j hj
            have := (hi.m_spawn j hj).2.2.1
            rw [hp] at this
            cases this
          m_goP := by
            intro hj
            have := (hi.m_goP hj).2.1
            rw [hp] at this
            cases this
          t_closed := by simp
          p_not := by intro h; cases h
          p_loop := by intro j h; cases h
          p_send := by intro j t h; cases h
          p_fin := by
            intro _
            show (s.generated.length : Int) = nT
            omega
          started_p := by intro _ h; cases h
          exited_drained := by
            intro w hw hex
            exact ⟨rfl, (hi.exited_drained w hw hex).2⟩ }
  · rename_i i t hp
    obtain ⟨p1, p2⟩ := hi.p_send i t hp
    have hc : s.tasks.closed = false := by
      cases hcl : s.tasks.closed
      · rfl
      · have := hi.t_closed.1 hcl
        rw [hp] at this
        cases this
    split at h
    · rename_i hcl
      rw [hc] at hcl
      cases hcl
    · split at h
      · simp at h
        subst h
        exact { hi with
          m_spawn := by
            intro j hj
            have := (hi.m_spawn j hj).2.2.1
            rw [hp] at this
            cases this
          m_goP := by
            intro hj
            have := (hi.m_goP hj).2.1
            rw [hp] at this
            cases this
          t_closed := by simp [hc]
          p_not := by intro h; cases h
          p_loop := by
            intro j hj
            simp at hj
            subst hj
            exact ⟨p1, by omega⟩
          p_send := by intro j t h; cases h
          p_fin := by intro h; cases h
          started_p := by intro _ h; cases h
          exited_drained := by
            intro w hw hex
            have := (hi.exited_drained w hw hex).1
            rw [hc] at this
            cases this }
      · simp at h
  · simp at h

theorem rs_Inv_closer (nW nT : Int) (s s' : Sys) (hi : Inv nW nT s)
    (h : closerStep s = some s') : Inv nW nT s' := by
  unfold closerStep at h
  split at h
  · simp at h
  · rename_i hcp
    have hc : s.results.closed = false := by
      cases hcl : s.results.closed
      · rfl
      · have := hi.r_closed.1 hcl
        rw [hcp] at this
        cases this
    split at h
    · rename_i hwg
      simp at h
      subst h
      exact { hi with
        m_spawn := by
          intro j hj
          have := (hi.m_spawn j hj).2.2.2
          rw [hcp] at this
          cases this
        m_goP := by
          intro hj
          have := (hi.m_goP hj).2.2
          rw [hcp] at this
          cases this
        m_goC := by
          intro hj
          have := (hi.m_goC hj).2
          rw [hcp] at this
          cases this
        c_wg := by
          intro _
          exact hwg
        started_c := by intro _ h; cases h
        r_closed := by simp [hc]
        clog := by
          have := hi.clog
          simpa [hcp] using this }
    · simp at h
  · rename_i hcp
    have hc : s.results.closed = false := by
      cases hcl : s.results.closed
      · rfl
      · have := hi.r_closed.1 hcl
        rw [hcp] at this
        cases this
    have hwg := hi.c_wg (Or.inl hcp)
    split at h
    · rename_i hcl
      rw [hc] at hcl
      cases hcl
    · simp at h
      subst h
      exact { hi with
        m_spawn := by
          intro j hj
          have := (hi.m_spawn j hj).2.2.2
          rw [hcp] at this
          cases this
        m_goP := by
          intro hj
          have := (hi.m_goP hj).2.2
          rw [hcp] at this
          cases this
        m_goC := by
          intro hj
          have := (hi.m_goC hj).2
          rw [hcp] at this
          cases this
        c_wg := by
          intro _
          exact hwg
        started_c := by intro _ h; cases h
        r_closed := by simp
        clog := by
          have := hi.clog
          simp [hcp] at this
          simp [this, hwg]
        fin_closed := by
          intro _
          rfl }
  · simp at h

theorem rs_Inv_setPC (nW nT : Int) (s : Sys) (k : Nat) (id : Int) (pc pc' : WorkerPC)
    (hk : s.workers[k]? = some (id, pc)) (hpc : pc.isExited = false)
    (hpc' : pc'.isExited = false) (hi : Inv nW nT s) : Inv nW nT (s.setPC k id pc') := by
  have hl := rs_live_set s.workers k (id, pc) (id, pc') hk
  simp only [hpc, hpc'] at hl
  have hl2 : live (s.workers.set k (id, pc')) = live s.workers := by
    simpa using hl
  exact { hi with
    wg_live := by
      show s.wg = (live (s.workers.set k (id, pc')) : Int)
      rw [hl2]
      exact hi.wg_live
    done_live := by
      show s.doneCalls + live (s.workers.set k (id, pc')) = (s.workers.set k (id, pc')).length
      rw [hl2, List.length_set]
      exact hi.done_live
    m_spawn := by
      intro j hj
      have := hi.m_spawn j hj
      simpa [Sys.setPC] using this
    m_goP := by
      intro hj
      have := hi.m_goP hj
      simpa [Sys.setPC] using this
    m_goC := by
      intro hj
      have := hi.m_goC hj
      simpa [Sys.setPC] using this
    m_range := by
      intro hj
      have := hi.m_range hj
      simpa [Sys.setPC] using this
    exited_drained := by
      intro w hw hex
      rcases List.mem_or_eq_of_mem_set hw with hw | hw
      · exact hi.exited_drained w hw hex
      · subst hw
        simp at hex
        subst hex
        cases hpc' }

theorem rs_Inv_print (nW nT : Int) (s : Sys) (line : String) (hi : Inv nW nT s) :
    Inv nW nT (s.print line) :=
  { hi with }

theorem rs_Inv_worker (nW nT : Int) (s s' : Sys) (k : Nat) (hi : Inv nW nT s)
    (h : workerStep s k = some s') : Inv nW nT s' := by
  unfold workerStep at h
  split at h
  · rename_i id hk
    have hmem := mem_of_getElem? _ _ _ hk
    have hpos := rs_live_pos_of_mem s.workers _ hmem rfl
    split at h
    · rename_i t rest hb
      simp at h
      subst h
      have h1 := rs_Inv_setPC nW nT s k id WorkerPC.range (WorkerPC.task t) hk rfl rfl hi
      exact { h1 with
        p_not := by
          intro hp
          have := (hi.p_not hp).2
          rw [hb] at this
          cases this
        exited_drained := by
          intro w hw hex
          have := (h1.exited_drained w hw hex).2
          simp [Sys.setPC] at this
          rw [hb] at this
          cases this }
    · rename_i hb
      split at h
      · rename_i hcl
        have hwg := hi.wg_live
        split at h
        · omega
        · simp at h
          subst h
          have hl := rs_live_set s.workers k (id, WorkerPC.range) (id, WorkerPC.exited) hk
          have hl2 : live (s.workers.set k (id, WorkerPC.exited)) + 1 = live s.workers := by
            simpa [WorkerPC.isExited] using hl
          exact { hi with
            wg_live := by
              show s.wg - 1 = (live (s.workers.set k (id, WorkerPC.exited)) : Int)
              omega
            done_live := by
              show s.doneCalls + 1 + live (s.workers.set k (id, WorkerPC.exited))
                = (s.workers.set k (id, WorkerPC.exited)).length
              have := hi.done_live
              rw [List.length_set]
              omega
            m_spawn := by
              intro j hj
              have := hi.m_spawn j hj
              simpa [Sys.setPC] using this
            m_goP := by
              intro hj
              have := hi.m_goP hj
              simpa [Sys.setPC] using this
            m_goC := by
              intro hj
              have := hi.m_goC hj
              simpa [Sys.setPC] using this
            m_range := by
              intro hj
              have := hi.m_range hj
              simpa [Sys.setPC] using this
            c_wg := by
              intro hc
              have := hi.c_wg hc
              omega
            exited_drained := by
              intro w hw hex
              exact ⟨hcl, hb⟩ }
      · simp at h
  · rename_i id t hk
    simp at h
    subst h
    exact rs_Inv_setPC nW nT _ k id (WorkerPC.task t) _ hk rfl rfl (rs_Inv_print nW nT s _ hi)
  · rename_i id r hk
    have hmem := mem_of_getElem? _ _ _ hk
    have hpos := rs_live_pos_of_mem s.workers _ hmem rfl
    have hwg := hi.wg_live
    have hc : s.results.closed = false := by
      cases hcl : s.results.closed
      · rfl
      · have := hi.c_wg (Or.inr (hi.r_closed.1 hcl))
        omega
    split at h
    · rename_i hcl
      rw [hc] at hcl
      cases hcl
    · split at h
      · simp at h
        subst h
        have h1 := rs_Inv_setPC nW nT s k id (WorkerPC.send r) WorkerPC.range hk rfl rfl hi
        exact { h1 with }
      · simp at h
  · simp at h

theorem rs_Inv_step (nW nT : Int) (s s' : Sys) (l : Label) (hi : Inv nW nT s)
    (h : step s l = some s') : Inv nW nT s' := by
  unfold step at h
  split at h
  · simp at h
  · cases l with
    | main => exact rs_Inv_main nW nT s s' hi h
    | producer p => exact rs_Inv_producer nW nT s s' p hi h
    | closer => exact rs_Inv_closer nW nT s s' hi h
    | worker k => exact rs_Inv_worker nW nT s s' k hi h

theorem rs_Inv_reachable (nW nT : Int) (s : Sys) (h : Reachable nW nT s) : Inv nW nT s := by
  induction h with
  | init a1 a2 s hs => exact rs_Inv_init a1 a2 nW nT s hs
  | step s l s' _ hs ih => exact rs_Inv_step nW nT s s' l ih hs

theorem rs_Reachable_run (nW nT : Int) (s s' : Sys) (ls : List Label)
    (h : Reachable nW nT s) (hr : run s ls = some s') : Reachable nW nT s' := by
  induction ls generalizing s with
  | nil =>
    simp [run] at hr
    subst hr
    exact h
  | cons l ls ih =>
    simp only [run] at hr
    split at hr
    · rename_i s1 hs1
      exact ih s1 (Reachable.step s l s1 h hs1) hr
    · simp at hr

/-! Section: conservation of tasks and results -/

theorem rs_CountInv_init (a1 a2 : Bool) (nW nT : Int) (s : Sys)
    (h : Sys.init a1 a2 nW nT = some s) : CountInv s := by
  obtain ⟨h1, h2, rfl⟩ := rs_init_some a1 a2 nW nT s h
  constructor <;> simp [Sys.start, heldCount, ProducerPC.held]

theorem rs_CountInv_step (nW nT : Int) (s s' : Sys) (l : Label) (hi : Inv nW nT s)
    (hc : CountInv s) (h : step s l = some s') : CountInv s' := by
  obtain ⟨c1, c2⟩ := hc
  unfold step at h
  split at h
  · simp at h
  · cases l with
    | main =>
      simp only [mainStep] at h
      split at h
      · split at h
        · simp at h
          subst h
          refine ⟨?_, c2⟩
          intro x
          have := c1 x
          simp [rs_heldCount_append, heldCount, WorkerPC.held]
          omega
        · simp at h
          subst h
          exact ⟨c1, c2⟩
      · rename_i hm
        simp at h
        subst h
        refine ⟨?_, c2⟩
        intro x
        have := c1 x
        have hp := (hi.m_goP hm).2.1
        simp [ProducerPC.held, hp] at this ⊢
        omega
      · simp at h
        subst h
        exact ⟨c1, c2⟩
      · split at h
        · rename_i r rest hb
          simp at h
          subst h
          refine ⟨c1, ?_⟩
          simp [Sys.print, c2, hb]
        · split at h
          · simp at h
            subst h
            exact ⟨c1, c2⟩
          · simp at h
      · simp at h
    | producer p =>
      simp only [producerStep] at h
      split at h
      · simp at h
      · rename_i i hp
        split at h
        · split at h
          · simp at h
            subst h
            refine ⟨?_, c2⟩
            intro x
            have := c1 x
            simp [ProducerPC.held, hp, Sys.print, List.count_cons] at this ⊢
            omega
          · simp at h
        · split at h
          · simp at h
            subst h
            exact ⟨c1, c2⟩
          · simp at h
            subst h
            refine ⟨?_, c2⟩
            intro x
            have := c1 x
            simp [ProducerPC.held, hp] at this ⊢
            omega
      · rename_i i t hp
        split at h
        · simp at h
          subst h
          exact ⟨c1, c2⟩
        · split at h
          · simp at h
            subst h
            refine ⟨?_, c2⟩
            intro x
            have := c1 x
            simp [ProducerPC.held, hp, List.count_cons] at this ⊢
            omega
          · simp at h
      · simp at h
    | closer =>
      simp only [closerStep] at h
      split at h
      · simp at h
      · split at h
        · simp at h
          subst h
          exact ⟨c1, c2⟩
        · simp at h
      · split at h
        · simp at h
          subst h
          exact ⟨c1, c2⟩
        · simp at h
          subst h
          exact ⟨c1, c2⟩
      · simp at h
    | worker k =>
      simp only [workerStep] at h
      split at h
      · rename_i id hk
        split at h
        · rename_i t rest hb
          simp at h
          subst h
          refine ⟨?_, c2⟩
          intro x
          have := c1 x
          have hs := rs_heldCount_set x s.workers k (id, WorkerPC.range) (id, WorkerPC.task t) hk
          simp [WorkerPC.held] at hs
          simp [Sys.setPC, hb, List.count_cons] at this ⊢
          omega
        · split at h
          · split at h
            · simp at h
              subst h
              exact ⟨c1, c2⟩
            · simp at h
              subst h
              refine ⟨?_, c2⟩
              intro x
              have := c1 x
              have hs := rs_heldCount_set x s.workers k (id, WorkerPC.range)
                (id, WorkerPC.exited) hk
              simp [WorkerPC.held] at hs
              simp [Sys.setPC] at this ⊢
              omega
          · simp at h
      · rename_i id t hk
        simp at h
        subst h
        refine ⟨?_, c2⟩
        intro x
        have := c1 x
        have hs := rs_heldCount_set x s.workers k (id, WorkerPC.task t)
          (id, WorkerPC.send { TaskID := t.ID, Output := wrapInt (t.Payload * 2) }) hk
        simp [WorkerPC.held, resultOf] at hs
        simp [Sys.setPC, Sys.print] at this ⊢
        omega
      · rename_i id r hk
        split at h
        · simp at h
          subst h
          exact ⟨c1, c2⟩
        · split at h
          · simp at h
            subst h
            refine ⟨?_, ?_⟩
            · intro x
              have := c1 x
              have hs := rs_heldCount_set x s.workers k (id, WorkerPC.send r)
                (id, WorkerPC.range) hk
              simp [WorkerPC.held] at hs
              simp [Sys.setPC, List.count_cons] at this ⊢
              omega
            · simp [Sys.setPC, c2]
          · simp at h
      · simp at h

theorem rs_CountInv_reachable (nW nT : Int) (s : Sys) (h : Reachable nW nT s) : CountInv s := by
  induction h with
  | init a1 a2 s hs => exact rs_CountInv_init a1 a2 nW nT s hs
  | step s l s' hr hs ih =>
    exact rs_CountInv_step nW nT s s' l (rs_Inv_reachable nW nT s hr) ih hs

theorem rs_generated_step (s s' : Sys) (l : Label) (h : step s l = some s') :
    s'.generated = s.generated
      ∨ ∃ i p, s.producer = ProducerPC.loop i ∧ 0 ≤ p ∧ p < 100
          ∧ s'.generated = s.generated ++ [{ ID := i, Payload := p }] := by
  unfold step at h
  split at h
  · simp at h
  · cases l with
    | main =>
      simp only [mainStep] at h
      repeat' split at h
      all_goals first
        | (simp at h; done)
        | (simp at h; subst h; left; rfl)
    | producer p =>
      simp only [producerStep] at h
      split at h
      · simp at h
      · rename_i i hp
        split at h
        · split at h
          · rename_i hpr
            simp at h
            subst h
            right
            exact ⟨i, p, hp, hpr.1, hpr.2, rfl⟩
          · simp at h
        · split at h
          · simp at h
            subst h
            left
            rfl
          · simp at h
            subst h
            left
            rfl
      · repeat' split at h
        all_goals first
          | (simp at h; done)
          | (simp at h; subst h; left; rfl)
      · simp at h
    | closer =>
      simp only [closerStep] at h
      repeat' split at h
      all_goals first
        | (simp at h; done)
        | (simp at h; subst h; left; rfl)
    | worker k =>
      simp only [workerStep] at h
      repeat' split at h
      all_goals first
        | (simp at h; done)
        | (simp at h; subst h; left; rfl)

theorem rs_generated_ids (nW nT : Int) (s : Sys) (h : Reachable nW nT s) :
    s.generated.map Task.ID = (List.range s.generated.length).map (fun j : Nat => (j : Int))
      ∧ ∀ t ∈ s.generated, 0 ≤ t.Payload ∧ t.Payload < 100 := by
  induction h with
  | init a1 a2 s hs =>
    obtain ⟨-, -, rfl⟩ := rs_init_some a1 a2 _ _ s hs
    simp [Sys.start]
  | step s l s' hr hs ih =>
    rcases rs_generated_step s s' l hs with hg | ⟨i, p, hp, hp0, hp1, hg⟩
    · rw [hg]
      exact ih
    · have hlen := ((rs_Inv_reachable nW nT s hr).p_loop i hp).1
      rw [hg]
      refine ⟨?_, ?_⟩
      · simp [List.range_succ, ih.1, hlen]
      · intro t ht
        rcases List.mem_append.1 ht with ht | ht
        · exact ih.2 t ht
        · simp at ht
          subst ht
          exact ⟨hp0, hp1⟩

/-! Section: every execution ends -/

theorem rs_workersWeight_append (xs ys : List (Int × WorkerPC)) :
    workersWeight (xs ++ ys) = workersWeight xs + workersWeight ys := by
  induction xs with
  | nil => simp [workersWeight]
  | cons a xs ih => simp [workersWeight, ih, Nat.add_assoc]

theorem rs_workersWeight_set (ws : List (Int × WorkerPC)) (k : Nat) (w w' : Int × WorkerPC)
    (h : ws[k]? = some w) :
    workersWeight (ws.set k w') + w.2.weight = workersWeight ws + w'.2.weight := by
  induction ws generalizing k with
  | nil => simp at h
  | cons a xs ih =>
    cases k with
    | zero =>
      simp at h
      subst h
      simp [workersWeight]
      omega
    | succ k =>
      simp at h
      have := ih k h
      simp [workersWeight]
      omega

theorem rs_measure_step (nW nT : Int) (s s' : Sys) (l : Label) (hi : Inv nW nT s)
    (h : step s l = some s') : s'.measure < s.measure := by
  have hcr : s.crashed.isSome = false := by simp [hi.nocrash]
  unfold step at h
  split at h
  · simp at h
  · cases l with
    | main =>
      simp only [mainStep] at h
      split at h
      · rename_i i hm
        split at h
        · rename_i hlt
          simp at h
          subst h
          simp only [Sys.measure, hm, MainPC.weight, rs_workersWeight_append, workersWeight,
            WorkerPC.weight]
          omega
        · simp at h
          subst h
          simp only [Sys.measure, hm, MainPC.weight]
          omega
      · rename_i hm
        have hp := (hi.m_goP hm).2.1
        simp at h
        subst h
        simp only [Sys.measure, hm, hp, MainPC.weight, ProducerPC.weight]
        omega
      · rename_i hm
        have hc := (hi.m_goC hm).2
        simp at h
        subst h
        simp only [Sys.measure, hm, hc, MainPC.weight, CloserPC.weight]
        omega
      · rename_i hm
        split at h
        · rename_i r rest hb
          simp at h
          subst h
          simp only [Sys.measure, hm, MainPC.weight, Sys.print, hb, List.length_cons]
          omega
        · split at h
          · simp at h
            subst h
            simp only [Sys.measure, hm, MainPC.weight, Sys.print]
            omega
          · simp at h
      · simp at h
    | producer p =>
      simp only [producerStep] at h
      split at h
      · simp at h
      · rename_i i hp
        split at h
        · rename_i hlt
          split at h
          · simp at h
            subst h
            simp only [Sys.measure, hp, ProducerPC.weight, Sys.print]
            omega
          · simp at h
        · split at h
          · simp at h
            subst h
            simp only [Sys.measure, Sys.panic, hcr]
            simp
          · simp at h
            subst h
            simp only [Sys.measure, hp, ProducerPC.weight]
            omega
      · rename_i i t hp
        split at h
        · simp at h
          subst h
          simp only [Sys.measure, Sys.panic, hcr]
          simp
        · split at h
          · simp at h
            subst h
            simp only [Sys.measure, hp, ProducerPC.weight, List.length_append,
              List.length_singleton]
            omega
          · simp at h
      · simp at h
    | closer =>
      simp only [closerStep] at h
      split at h
      · simp at h
      · rename_i hc
        split at h
        · simp at h
          subst h
          simp only [Sys.measure, hc, CloserPC.weight]
          omega
        · simp at h
      · rename_i hc
        split at h
        · simp at h
          subst h
          simp only [Sys.measure, Sys.panic, hcr]
          simp
        · simp at h
          subst h
          simp only [Sys.measure, hc, CloserPC.weight]
          omega
      · simp at h
    | worker k =>
      simp only [workerStep] at h
      split at h
      · rename_i id hk
        split at h
        · rename_i t rest hb
          simp at h
          subst h
          have hs := rs_workersWeight_set s.workers k (id, WorkerPC.range) (id, WorkerPC.task t) hk
          simp only [WorkerPC.weight] at hs
          simp only [Sys.measure, Sys.setPC, hb, List.length_cons]
          omega
        · split at h
          · split at h
            · simp at h
              subst h
              simp only [Sys.measure, Sys.panic, hcr]
              simp
            · simp at h
              subst h
              have hs := rs_workersWeight_set s.workers k (id, WorkerPC.range)
                (id, WorkerPC.exited) hk
              simp only [WorkerPC.weight] at hs
              simp only [Sys.measure, Sys.setPC]
              omega
          · simp at h
      · rename_i id t hk
        simp at h
        subst h
        have hs := rs_workersWeight_set s.workers k (id, WorkerPC.task t)
          (id, WorkerPC.send { TaskID := t.ID, Output := wrapInt (t.Payload * 2) }) hk
        simp only [WorkerPC.weight] at hs
        simp only [Sys.measure, Sys.setPC, Sys.print]
        omega
      · rename_i id r hk
        split at h
        · simp at h
          subst h
          simp only [Sys.measure, Sys.panic, hcr]
          simp
        · split at h
          · simp at h
            subst h
            have hs := rs_workersWeight_set s.workers k (id, WorkerPC.send r)
              (id, WorkerPC.range) hk
            simp only [WorkerPC.weight] at hs
            simp only [Sys.measure, Sys.setPC, List.length_append, List.length_singleton]
            omega
          · simp at h
      · simp at h

theorem rs_run_length (nW nT : Int) (s s' : Sys) (ls : List Label) (hr : Reachable nW nT s)
    (h : run s ls = some s') : ls.length + s'.measure ≤ s.measure := by
  induction ls generalizing s with
  | nil =>
    simp [run] at h
    subst h
    simp
  | cons l ls ih =>
    simp only [run] at h
    split at h
    · rename_i s1 hs1
      have h1 := rs_measure_step nW nT s s1 l (rs_Inv_reachable nW nT s hr) hs1
      have h2 := ih s1 (Reachable.step s l s1 hr hs1) h
      simp only [List.length_cons]
      omega
    · simp at h

/-! Section: the program never gets stuck before `main` returns -/

theorem rs_exists_live (ws : List (Int × WorkerPC)) (h : live ws ≠ 0) :
    ∃ (k : Nat) (id : Int) (pc : WorkerPC), ws[k]? = some (id, pc) ∧ pc.isExited = false := by
  induction ws with
  | nil => simp [live] at h
  | cons a xs ih =>
    by_cases ha : a.2.isExited = true
    · have hx : live xs ≠ 0 := by
        simpa [live, ha] using h
      obtain ⟨k, id, pc, hk, hpc⟩ := ih hx
      exact ⟨k + 1, id, pc, by simpa using hk, hpc⟩
    · exact ⟨0, a.1, a.2, by simp, by simpa using ha⟩

theorem rs_heldCount_pos (x : Result) (ws : List (Int × WorkerPC)) (k : Nat) (id : Int)
    (pc : WorkerPC) (hk : ws[k]? = some (id, pc)) (hpc : pc.held = some x) :
    0 < heldCount x ws := by
  induction ws generalizing k with
  | nil => simp at hk
  | cons a xs ih =>
    cases k with
    | zero =>
      simp at hk
      subst hk
      simp [heldCount, hpc]
    | succ k =>
      simp at hk
      have := ih k hk
      simp only [heldCount]
      omega

theorem rs_generated_le (nW nT : Int) (s : Sys) (hi : Inv nW nT s) :
    (s.generated.length : Int) ≤ nT := by
  cases hp : s.producer with
  | notStarted =>
    have := (hi.p_not hp).1
    have := hi.nt0
    simp [*]
  | loop i =>
    have := hi.p_loop i hp
    omega
  | send i t =>
    have := hi.p_send i t hp
    omega
  | finished =>
    have := hi.p_fin hp
    omega

theorem rs_progress (nW nT : Int) (s : Sys) (hr : Reachable nW nT s)
    (hm : s.main ≠ MainPC.finished) : ∃ l s', step s l = some s' := by
  have hi := rs_Inv_reachable nW nT s hr
  have hcnt := rs_CountInv_reachable nW nT s hr
  have hstep : ∀ l, step s l = (match l with
      | Label.main => mainStep s
      | Label.producer p => producerStep s p
      | Label.closer => closerStep s
      | Label.worker k => workerStep s k) := by
    intro l
    simp [step, hi.nocrash, hm]
  cases hmain : s.main with
  | spawn i =>
    refine ⟨Label.main, ?_⟩
    rw [hstep]
    simp only [mainStep, hmain]
    split <;> exact ⟨_, rfl⟩
  | goProducer =>
    refine ⟨Label.main, ?_⟩
    rw [hstep]
    simp only [mainStep, hmain]
    exact ⟨_, rfl⟩
  | goCloser =>
    refine ⟨Label.main, ?_⟩
    rw [hstep]
    simp only [mainStep, hmain]
    exact ⟨_, rfl⟩
  | finished => exact absurd hmain hm
  | range =>
    cases hb : s.results.buf with
    | cons r rest =>
      refine ⟨Label.main, ?_⟩
      rw [hstep]
      simp only [mainStep, hmain, hb]
      exact ⟨_, rfl⟩
    | nil =>
      by_cases hcl : s.results.closed = true
      · refine ⟨Label.main, ?_⟩
        rw [hstep]
        simp only [mainStep, hmain, hb, hcl]
        exact ⟨_, rfl⟩
      · have hcl' : s.results.closed = false := by simpa using hcl
        cases hcp : s.closer with
        | notStarted => exact absurd hcp (hi.started_c (Or.inl hmain))
        | finished => exact absurd (hi.r_closed.2 hcp) hcl
        | closing =>
          refine ⟨Label.closer, ?_⟩
          rw [hstep]
          simp only [closerStep, hcp, hcl']
          exact ⟨_, rfl⟩
        | waiting =>
          by_cases hwg : s.wg = 0
          · refine ⟨Label.closer, ?_⟩
            rw [hstep]
            simp only [closerStep, hcp, hwg]
            exact ⟨_, rfl⟩
          · have hlive : live s.workers ≠ 0 := by
              have := hi.wg_live
              omega
            obtain ⟨k, id, pc, hk, hpc⟩ := rs_exists_live s.workers hlive
            have hlen : (s.workers.length : Int) = nW := hi.m_range (Or.inl hmain)
            have hklt : k < s.workers.length := by
              rw [List.getElem?_eq_some] at hk
              exact hk.1
            cases pc with
            | exited => cases hpc
            | task t =>
              refine ⟨Label.worker k, ?_⟩
              rw [hstep]
              simp only [workerStep, hk]
              exact ⟨_, rfl⟩
            | send r =>
              have h1 := rs_heldCount_pos r s.workers k id _ hk rfl
              have h2 := hcnt.count r
              have h3 : 0 < (s.generated.map resultOf).length := by
                have := List.count_le_length r (s.generated.map resultOf)
                omega
              have h4 := rs_generated_le nW nT s hi
              have hcap := hi.rcap
              have hlt : s.results.buf.length < s.results.cap := by
                rw [hb, hcap]
                simp at h3 ⊢
                omega
              refine ⟨Label.worker k, ?_⟩
              rw [hstep]
              simp only [workerStep, hk, hcl', hlt]
              exact ⟨_, rfl⟩
            | range =>
              cases htb : s.tasks.buf with
              | cons t rest =>
                refine ⟨Label.worker k, ?_⟩
                rw [hstep]
                simp only [workerStep, hk, htb]
                exact ⟨_, rfl⟩
              | nil =>
                by_cases htc : s.tasks.closed = true
                · refine ⟨Label.worker k, ?_⟩
                  rw [hstep]
                  simp only [workerStep, hk, htb, htc]
                  by_cases hneg : s.wg - 1 < 0
                  · rw [if_pos hneg]
                    exact ⟨_, rfl⟩
                  · rw [if_neg hneg]
                    exact ⟨_, rfl⟩
                · have htc' : s.tasks.closed = false := by simpa using htc
                  cases hp : s.producer with
                  | notStarted =>
                    exact absurd hp (hi.started_p (Or.inr (Or.inl hmain)))
                  | finished => exact absurd (hi.t_closed.2 hp) htc
                  | loop i =>
                    refine ⟨Label.producer 0, ?_⟩
                    rw [hstep]
                    simp only [producerStep, hp, htc']
                    split
                    · simp
                    · exact ⟨_, rfl⟩
                  | send i t =>
                    have hcap := hi.tcap
                    have hlt : s.tasks.buf.length < s.tasks.cap := by
                      rw [htb, hcap]
                      simp
                      omega
                    refine ⟨Label.producer 0, ?_⟩
                    rw [hstep]
                    simp only [producerStep, hp, htc', hlt]
                    exact ⟨_, rfl⟩

theorem rs_init_ofNat (numWorkers numTasks : Nat)
    (h1 : numWorkers * elemSize ≤ maxAlloc - hchanSize)
    (h2 : numTasks * elemSize ≤ maxAlloc - hchanSize) :
    Sys.init true true (numWorkers : Int) (numTasks : Int)
      = some (Sys.start numWorkers numTasks) := by
  simp [Sys.init, make_ofNat elemSize numWorkers h1, make_ofNat elemSize numTasks h2, Sys.start]

/-! Section: the claims about the closing of `results` -/

theorem rs_closed_all_exited (nW nT : Int) (s : Sys) (hi : Inv nW nT s) :
    s.results.closed = true →
      s.wg = 0 ∧ (s.doneCalls : Int) = nW ∧ (s.workers.length : Int) = nW
        ∧ ∀ w ∈ s.workers, w.2 = WorkerPC.exited := by
    intro hc
    have hfin := hi.r_closed.1 hc
    have hwg := hi.c_wg (Or.inr hfin)
    have hlive : live s.workers = 0 := by
      have := hi.wg_live
      omega
    have hlen : (s.workers.length : Int) = nW := by
      cases hm : s.main with
      | spawn i =>
        have := (hi.m_spawn i hm).2.2.2
        rw [hfin] at this
        cases this
      | goProducer =>
        have := (hi.m_goP hm).2.2
        rw [hfin] at this
        cases this
      | goCloser =>
        have := (hi.m_goC hm).2
        rw [hfin] at this
        cases this
      | range => exact hi.m_range (Or.inl hm)
      | finished => exact hi.m_range (Or.inr hm)
    refine ⟨hwg, ?_, hlen, ?_⟩
    · have := hi.done_live
      omega
    · intro w hw
      have := (rs_live_eq_zero s.workers).1 hlive w hw
      cases hpc : w.2 <;> simp [hpc, WorkerPC.isExited] at this
      rfl

/-- C9: in every state of every execution of the program, no panic has
happened (so no send on a closed channel and no second close); `results` has
been closed at most once, each time by the closing goroutine while the counter
of the wait group was zero; `results` is closed exactly when that one close has
happened, and then every one of the `numWorkers` workers has been spawned, has
called `Done` and has returned; when `main` has returned the close has happened
exactly once; a worker standing at its send finds `results` open; and the
program is never stuck before `main` returns while every execution ends after
at most `measure` actions, so every interleaving runs on until `main` returns,
with `results` closed exactly once. -/
theorem C9_results_closed_once_by_closer (nW nT : Int) (s : Sys) (hr : Reachable nW nT s) :
    s.crashed = none
      ∧ s.closeLog.length ≤ 1
      ∧ (∀ e ∈ s.closeLog, e = (Goroutine.closer, 0))
      ∧ (s.results.closed = true ↔ s.closeLog.length = 1)
      ∧ (s.results.closed = true →
          s.wg = 0 ∧ (s.doneCalls : Int) = nW ∧ (s.workers.length : Int) = nW
            ∧ ∀ w ∈ s.workers, w.2 = WorkerPC.exited)
      ∧ (s.main = MainPC.finished → s.closeLog.length = 1)
      ∧ (∀ (k : Nat) (id : Int) (r : Result),
          s.workers[k]? = some (id, WorkerPC.send r) → s.results.closed = false)
      ∧ (s.main ≠ MainPC.finished → ∃ l s', step s l = some s')
      ∧ (∀ (ls : List Label) (s' : Sys), run s ls = some s' → ls.length ≤ s.measure) := by
  have hi := rs_Inv_reachable nW nT s hr
  have hclosed := rs_closed_all_exited nW nT s hi
  have hlog := hi.clog
  refine ⟨hi.nocrash, ?_, ?_, ?_, hclosed, ?_, ?_, rs_progress nW nT s hr, ?_⟩
  · rw [hlog]
    split <;> simp
  · intro e he
    rw [hlog] at he
    split at he <;> simp at he
    exact he
  · rw [hi.r_closed, hlog]
    by_cases hf : s.closer = CloserPC.finished <;> simp [hf]
  · intro hm
    have := hi.r_closed.1 (hi.fin_closed hm)
    rw [hlog]
    simp [this]
  · intro k id r hk
    cases hc : s.results.closed
    · rfl
    · have := (hclosed hc).2.2.2 _ (mem_of_getElem? _ _ _ hk)
      cases this
  · intro ls s' hrun
    have := rs_run_length nW nT s s' ls hr hrun
    omega

/-- C9, on a complete execution with two workers and two tasks: `main` returns,
`results` has been closed once, by the closing goroutine with the counter at
zero and after both workers called `Done`. -/
theorem C9_results_closed_once_by_closer_witness :
    ∃ s, run (Sys.start 2 2)
      [Label.main, Label.main, Label.main, Label.main, Label.main,
       Label.producer 7, Label.producer 0, Label.worker 1, Label.producer 42,
       Label.producer 0, Label.worker 0, Label.worker 0, Label.worker 1, Label.worker 0,
       Label.producer 0, Label.worker 0, Label.worker 1, Label.main, Label.worker 1,
       Label.closer, Label.closer, Label.main, Label.main] = some s
      ∧ s.main = MainPC.finished
      ∧ s.closeLog = [(Goroutine.closer, 0)]
      ∧ s.doneCalls = 2
      ∧ s.printed = [{ TaskID := 1, Output := 84 }, { TaskID := 0, Output := 14 }]
      ∧ s.crashed = none
      ∧ s.closeLog.length ≤ 1 := by
  refine ⟨_, rfl, rfl, rfl, rfl, rfl, ?_, ?_⟩
  · exact (C9_results_closed_once_by_closer 2 2 _
      (rs_Reachable_run 2 2 (Sys.start 2 2) _
      [Label.main, Label.main, Label.main, Label.main, Label.main,
       Label.producer 7, Label.producer 0, Label.worker 1, Label.producer 42,
       Label.producer 0, Label.worker 0, Label.worker 0, Label.worker 1, Label.worker 0,
       Label.producer 0, Label.worker 0, Label.worker 1, Label.main, Label.worker 1,
       Label.closer, Label.closer, Label.main, Label.main]
      (Reachable.init true true _ (rs_init_ofNat 2 2 (by decide) (by decide))) rfl)).1
  · exact (C9_results_closed_once_by_closer 2 2 _
      (rs_Reachable_run 2 2 (Sys.start 2 2) _
      [Label.main, Label.main, Label.main, Label.main, Label.main,
       Label.producer 7, Label.producer 0, Label.worker 1, Label.producer 42,
       Label.producer 0, Label.worker 0, Label.worker 0, Label.worker 1, Label.worker 0,
       Label.producer 0, Label.worker 0, Label.worker 1, Label.main, Label.worker 1,
       Label.closer, Label.closer, Label.main, Label.main]
      (Reachable.init true true _ (rs_init_ofNat 2 2 (by decide) (by decide))) rfl)).2.1

/-- C10, the claim as stated fails for `numWorkers = 0`: with no worker the
counter of the wait group is zero from the start, so `results` is closed while
the task with ID 0 has been generated and no result has been sent. -/
theorem C10_counterexample_no_workers :
    ∃ s, Sys.init true true 0 1 = some (Sys.start 0 1)
      ∧ run (Sys.start 0 1) [Label.main, Label.main, Label.main, Label.producer 5, Label.closer,
          Label.closer] = some s
      ∧ s.results.closed = true
      ∧ s.closeLog = [(Goroutine.closer, 0)]
      ∧ s.generated = [{ ID := 0, Payload := 5 }]
      ∧ s.sent = []
      ∧ s.sent.length ≠ s.generated.length := by
  refine ⟨_, rfl, rfl, rfl, rfl, rfl, rfl, ?_⟩
  intro h
  cases h

/-- C10 (amended): for every number of workers that is at least 1 and whatever
tasks are generated, in every state of every execution in which `results` is
closed (the moment of the close included), all `numTasks` tasks have been
generated, with the IDs `0, 1, ..`, and the results sent on `results` are, up
to order, exactly `Result{TaskID: t.ID, Output: t.Payload*2}` for the generated
tasks `t`: as many results as tasks, one result per ID. -/
theorem C10_one_result_per_generated_task (nW nT : Int) (s : Sys) (hr : Reachable nW nT s)
    (hw : 1 ≤ nW) (hc : s.results.closed = true) :
    (s.sent.map Prod.snd).Perm (s.generated.map resultOf)
      ∧ s.sent.length = s.generated.length
      ∧ (s.generated.length : Int) = nT
      ∧ s.generated.map Task.ID = (List.range nT.toNat).map (fun j : Nat => (j : Int))
      ∧ (s.sent.map (fun e => e.2.TaskID)).Perm
          ((List.range nT.toNat).map (fun j : Nat => (j : Int))) := by
  have hi := rs_Inv_reachable nW nT s hr
  have hcnt := rs_CountInv_reachable nW nT s hr
  obtain ⟨hwg, -, hlen, hex⟩ := rs_closed_all_exited nW nT s hi hc
  have hne : s.workers ≠ [] := by
    intro h0
    rw [h0] at hlen
    simp at hlen
    omega
  obtain ⟨w, hw'⟩ := List.exists_mem_of_ne_nil _ hne
  obtain ⟨htc, htb⟩ := hi.exited_drained w hw' (hex w hw')
  have hpf := hi.t_closed.1 htc
  have hgen := hi.p_fin hpf
  have hheld : ∀ x, heldCount x s.workers = 0 := by
    intro x
    apply rs_heldCount_eq_zero
    intro w1 hw1
    rw [hex w1 hw1]
    rfl
  have hperm : (s.sent.map Prod.snd).Perm (s.generated.map resultOf) := by
    rw [List.perm_iff_count]
    intro x
    have := hcnt.count x
    rw [hheld x, htb, hpf] at this
    simp [ProducerPC.held] at this
    exact this.symm
  have hids := (rs_generated_ids nW nT s hr).1
  have hn : s.generated.length = nT.toNat := by omega
  refine ⟨hperm, ?_, hgen, ?_, ?_⟩
  · have := hperm.length_eq
    simpa using this
  · rw [← hn]
    exact hids
  · have h1 := hperm.map Result.TaskID
    have h2 : (s.generated.map resultOf).map Result.TaskID = s.generated.map Task.ID := by
      simp [resultOf]
    rw [h2, hids, hn] at h1
    simpa using h1

/-- C10 (amended), on the complete execution with two workers and two tasks. -/
theorem C10_one_result_per_generated_task_witness :
    ∃ s, run (Sys.start 2 2)
      [Label.main, Label.main, Label.main, Label.main, Label.main,
       Label.producer 7, Label.producer 0, Label.worker 1, Label.producer 42,
       Label.producer 0, Label.worker 0, Label.worker 0, Label.worker 1, Label.worker 0,
       Label.producer 0, Label.worker 0, Label.worker 1, Label.main, Label.worker 1,
       Label.closer, Label.closer] = some s
      ∧ s.results.closed = true
      ∧ s.sent = [(0, { TaskID := 1, Output := 84 }), (1, { TaskID := 0, Output := 14 })]
      ∧ s.generated = [{ ID := 0, Payload := 7 }, { ID := 1, Payload := 42 }]
      ∧ (s.sent.map Prod.snd).Perm (s.generated.map resultOf)
      ∧ s.sent.length = s.generated.length := by
  refine ⟨_, rfl, rfl, rfl, rfl, ?_, ?_⟩
  · exact (C10_one_result_per_generated_task 2 2 _
      (rs_Reachable_run 2 2 (Sys.start 2 2) _
      [Label.main, Label.main, Label.main, Label.main, Label.main,
       Label.producer 7, Label.producer 0, Label.worker 1, Label.producer 42,
       Label.producer 0, Label.worker 0, Label.worker 0, Label.worker 1, Label.worker 0,
       Label.producer 0, Label.worker 0, Label.worker 1, Label.main, Label.worker 1,
       Label.closer, Label.closer]
      (Reachable.init true true _ (rs_init_ofNat 2 2 (by decide) (by decide))) rfl) (by decide) rfl).1
  · exact (C10_one_result_per_generated_task 2 2 _
      (rs_Reachable_run 2 2 (Sys.start 2 2) _
      [Label.main, Label.main, Label.main, Label.main, Label.main,
       Label.producer 7, Label.producer 0, Label.worker 1, Label.producer 42,
       Label.producer 0, Label.worker 0, Label.worker 0, Label.worker 1, Label.worker 0,
       Label.producer 0, Label.worker 0, Label.worker 1, Label.main, Label.worker 1,
       Label.closer, Label.closer]
      (Reachable.init true true _ (rs_init_ofNat 2 2 (by decide) (by decide))) rfl) (by decide) rfl).2.1

end Demo2

namespace Demo3

open Go

/-! Section: construction, repeated `Start`, tasks without callback -/

theorem run_spawns {σ : Type} (j : Nat) (s : Sys σ) (i : Int) (hown : s.owner = OwnerPC.start i)
    (hcr : s.crashed = none) (hle : 0 < j → i + j ≤ s.tp.workerCount) :
    run s (List.replicate j (Label.owner OwnerStep.spawn))
      = some { s with
          tp := { s.tp with wg := s.tp.wg + j },
          workers := s.workers ++ (List.range j).map (fun d : Nat => (i + d, WorkerPC.entry)),
          owner := OwnerPC.start (i + j) } := by
  induction j with
  | zero =>
    simp [run]
    cases s
    simp at hown ⊢
    simp [hown]
  | succ j ih =>
    have hle' := hle (Nat.succ_pos j)
    push_cast at hle'
    rw [List.replicate_succ', run_append, ih (by intro _; omega)]
    have hlt : i + (j : Int) < s.tp.workerCount := by omega
    simp [run, step, hcr, owner, hlt, Sys.wgAdd, List.range_succ]
    refine ⟨by ring, by ring⟩

/-- C14, the claim as stated fails: on the pool of `NewThreadPool(2, 1)` a
second `Start` after the first returns like the first, without any error, and
leaves four worker goroutines and the counter at 4. -/
theorem C14_counterexample_second_start_spawns :
    ∃ s1 s2, run (Sys.init (freshPool MainWorld 2 1) mainWorld0)
        [Label.owner OwnerStep.callStart, Label.owner OwnerStep.spawn,
         Label.owner OwnerStep.spawn, Label.owner OwnerStep.startReturn] = some s1
      ∧ s1.workers.length = 2 ∧ s1.tp.wg = 2
      ∧ run s1
        [Label.owner OwnerStep.callStart, Label.owner OwnerStep.spawn,
         Label.owner OwnerStep.spawn, Label.owner OwnerStep.startReturn] = some s2
      ∧ s2.workers.length = 4 ∧ s2.tp.wg = 4 ∧ s2.crashed = none
      ∧ s2.owner = OwnerPC.idle :=
  ⟨_, _, rfl, rfl, rfl, rfl, rfl, rfl, rfl, rfl⟩

/-- C14 (amended): `Start` has no guard and no error result.  In every state of
every execution in which the owner is between calls and no panic has happened,
also when `Start` has been called before, a call of `Start` runs to its end,
spawns `workerCount` more workers (none when `workerCount ≤ 0`) with the
`id`s `0, 1, ..` and adds as many to the counter of the wait group, which
before and after is the number of workers spawned so far that have not
returned; nothing else changes. -/
theorem C14_start_again_spawns_more {σ : Type} (workerCount taskQueueSize : Int) (w : σ)
    (s : Sys σ) (hr : Reachable workerCount taskQueueSize w s)
    (hidle : s.owner = OwnerPC.idle) (hcr : s.crashed = none) :
    run s ([Label.owner OwnerStep.callStart]
        ++ List.replicate s.tp.workerCount.toNat (Label.owner OwnerStep.spawn)
        ++ [Label.owner OwnerStep.startReturn])
      = some { s with
          tp := { s.tp with wg := s.tp.wg + s.tp.workerCount.toNat },
          workers := s.workers ++ (List.range s.tp.workerCount.toNat).map
            (fun d : Nat => ((d : Int), WorkerPC.entry)) }
    ∧ s.tp.wg = (live s.workers : Int)
    ∧ s.tp.wg + s.tp.workerCount.toNat
        = (live (s.workers ++ (List.range s.tp.workerCount.toNat).map
            (fun d : Nat => ((d : Int), (WorkerPC.entry : WorkerPC σ)))) : Int) := by
  have hi := Inv_reachable workerCount taskQueueSize w s hr
  have h1 : run s [Label.owner OwnerStep.callStart]
      = some { s with owner := OwnerPC.start 0 } := by
    simp [run, step, hcr, owner, hidle]
  have h2 := run_spawns s.tp.workerCount.toNat { s with owner := OwnerPC.start 0 } 0 rfl hcr
    (by
      intro hpos
      show (0 : Int) + (s.tp.workerCount.toNat : Int) ≤ s.tp.workerCount
      omega)
  have hrun : run s ([Label.owner OwnerStep.callStart]
        ++ List.replicate s.tp.workerCount.toNat (Label.owner OwnerStep.spawn)
        ++ [Label.owner OwnerStep.startReturn])
      = some { s with
          tp := { s.tp with wg := s.tp.wg + s.tp.workerCount.toNat },
          workers := s.workers ++ (List.range s.tp.workerCount.toNat).map
            (fun d : Nat => ((d : Int), WorkerPC.entry)) } := by
    rw [run_append, run_append, h1]
    simp only [Option.bind]
    rw [h2]
    have hge : ¬ ((0 : Int) + (s.tp.workerCount.toNat : Int) < s.tp.workerCount) := by omega
    simp [run, step, hcr, owner, hge, hidle]
  refine ⟨hrun, hi.wg_live, ?_⟩
  rw [live_append, hi.wg_live]
  have hl : ∀ n : Nat, live ((List.range n).map
      (fun d : Nat => ((d : Int), (WorkerPC.entry : WorkerPC σ)))) = n := by
    intro n
    induction n with
    | zero => simp [live]
    | succ n ihn => simp [List.range_succ, live_append, live, ihn, WorkerPC.isExited]
  rw [hl]
  push_cast
  rfl

/-- C14 (amended), on the pool of `NewThreadPool(2, 1)` after a first `Start`:
the second `Start` spawns two more workers. -/
theorem C14_start_again_spawns_more_witness :
    ∃ s, run (Sys.init (freshPool MainWorld 2 1) mainWorld0)
        [Label.owner OwnerStep.callStart, Label.owner OwnerStep.spawn,
         Label.owner OwnerStep.spawn, Label.owner OwnerStep.startReturn] = some s
      ∧ s.owner = OwnerPC.idle ∧ s.crashed = none
      ∧ run s ([Label.owner OwnerStep.callStart]
          ++ List.replicate s.tp.workerCount.toNat (Label.owner OwnerStep.spawn)
          ++ [Label.owner OwnerStep.startReturn])
        = some { s with
            tp := { s.tp with wg := s.tp.wg + s.tp.workerCount.toNat },
            workers := s.workers ++ (List.range s.tp.workerCount.toNat).map
              (fun d : Nat => ((d : Int), WorkerPC.entry)) } := by
  refine ⟨_, rfl, rfl, rfl, ?_⟩
  exact (C14_start_again_spawns_more 2 1 mainWorld0 _
    (Reachable_run 2 1 mainWorld0 _ _
      [Label.owner OwnerStep.callStart, Label.owner OwnerStep.spawn,
       Label.owner OwnerStep.spawn, Label.owner OwnerStep.startReturn]
      (Reachable.init true _ (NewThreadPool_ofNat 2 1 (by decide))) rfl) rfl rfl).1

/-- C15, the claim as stated fails: when worker 0 has received a task without
callback, running it leaves no trace of what `Execute` returned.  For the two
tasks `silentTask (int 1) nil` and `silentTask (int 2) "boom"` the states after
the worker's action agree in the pool value, the goroutines, the state of
`main`, the output and the history of callback calls (which stays empty): no
result is published anywhere. -/
theorem C15_counterexample_result_discarded :
    ∃ s1 s2,
      run (Sys.init (freshPool MainWorld 1 1) mainWorld0)
        [Label.owner OwnerStep.callStart, Label.owner OwnerStep.spawn,
         Label.owner OwnerStep.startReturn, Label.worker 0 WorkerStep.enter,
         Label.submit (silentTask (GoAny.int 1) none) SubmitCase.send,
         Label.worker 0 WorkerStep.recv, Label.worker 0 WorkerStep.exec] = some s1
      ∧ run (Sys.init (freshPool MainWorld 1 1) mainWorld0)
        [Label.owner OwnerStep.callStart, Label.owner OwnerStep.spawn,
         Label.owner OwnerStep.startReturn, Label.worker 0 WorkerStep.enter,
         Label.submit (silentTask (GoAny.int 2) (some "boom")) SubmitCase.send,
         Label.worker 0 WorkerStep.recv, Label.worker 0 WorkerStep.exec] = some s2
      ∧ s1.tp = s2.tp ∧ s1.workers = s2.workers ∧ s1.owner = s2.owner
      ∧ s1.world = s2.world ∧ s1.out = s2.out ∧ s1.crashed = s2.crashed
      ∧ s1.callbacks = [] ∧ s2.callbacks = []
      ∧ s1.out = ["Worker 0 started\n"] :=
  ⟨_, _, rfl, rfl, rfl, rfl, rfl, rfl, rfl, rfl, rfl, rfl, rfl⟩

/-- C15 (amended): when goroutine `k` holds a received task `t` whose `Callback`
is nil and whose `Execute`, called on `t.Input`, returns the pair `(output,
err)`, its next action calls `Execute` once and drops the output and the
error: apart from what `Execute` itself did to the state of its closure, and
from the history of `Execute` calls, nothing changes but the worker going back
to its `select`; no callback is called, nothing is printed, the pool value is
as it was.  (A panic of `Execute` ends the program, see `workerTask`.) -/
theorem C15_nil_callback_discards_result {σ : Type} (s : Sys σ) (k : Nat) (id : Int)
    (t : Task σ) (execute : GoAny → σ → Outcome (GoAny × GoError) σ)
    (output : GoAny) (err : GoError) (w1 : σ)
    (hk : s.workers[k]? = some (id, WorkerPC.task t))
    (hcb : t.Callback = none) (hex : t.Execute = some execute)
    (hret : execute t.Input s.world = Outcome.returned (output, err) w1) :
    worker s k WorkerStep.exec
      = some { s with
          world := w1,
          executed := s.executed ++ [(k, t, output, err)],
          workers := s.workers.set k (id, WorkerPC.loop) } := by
  simp [worker, hk, workerTask, hcb, hex, hret, Sys.setPC]

/-- C15 (amended), on the execution in which worker 0 has received
`silentTask (int 2) "boom"`. -/
theorem C15_nil_callback_discards_result_witness :
    ∃ s, run (Sys.init (freshPool MainWorld 1 1) mainWorld0)
        [Label.owner OwnerStep.callStart, Label.owner OwnerStep.spawn,
         Label.owner OwnerStep.startReturn, Label.worker 0 WorkerStep.enter,
         Label.submit (silentTask (GoAny.int 2) (some "boom")) SubmitCase.send,
         Label.worker 0 WorkerStep.recv] = some s
      ∧ s.workers[0]? = some (0, WorkerPC.task (silentTask (GoAny.int 2) (some "boom")))
      ∧ worker s 0 WorkerStep.exec
        = some { s with
            world := mainWorld0,
            executed := [(0, silentTask (GoAny.int 2) (some "boom"), GoAny.int 2, some "boom")],
            workers := [(0, WorkerPC.loop)] } := by
  refine ⟨_, rfl, rfl, ?_⟩
  exact C15_nil_callback_discards_result _ 0 0 (silentTask (GoAny.int 2) (some "boom"))
    (fun _ w => Outcome.returned (GoAny.int 2, some "boom") w) (GoAny.int 2) (some "boom")
    mainWorld0 rfl rfl rfl rfl

/-! Section: the cancellation signal -/

theorem Submit_ctxDone {σ : Type} (s s' : Sys σ) (t : Task σ) (c : SubmitCase)
    (r : SubmitResult) (h : Submit s t c = some (r, s')) : s'.tp.ctxDone = s.tp.ctxDone := by
  cases c with
  | send =>
    simp only [Submit] at h
    by_cases h1 : s.tp.taskChan.closed = true
    · simp [h1] at h
      obtain ⟨-, rfl⟩ := h
      rfl
    · by_cases h2 : s.tp.taskChan.buf.length < s.tp.taskChan.cap
      · simp [h1, h2] at h
        obtain ⟨-, rfl⟩ := h
        rfl
      · simp [h1, h2] at h
  | handoff k =>
    simp only [Submit] at h
    cases hk : s.workers[k]? with
    | none => simp [hk] at h
    | some w =>
      obtain ⟨id, pc⟩ := w
      by_cases h1 : s.tp.taskChan.cap = 0 ∧ s.blockedInSelect k = true
      · simp only [hk, h1] at h
        simp at h
        obtain ⟨-, rfl⟩ := h
        rfl
      · simp only [hk, h1] at h
        simp at h
  | done =>
    simp only [Submit] at h
    by_cases h1 : s.tp.ctxDone = true
    · simp [h1] at h
      obtain ⟨-, rfl⟩ := h
      rfl
    · simp [h1] at h
  | default =>
    simp only [Submit] at h
    by_cases h1 : s.tp.ctxDone = false ∧ s.tp.taskChan.closed = false
        ∧ ¬ s.tp.taskChan.buf.length < s.tp.taskChan.cap
    · rw [if_pos h1] at h
      simp at h
      obtain ⟨-, rfl⟩ := h
      rfl
    · rw [if_neg h1] at h
      simp at h

theorem workerReturn_ctxDone {σ : Type} (s : Sys σ) (k : Nat) (id : Int) :
    (workerReturn s k id).tp.ctxDone = s.tp.ctxDone := by
  unfold workerReturn Sys.wgDone
  split <;> rfl

theorem worker_ctxDone {σ : Type} (s s' : Sys σ) (k : Nat) (a : WorkerStep)
    (h : worker s k a = some s') : s'.tp.ctxDone = s.tp.ctxDone := by
  unfold worker at h
  split at h
  · simp at h
    subst h
    rfl
  · split at h
    · simp at h
      subst h
      rw [workerReturn_ctxDone]
      rfl
    · simp at h
  · split at h
    · simp at h
      subst h
      rfl
    · split at h
      · simp at h
        subst h
        rw [workerReturn_ctxDone]
        rfl
      · simp at h
  · rename_i id t hk
    simp at h
    subst h
    obtain ⟨w, ex, cb, hc | hc⟩ := workerTask_cases s k id t
    · obtain ⟨msg, hc⟩ := hc
      rw [hc]
      exact (workerPanic_frame _ k id t msg).2.2.1
    · obtain ⟨out, hc⟩ := hc
      rw [hc]
  · simp at h

theorem ctxDone_step {σ : Type} (s s' : Sys σ) (l : Label σ) (h : step s l = some s')
    (hd : s.tp.ctxDone = true) : s'.tp.ctxDone = true := by
  unfold step at h
  split at h
  · simp at h
  · cases l with
    | submit t c =>
      simp only at h
      split at h
      · rename_i r s1 hs
        simp at h
        subst h
        have := Submit_ctxDone s s1 t c r hs
        show s1.tp.ctxDone = true
        rw [this]
        exact hd
      · simp at h
    | worker k a =>
      simp only at h
      rw [worker_ctxDone s s' k a h]
      exact hd
    | owner a =>
      exact (owner_frame s s' a h).2.2.1 hd

theorem ctxDone_run {σ : Type} (s s' : Sys σ) (ls : List (Label σ)) (h : run s ls = some s')
    (hd : s.tp.ctxDone = true) : s'.tp.ctxDone = true := by
  induction ls generalizing s with
  | nil =>
    simp [run] at h
    subst h
    exact hd
  | cons l ls ih =>
    simp only [run] at h
    split at h
    · rename_i s1 hs1
      exact ih s1 h (ctxDone_step s s1 l hs1 hd)
    · simp at h

/-- C16: setting the cancellation signal twice gives exactly the pool value
that setting it once gives, with the signal set and everything else as it was;
the first action of `Stop` is this `cancel`; and once the signal is set, no
execution, whatever `Start`, `Submit`, worker and `Stop` actions it is made of,
reaches a state in which it is unset. -/
theorem C16_cancel_idempotent_and_irreversible {σ : Type} (tp : ThreadPool σ) (s s' : Sys σ)
    (ls : List (Label σ)) (hrun : run s ls = some s') (hd : s.tp.ctxDone = true) :
    tp.cancel.cancel = tp.cancel
      ∧ tp.cancel.ctxDone = true
      ∧ tp.cancel.taskChan = tp.taskChan ∧ tp.cancel.wg = tp.wg
      ∧ tp.cancel.workerCount = tp.workerCount
      ∧ (∀ s0 s1 : Sys σ, owner s0 OwnerStep.stopCancel = some s1 → s1.tp = s0.tp.cancel)
      ∧ s'.tp.ctxDone = true := by
  refine ⟨rfl, rfl, rfl, rfl, rfl, ?_, ctxDone_run s s' ls hrun hd⟩
  intro s0 s1 h
  simp only [owner] at h
  split at h
  · simp at h
    subst h
    rfl
  · simp at h

/-- C16, on an execution that goes on after `Stop` has set the signal: the
channel is closed, the worker leaves, `Stop` returns, a `Submit` is rejected,
and the signal is still set. -/
theorem C16_cancel_idempotent_and_irreversible_witness :
    ∃ s', run (Sys.init (freshPool MainWorld 1 1) mainWorld0)
        [Label.owner OwnerStep.callStart, Label.owner OwnerStep.spawn,
         Label.owner OwnerStep.startReturn, Label.worker 0 WorkerStep.enter,
         Label.owner OwnerStep.stopCancel]
        = some ({
          tp := {
            taskChan := { cap := 1, buf := [], closed := false },
            workerCount := 1, wg := 1, ctxDone := true },
          workers := [(0, WorkerPC.loop)], owner := OwnerPC.stopCancelled,
          world := mainWorld0, out := ["Worker 0 started\n"], crashed := none,
          accepted := [], submitLog := [], received := [], executed := [], callbacks := [],
          panics := [], stopsReturned := 0 } : Sys MainWorld)
      ∧ run ({
          tp := {
            taskChan := { cap := 1, buf := [], closed := false },
            workerCount := 1, wg := 1, ctxDone := true },
          workers := [(0, WorkerPC.loop)], owner := OwnerPC.stopCancelled,
          world := mainWorld0, out := ["Worker 0 started\n"], crashed := none,
          accepted := [], submitLog := [], received := [], executed := [], callbacks := [],
          panics := [], stopsReturned := 0 } : Sys MainWorld)
        [Label.owner OwnerStep.stopClose, Label.worker 0 WorkerStep.done,
          Label.owner OwnerStep.stopReturn,
          Label.submit (mainTask 0) SubmitCase.done] = some s'
      ∧ s'.stopsReturned = 1
      ∧ s'.tp.ctxDone = true := by
  refine ⟨_, rfl, rfl, rfl, ?_⟩
  exact (C16_cancel_idempotent_and_irreversible (freshPool MainWorld 1 1)
      ({
          tp := {
            taskChan := { cap := 1, buf := [], closed := false },
            workerCount := 1, wg := 1, ctxDone := true },
          workers := [(0, WorkerPC.loop)], owner := OwnerPC.stopCancelled,
          world := mainWorld0, out := ["Worker 0 started\n"], crashed := none,
          accepted := [], submitLog := [], received := [], executed := [], callbacks := [],
          panics := [], stopsReturned := 0 } : Sys MainWorld) _
      [Label.owner OwnerStep.stopClose, Label.worker 0 WorkerStep.done,
          Label.owner OwnerStep.stopReturn,
          Label.submit (mainTask 0) SubmitCase.done] rfl rfl).2.2.2.2.2.2

/-! Section: a second `Stop` -/

theorem Submit_stop_frame {σ : Type} (s s' : Sys σ) (t : Task σ) (c : SubmitCase)
    (r : SubmitResult) (h : Submit s t c = some (r, s')) :
    s'.tp.taskChan.closed = s.tp.taskChan.closed ∧ s'.owner = s.owner
      ∧ s'.stopsReturned = s.stopsReturned := by
  cases c with
  | send =>
    simp only [Submit] at h
    by_cases h1 : s.tp.taskChan.closed = true
    · simp [h1] at h
      obtain ⟨-, rfl⟩ := h
      simp [Sys.panic, h1]
    · by_cases h2 : s.tp.taskChan.buf.length < s.tp.taskChan.cap
      · simp [h1, h2] at h
        obtain ⟨-, rfl⟩ := h
        simp [Sys.setBuf]
      · simp [h1, h2] at h
  | handoff k =>
    simp only [Submit] at h
    cases hk : s.workers[k]? with
    | none => simp [hk] at h
    | some w =>
      obtain ⟨id, pc⟩ := w
      by_cases h1 : s.tp.taskChan.cap = 0 ∧ s.blockedInSelect k = true
      · simp only [hk, h1] at h
        simp at h
        obtain ⟨-, rfl⟩ := h
        simp [Sys.setPC]
      · simp only [hk, h1] at h
        simp at h
  | done =>
    simp only [Submit] at h
    by_cases h1 : s.tp.ctxDone = true
    · simp [h1] at h
      obtain ⟨-, rfl⟩ := h
      simp
    · simp [h1] at h
  | default =>
    simp only [Submit] at h
    by_cases h1 : s.tp.ctxDone = false ∧ s.tp.taskChan.closed = false
        ∧ ¬ s.tp.taskChan.buf.length < s.tp.taskChan.cap
    · rw [if_pos h1] at h
      simp at h
      obtain ⟨-, rfl⟩ := h
      simp
    · rw [if_neg h1] at h
      simp at h

theorem StopInv_step {σ : Type} (n : Nat) (s s' : Sys σ) (l : Label σ) (hi : Inv n s)
    (hs : StopInv s) (h : step s l = some s') : StopInv s' := by
  obtain ⟨a1, a2, a3⟩ := hs
  unfold step at h
  split at h
  · simp at h
  · cases l with
    | submit t c =>
      simp only at h
      split at h
      · rename_i r s1 hsub
        simp at h
        subst h
        obtain ⟨f1, f2, f3⟩ := Submit_stop_frame s s1 t c r hsub
        refine ⟨?_, ?_, ?_⟩
        · show s1.stopsReturned ≤ 1
          rw [f3]
          exact a1
        · show s1.stopsReturned = 1 → s1.tp.taskChan.closed = true
          rw [f3, f1]
          exact a2
        · show s1.owner = OwnerPC.stopClosed →
            s1.tp.taskChan.closed = true ∧ s1.stopsReturned = 0
          rw [f3, f1, f2]
          exact a3
      · simp at h
    | worker k a =>
      obtain ⟨-, -, -, -, f5, f6, f7⟩ := worker_frame n s s' k a hi h
      refine ⟨?_, ?_, ?_⟩
      · rw [f6]
        exact a1
      · rw [f6, f7]
        exact a2
      · rw [f5, f6, f7]
        exact a3
    | owner a =>
      simp only at h
      cases a with
      | callStart =>
        simp only [owner] at h
        split at h
        · simp at h
          subst h
          exact ⟨a1, a2, by intro hx; cases hx⟩
        · simp at h
      | spawn =>
        simp only [owner] at h
        split at h
        · split at h
          · simp at h
            subst h
            exact ⟨a1, a2, by intro hx; cases hx⟩
          · simp at h
        · simp at h
      | startReturn =>
        simp only [owner] at h
        split at h
        · split at h
          · simp at h
          · simp at h
            subst h
            exact ⟨a1, a2, by intro hx; cases hx⟩
        · simp at h
      | stopCancel =>
        simp only [owner] at h
        split at h
        · simp at h
          subst h
          exact ⟨a1, a2, by intro hx; cases hx⟩
        · simp at h
      | stopClose =>
        simp only [owner] at h
        split at h
        · rename_i ho
          split at h
          · simp at h
            subst h
            refine ⟨a1, a2, ?_⟩
            intro hx
            rw [show (s.panic "close of closed channel").owner = s.owner from rfl, ho] at hx
            cases hx
          · rename_i hcl
            simp at h
            subst h
            have h0 : s.stopsReturned = 0 := by
              rcases Nat.eq_zero_or_pos s.stopsReturned with h0 | h0
              · exact h0
              · have := a2 (by omega)
                exact absurd this hcl
            refine ⟨a1, ?_, ?_⟩
            · intro _
              rfl
            · intro _
              exact ⟨rfl, h0⟩
        · simp at h
      | stopReturn =>
        simp only [owner] at h
        split at h
        · rename_i ho
          obtain ⟨hc, h0⟩ := a3 ho
          split at h
          · simp at h
            subst h
            refine ⟨?_, ?_, ?_⟩
            · show s.stopsReturned + 1 ≤ 1
              omega
            · intro _
              exact hc
            · intro hx
              cases hx
          · simp at h
        · simp at h

theorem StopInv_reachable {σ : Type} (workerCount taskQueueSize : Int) (w : σ) (s : Sys σ)
    (h : Reachable workerCount taskQueueSize w s) : StopInv s := by
  induction h with
  | init allocOk tp htp =>
    refine ⟨?_, ?_, ?_⟩
    · simp [Sys.init]
    · intro hx
      simp [Sys.init] at hx
    · intro hx
      simp [Sys.init] at hx
  | step s l s' hr hs ih =>
    exact StopInv_step _ s s' l (Inv_reachable workerCount taskQueueSize w s hr) ih hs

/-- C19: in every state of every execution at most one call of `Stop` has
completed; and when one has, the owner being between calls and no panic having
happened, a further `Stop` runs like this: its `cancel` changes nothing in the
pool value, its `close(tp.taskChan)` panics with "close of closed channel",
after which no action is possible, so this `Stop` never returns. -/
theorem C19_second_stop_panics {σ : Type} (workerCount taskQueueSize : Int) (w : σ)
    (s : Sys σ) (hr : Reachable workerCount taskQueueSize w s) :
    s.stopsReturned ≤ 1
      ∧ (s.stopsReturned = 1 → s.owner = OwnerPC.idle → s.crashed = none →
          ∃ s1 s2, step s (Label.owner OwnerStep.stopCancel) = some s1
            ∧ s1.tp = s.tp
            ∧ step s1 (Label.owner OwnerStep.stopClose) = some s2
            ∧ s2.crashed = some "close of closed channel"
            ∧ s2.stopsReturned = 1
            ∧ ∀ l, step s2 l = none) := by
  have hi := Inv_reachable workerCount taskQueueSize w s hr
  have hs := StopInv_reachable workerCount taskQueueSize w s hr
  refine ⟨hs.le_one, ?_⟩
  intro h1 hidle hcr
  have hcl := hs.ret_closed h1
  have hd := hi.closed_done hcl
  refine ⟨{ s with tp := { s.tp with ctxDone := true }, owner := OwnerPC.stopCancelled },
    ({ s with tp := { s.tp with ctxDone := true }, owner := OwnerPC.stopCancelled } : Sys σ).panic
      "close of closed channel", ?_, ?_, ?_, rfl, h1, ?_⟩
  · simp [step, hcr, owner, hidle]
  · show ({ s.tp with ctxDone := true } : ThreadPool σ) = s.tp
    cases htp : s.tp
    simp [htp] at hd ⊢
    exact hd
  · simp [step, hcr, owner, hcl]
  · intro l
    simp [step, Sys.panic]

/-- C19, on the pool of `NewThreadPool(1, 1)`, started and stopped once: the
second `Stop` panics in `close`. -/
theorem C19_second_stop_panics_witness :
    ∃ s, run (Sys.init (freshPool MainWorld 1 1) mainWorld0)
        [Label.owner OwnerStep.callStart, Label.owner OwnerStep.spawn,
         Label.owner OwnerStep.startReturn, Label.worker 0 WorkerStep.enter,
         Label.owner OwnerStep.stopCancel, Label.owner OwnerStep.stopClose,
         Label.worker 0 WorkerStep.done, Label.owner OwnerStep.stopReturn] = some s
      ∧ s.stopsReturned = 1 ∧ s.owner = OwnerPC.idle ∧ s.crashed = none
      ∧ ∃ s1 s2, step s (Label.owner OwnerStep.stopCancel) = some s1
            ∧ s1.tp = s.tp
            ∧ step s1 (Label.owner OwnerStep.stopClose) = some s2
            ∧ s2.crashed = some "close of closed channel"
            ∧ s2.stopsReturned = 1
            ∧ ∀ l, step s2 l = none := by
  refine ⟨_, rfl, rfl, rfl, rfl, ?_⟩
  exact (C19_second_stop_panics 1 1 mainWorld0 _
    (Reachable_run 1 1 mainWorld0 _ _
      [Label.owner OwnerStep.callStart, Label.owner OwnerStep.spawn,
       Label.owner OwnerStep.startReturn, Label.worker 0 WorkerStep.enter,
       Label.owner OwnerStep.stopCancel, Label.owner OwnerStep.stopClose,
       Label.worker 0 WorkerStep.done, Label.owner OwnerStep.stopReturn]
      (Reachable.init true _ (NewThreadPool_ofNat 1 1 (by decide))) rfl)).2 rfl rfl rfl

end Demo3

namespace Demo3

open Go

/-! Section: tasks held by the workers -/

theorem heldTasks_cons {σ : Type} (w : Int × WorkerPC σ) (ws : List (Int × WorkerPC σ)) :
    heldTasks (w :: ws) = w.2.holds ++ heldTasks ws := by
  obtain ⟨id, pc⟩ := w
  cases pc <;> simp [heldTasks, WorkerPC.holds]

theorem heldTasks_append {σ : Type} (xs ys : List (Int × WorkerPC σ)) :
    heldTasks (xs ++ ys) = heldTasks xs ++ heldTasks ys := by
  induction xs with
  | nil => simp [heldTasks]
  | cons x xs ih => simp [heldTasks_cons, ih]

theorem heldTasks_set {σ : Type} (ws : List (Int × WorkerPC σ)) (k : Nat)
    (w w' : Int × WorkerPC σ) (hk : ws[k]? = some w) :
    (w'.2.holds ++ heldTasks ws).Perm (w.2.holds ++ heldTasks (ws.set k w')) := by
  induction ws generalizing k with
  | nil => simp at hk
  | cons x xs ih =>
    cases k with
    | zero =>
      simp at hk
      subst hk
      simp only [List.set_cons_zero, heldTasks_cons]
      exact List.perm_append_comm_assoc _ _ _
    | succ k =>
      simp at hk
      simp only [List.set_cons_succ, heldTasks_cons]
      exact (List.perm_append_comm_assoc _ _ _).trans
        (((ih k hk).append_left x.2.holds).trans (List.perm_append_comm_assoc _ _ _))

theorem heldTasks_mem {σ : Type} (ws : List (Int × WorkerPC σ)) (k : Nat) (id : Int)
    (t : Task σ) (hk : ws[k]? = some (id, WorkerPC.task t)) : t ∈ heldTasks ws := by
  induction ws generalizing k with
  | nil => simp at hk
  | cons x xs ih =>
    cases k with
    | zero =>
      simp at hk
      subst hk
      simp [heldTasks]
    | succ k =>
      simp at hk
      rw [heldTasks_cons]
      exact List.mem_append_right _ (ih k hk)

/-! Section: the actions of `main`, one by one -/

theorem owner_callStart_inv {σ : Type} (s s' : Sys σ)
    (h : owner s OwnerStep.callStart = some s') :
    s' = { s with owner := OwnerPC.start 0 } := by
  simp only [owner] at h
  split at h
  · simp at h
    exact h.symm
  · simp at h

theorem owner_spawn_inv {σ : Type} (s s' : Sys σ) (h : owner s OwnerStep.spawn = some s') :
    ∃ i, s' = { s.wgAdd with workers := s.workers ++ [(i, WorkerPC.entry)],
                             owner := OwnerPC.start (i + 1) } := by
  simp only [owner] at h
  split at h
  · rename_i i _
    split at h
    · simp at h
      exact ⟨i, h.symm⟩
    · simp at h
  · simp at h

theorem owner_startReturn_inv {σ : Type} (s s' : Sys σ)
    (h : owner s OwnerStep.startReturn = some s') :
    s' = { s with owner := OwnerPC.idle } := by
  simp only [owner] at h
  split at h
  · split at h
    · simp at h
    · simp at h
      exact h.symm
  · simp at h

theorem owner_stopCancel_inv {σ : Type} (s s' : Sys σ)
    (h : owner s OwnerStep.stopCancel = some s') :
    s' = { s with tp := { s.tp with ctxDone := true }, owner := OwnerPC.stopCancelled } := by
  simp only [owner] at h
  split at h
  · simp at h
    exact h.symm
  · simp at h

theorem owner_stopClose_inv {σ : Type} (s s' : Sys σ)
    (h : owner s OwnerStep.stopClose = some s') :
    s' = s.panic "close of closed channel"
      ∨ s' = { s with tp := { s.tp with taskChan := { s.tp.taskChan with closed := true } },
                      owner := OwnerPC.stopClosed } := by
  simp only [owner] at h
  split at h
  · split at h
    · simp at h
      exact Or.inl h.symm
    · simp at h
      exact Or.inr h.symm
  · simp at h

theorem owner_stopReturn_inv {σ : Type} (s s' : Sys σ)
    (h : owner s OwnerStep.stopReturn = some s') :
    s' = { s.print "Pool stopped\n" with
           owner := OwnerPC.idle, stopsReturned := s.stopsReturned + 1 } := by
  simp only [owner] at h
  split at h
  · split at h
    · simp at h
      exact h.symm
    · simp at h
  · simp at h

/-- What a call of `Submit` by `main` can do while the pool is open. -/
theorem Submit_open_inv {σ : Type} (s s' : Sys σ) (t : Task σ) (c : SubmitCase)
    (r : SubmitResult) (hd : s.tp.ctxDone = false) (hc : s.tp.taskChan.closed = false)
    (h : Submit s t c = some (r, s')) :
    (r = SubmitResult.returned none
        ∧ s' = { s.setBuf (s.tp.taskChan.buf ++ [t]) with accepted := s.accepted ++ [t] })
      ∨ (∃ k id pc, r = SubmitResult.returned none ∧ s.workers[k]? = some (id, pc)
          ∧ pc.holds = []
          ∧ s' = { s.setPC k id (WorkerPC.task t) with
                   accepted := s.accepted ++ [t], received := s.received ++ [(k, t)] })
      ∨ (r = SubmitResult.returned (some "Task queue is full") ∧ s' = s) := by
  cases c with
  | send =>
    simp only [Submit] at h
    split at h
    · rename_i hcl
      simp [hc] at hcl
    · split at h
      · simp at h
        exact Or.inl ⟨h.1.symm, h.2.symm⟩
      · simp at h
  | handoff k =>
    simp only [Submit] at h
    split at h
    · rename_i id pc hk
      split at h
      · rename_i hb
        simp at h
        refine Or.inr (Or.inl ⟨k, id, pc, h.1.symm, hk, ?_, h.2.symm⟩)
        have hb2 := hb.2
        simp only [Sys.blockedInSelect, hk] at hb2
        cases pc <;> simp_all [WorkerPC.holds]
      · simp at h
    · simp at h
  | done =>
    simp only [Submit] at h
    split at h
    · rename_i hdd
      simp [hd] at hdd
    · simp at h
  | default =>
    simp only [Submit] at h
    split at h
    · simp at h
      exact Or.inr (Or.inr ⟨h.1.symm, h.2.symm⟩)
    · simp at h

theorem MainInv_start (n : Nat) (nt : Int) (s s' : MainSys) (c : SubmitCase)
    (hi : MainInv n nt s) (hpc : s.pc = MainLine.callStart ∨ s.pc = MainLine.inStart)
    (h : main s c = some s') : MainInv n nt s' := by
  have hacc := hi.early hpc
  unfold main at h
  split at h
  · rename_i hp
    split at h
    · rename_i s1 hs1
      simp only [Option.some.injEq] at h
      subst h
      have hpool := Inv_owner n _ _ _ hi.pool hs1
      obtain rfl := owner_callStart_inv _ _ hs1
      exact { hi with
        pool := hpool
        isOpen := fun _ => hi.isOpen (by simp [hp, MainLine.beforeStop])
        ctr := by simp
        tasks := fun t ht => by simp [hacc] at ht
        early := fun _ => hacc
        count := fun hc => by
          have := hi.count hc
          simpa [pendingAdd, hp] using this
        waited := by simp }
    · simp at h
  · rename_i hp
    split at h
    · rename_i s1 hs1
      simp only [Option.some.injEq] at h
      subst h
      have hpool := Inv_owner n _ _ _ hi.pool hs1
      obtain ⟨i, rfl⟩ := owner_spawn_inv _ _ hs1
      exact { hi with
        pool := hpool
        held := by
          have := hi.held
          simpa [Sys.wgAdd, heldTasks_append, heldTasks] using this }
    · split at h
      · rename_i s1 hs1
        simp only [Option.some.injEq] at h
        subst h
        have hpool := Inv_owner n _ _ _ hi.pool hs1
        obtain rfl := owner_startReturn_inv _ _ hs1
        exact { hi with
          pool := hpool
          isOpen := fun _ => hi.isOpen (by simp [hp, MainLine.beforeStop])
          ctr := by simp
          tasks := fun t ht => by simp [hacc] at ht
          early := by simp
          count := fun hc => by
            have := hi.count hc
            simpa [pendingAdd, hp] using this
          waited := by simp }
      · simp at h
  all_goals
    rename_i hp
    rcases hpc with hpc | hpc <;> simp [hp] at hpc

theorem mainTask_input_ne (i j : Int) (h : j ≠ i) : (mainTask j).Input ≠ (mainTask i).Input := by
  simp [mainTask, h]

theorem MainInv_submit (n : Nat) (nt : Int) (s s' : MainSys) (c : SubmitCase) (i : Int)
    (hi : MainInv n nt s) (hp : s.pc = MainLine.loop i)
    (h : main s c = some s') : MainInv n nt s' := by
  have hopen := hi.isOpen (by simp [hp, MainLine.beforeStop])
  have h0 := hi.ctr i (Or.inl hp)
  simp only [main, hp] at h
  split at h
  · rename_i hlt
    rw [hi.bound] at hlt
    split at h
    · rename_i err s1 hs1
      simp only [Option.some.injEq] at h
      subst h
      have hpool := Inv_Submit n _ _ _ _ _ hi.pool hs1
      have hnew : ∀ t ∈ s.sys.accepted ++ [mainTask i], ∃ j, t = mainTask j ∧ 0 ≤ j ∧ j < nt
          ∧ (∀ i1, MainLine.submitted i err = MainLine.loop i1 → j < i1)
          ∧ (∀ i1 e, MainLine.submitted i err = MainLine.submitted i1 e → j ≤ i1) := by
        intro t ht
        rcases List.mem_append.1 ht with ht | ht
        · obtain ⟨j, hj, hj0, hjn, hjl, -⟩ := hi.tasks t ht
          refine ⟨j, hj, hj0, hjn, by simp, ?_⟩
          intro i1 e he
          simp at he
          have := hjl i hp
          omega
        · simp at ht
          refine ⟨i, ht, h0, hlt, by simp, ?_⟩
          intro i1 e he
          simp at he
          omega
      have hdist : (s.sys.accepted ++ [mainTask i]).Pairwise (fun a b => a.Input ≠ b.Input) := by
        rw [List.pairwise_append]
        refine ⟨hi.distinct, by simp, ?_⟩
        intro a ha b hb
        simp at hb
        subst hb
        obtain ⟨j, hj, -, -, hjl, -⟩ := hi.tasks a ha
        subst hj
        have := hjl i hp
        exact mainTask_input_ne i j (by omega)
      rcases Submit_open_inv _ _ _ _ _ hopen.1 hopen.2 hs1 with ⟨hr, rfl⟩ | ⟨k, id, pc, hr, hk, hh, rfl⟩ | ⟨hr, rfl⟩
      · simp only [SubmitResult.returned.injEq] at hr
        subst hr
        exact { hi with
          pool := ⟨hpool.cap_eq, hpool.len_le, hpool.closed_done, hpool.fifo, hpool.wg_live,
            hpool.owner_done⟩
          isOpen := fun _ => hopen
          ctr := by
            intro i1 h1
            simp at h1
            omega
          tasks := hnew
          early := by simp
          distinct := hdist
          count := fun hc => by
            have := hi.count hc
            simp [pendingAdd, hp] at this
            simp [pendingAdd, Sys.setBuf]
            omega
          log := by
            have := hi.log
            simp [List.countP_append, Sys.setBuf]
            exact this
          waited := by simp }
      · simp only [SubmitResult.returned.injEq] at hr
        subst hr
        exact { hi with
          pool := ⟨hpool.cap_eq, hpool.len_le, hpool.closed_done, hpool.fifo, hpool.wg_live,
            hpool.owner_done⟩
          isOpen := fun _ => hopen
          ctr := by
            intro i1 h1
            simp at h1
            omega
          tasks := hnew
          early := by simp
          distinct := hdist
          held := by
            have h1 := heldTasks_set s.sys.workers k (id, pc)
              (id, WorkerPC.task (mainTask i)) hk
            dsimp only at h1
            rw [hh] at h1
            simp only [WorkerPC.holds, List.nil_append] at h1
            have h2 := hi.held
            simp only [Sys.setPC, List.map_append, List.map_cons, List.map_nil]
            have h3 : (List.map (fun e => e.2.1) s.sys.executed
                ++ heldTasks (s.sys.workers.set k (id, WorkerPC.task (mainTask i)))).Perm
                (List.map (fun e => e.2.1) s.sys.executed
                  ++ (heldTasks s.sys.workers ++ [mainTask i])) :=
              List.Perm.append_left _ (h1.symm.trans List.perm_append_comm)
            refine h3.trans ?_
            rw [← List.append_assoc]
            exact h2.append_right _
          count := fun hc => by
            have := hi.count hc
            simp [pendingAdd, hp] at this
            simp [pendingAdd, Sys.setPC]
            omega
          log := by
            have := hi.log
            simp [List.countP_append, Sys.setPC]
            exact this
          waited := by simp }
      · simp only [SubmitResult.returned.injEq] at hr
        subst hr
        exact { hi with
          pool := ⟨hpool.cap_eq, hpool.len_le, hpool.closed_done, hpool.fifo, hpool.wg_live,
            hpool.owner_done⟩
          isOpen := fun _ => hopen
          ctr := by
            intro i1 h1
            simp at h1
            omega
          tasks := fun t ht => hnew t (List.mem_append_left _ ht)
          early := by simp
          count := fun hc => by
            have := hi.count hc
            simp [pendingAdd, hp] at this
            simp [pendingAdd]
            omega
          log := by
            have := hi.log
            simp [List.countP_append]
            exact this
          waited := by simp }
    · rename_i msg s1 hs1
      exfalso
      rcases Submit_open_inv _ _ _ _ _ hopen.1 hopen.2 hs1 with ⟨hr, -⟩ | ⟨k, id, pc, hr, -⟩ | ⟨hr, -⟩ <;>
        simp at hr
    · simp at h
  · simp only [Option.some.injEq] at h
    subst h
    exact { hi with
      isOpen := fun _ => hopen
      ctr := by simp
      tasks := fun t ht => by
        obtain ⟨j, hj, hj0, hjn, -, -⟩ := hi.tasks t ht
        exact ⟨j, hj, hj0, hjn, by simp, by simp⟩
      early := by simp
      count := fun hc => by
        have := hi.count hc
        simpa [pendingAdd, hp] using this
      waited := by simp }

theorem MainInv_add (n : Nat) (nt : Int) (s s' : MainSys) (c : SubmitCase) (i : Int)
    (err : GoError) (hi : MainInv n nt s) (hp : s.pc = MainLine.submitted i err)
    (h : main s c = some s') : MainInv n nt s' := by
  have hopen := hi.isOpen (by simp [hp, MainLine.beforeStop])
  have h0 := hi.ctr i (Or.inr ⟨err, hp⟩)
  have hnew : ∀ t ∈ s.sys.accepted, ∃ j, t = mainTask j ∧ 0 ≤ j ∧ j < nt
      ∧ (∀ i1, MainLine.loop (i + 1) = MainLine.loop i1 → j < i1)
      ∧ (∀ i1 e, MainLine.loop (i + 1) = MainLine.submitted i1 e → j ≤ i1) := by
    intro t ht
    obtain ⟨j, hj, hj0, hjn, -, hjs⟩ := hi.tasks t ht
    refine ⟨j, hj, hj0, hjn, ?_, by simp⟩
    intro i1 he
    simp at he
    have := hjs i err hp
    omega
  cases err with
  | some e =>
    simp only [main, hp, Option.some.injEq] at h
    subst h
    exact { hi with
      pool := ⟨hi.pool.cap_eq, hi.pool.len_le, hi.pool.closed_done, hi.pool.fifo,
        hi.pool.wg_live, hi.pool.owner_done⟩
      isOpen := fun _ => hopen
      ctr := by
        intro i1 h1
        simp at h1
        omega
      tasks := hnew
      early := by simp
      count := fun hc => by
        have := hi.count hc
        simpa [pendingAdd, hp] using this
      waited := by simp }
  | none =>
    simp only [main, hp, Option.some.injEq] at h
    subst h
    exact { hi with
      pool := ⟨hi.pool.cap_eq, hi.pool.len_le, hi.pool.closed_done, hi.pool.fifo,
        hi.pool.wg_live, hi.pool.owner_done⟩
      isOpen := fun _ => hopen
      ctr := by
        intro i1 h1
        simp at h1
        omega
      tasks := hnew
      early := by simp
      count := fun hc => by
        have := hi.count hc
        simp [pendingAdd, hp] at this
        simp [pendingAdd]
        omega
      waited := by simp }

theorem MainInv_stop (n : Nat) (nt : Int) (s s' : MainSys) (c : SubmitCase)
    (hi : MainInv n nt s) (hcr : s.sys.crashed = none)
    (hp : s.pc = MainLine.wait ∨ s.pc = MainLine.callStop ∨ s.pc = MainLine.inStop
      ∨ s.pc = MainLine.finished)
    (h : main s c = some s') : MainInv n nt s' := by
  have hnew : ∀ pc, (∀ i, pc ≠ MainLine.loop i) → (∀ i e, pc ≠ MainLine.submitted i e) →
      ∀ t ∈ s.sys.accepted, ∃ j, t = mainTask j ∧ 0 ≤ j ∧ j < nt
      ∧ (∀ i1, pc = MainLine.loop i1 → j < i1)
      ∧ (∀ i1 e, pc = MainLine.submitted i1 e → j ≤ i1) := by
    intro pc h1 h2 t ht
    obtain ⟨j, hj, hj0, hjn, -, -⟩ := hi.tasks t ht
    exact ⟨j, hj, hj0, hjn, fun i1 he => absurd he (h1 i1), fun i1 e he => absurd he (h2 i1 e)⟩
  unfold main at h
  split at h
  · rename_i hq
    simp [hq] at hp
  · rename_i hq
    simp [hq] at hp
  · rename_i hq
    simp [hq] at hp
  · rename_i hq
    simp [hq] at hp
  · rename_i hq
    simp [hq] at hp
  · rename_i hq
    split at h
    · rename_i hwg
      simp only [Option.some.injEq] at h
      subst h
      exact { hi with
        isOpen := fun _ => hi.isOpen (by simp [hq, MainLine.beforeStop])
        ctr := by simp
        tasks := hnew _ (by simp) (by simp)
        early := by simp
        count := fun hc => by
          have := hi.count hc
          simpa [pendingAdd, hq] using this
        waited := fun _ => ⟨hcr, hwg⟩ }
    · simp at h
  · rename_i hq
    split at h
    · rename_i s1 hs1
      simp only [Option.some.injEq] at h
      subst h
      have hpool := Inv_owner n _ _ _ hi.pool hs1
      obtain rfl := owner_stopCancel_inv _ _ hs1
      exact { hi with
        pool := hpool
        isOpen := by simp [MainLine.beforeStop]
        ctr := by simp
        tasks := hnew _ (by simp) (by simp)
        early := by simp
        count := fun hc => by
          have := hi.count hc
          simpa [pendingAdd, hq] using this
        waited := by simp }
    · simp at h
  · rename_i hq
    split at h
    · rename_i s1 hs1
      simp only [Option.some.injEq] at h
      subst h
      have hpool := Inv_owner n _ _ _ hi.pool hs1
      rcases owner_stopClose_inv _ _ hs1 with rfl | rfl
      · exact { hi with
          pool := hpool
          count := by simp [Sys.panic]
          waited := by simp [hq] }
      · exact { hi with
          pool := hpool
          isOpen := by simp [hq, MainLine.beforeStop] }
    · split at h
      · rename_i s1 hs1
        simp only [Option.some.injEq] at h
        subst h
        have hpool := Inv_owner n _ _ _ hi.pool hs1
        obtain rfl := owner_stopReturn_inv _ _ hs1
        exact { hi with
          pool := hpool
          isOpen := by simp [MainLine.beforeStop]
          ctr := by simp
          tasks := hnew _ (by simp) (by simp)
          early := by simp
          count := fun hc => by
            have := hi.count hc
            simpa [pendingAdd, hq, Sys.print] using this
          waited := by simp }
      · simp at h
  · simp at h

theorem MainInv_main (n : Nat) (nt : Int) (s s' : MainSys) (c : SubmitCase)
    (hi : MainInv n nt s) (hcr : s.sys.crashed = none)
    (h : main s c = some s') : MainInv n nt s' := by
  cases hp : s.pc with
  | callStart => exact MainInv_start n nt s s' c hi (Or.inl hp) h
  | inStart => exact MainInv_start n nt s s' c hi (Or.inr hp) h
  | loop i => exact MainInv_submit n nt s s' c i hi hp h
  | submitted i err => exact MainInv_add n nt s s' c i err hi hp h
  | wait => exact MainInv_stop n nt s s' c hi hcr (Or.inl hp) h
  | callStop => exact MainInv_stop n nt s s' c hi hcr (Or.inr (Or.inl hp)) h
  | inStop => exact MainInv_stop n nt s s' c hi hcr (Or.inr (Or.inr (Or.inl hp))) h
  | finished => exact MainInv_stop n nt s s' c hi hcr (Or.inr (Or.inr (Or.inr hp))) h

/-! Section: the actions of the workers in `main` -/

/-- The four things a worker action can be, in a state that satisfies the
invariant of the pool. -/
theorem worker_inv {σ : Type} (n : Nat) (s s' : Sys σ) (k : Nat) (a : WorkerStep)
    (hi : Inv n s) (h : worker s k a = some s') :
    (∃ id, s.workers[k]? = some (id, WorkerPC.entry)
        ∧ s' = (s.print s!"Worker {id} started\n").setPC k id WorkerPC.loop)
      ∨ (∃ id line, s.workers[k]? = some (id, WorkerPC.loop)
        ∧ (s.tp.ctxDone = true ∨ s.tp.taskChan.closed = true)
        ∧ s' = { s.print line with
                 workers := s.workers.set k (id, WorkerPC.exited),
                 tp := { s.tp with wg := s.tp.wg - 1 } })
      ∨ (∃ id t rest, s.workers[k]? = some (id, WorkerPC.loop)
        ∧ s.tp.taskChan.buf = t :: rest
        ∧ s' = { (s.setBuf rest).setPC k id (WorkerPC.task t) with
                 received := s.received ++ [(k, t)] })
      ∨ (∃ id t, s.workers[k]? = some (id, WorkerPC.task t) ∧ s' = workerTask s k id t) := by
  unfold worker at h
  split at h
  · rename_i id hk
    simp only [Option.some.injEq] at h
    exact Or.inl ⟨id, hk, h.symm⟩
  · rename_i id hk
    split at h
    · rename_i hd
      simp only [Option.some.injEq] at h
      subst h
      refine Or.inr (Or.inl ⟨id, s!"Worker {id} stopped\n", hk, Or.inl hd, ?_⟩)
      exact workerReturn_frame n (s.print _) k id WorkerPC.loop hk rfl (Inv_print n s _ hi)
    · simp at h
  · rename_i id hk
    split at h
    · rename_i t rest hb
      simp only [Option.some.injEq] at h
      exact Or.inr (Or.inr (Or.inl ⟨id, t, rest, hk, hb, h.symm⟩))
    · split at h
      · rename_i hc
        simp only [Option.some.injEq] at h
        subst h
        refine Or.inr (Or.inl ⟨id, s!"Worker {id} stopping\n", hk, Or.inr hc, ?_⟩)
        exact workerReturn_frame n (s.print _) k id WorkerPC.loop hk rfl (Inv_print n s _ hi)
      · simp at h
  · rename_i id t hk
    simp only [Option.some.injEq] at h
    exact Or.inr (Or.inr (Or.inr ⟨id, t, hk, h.symm⟩))
  · simp at h

theorem mainCallback_cases (result : GoAny) (err : GoError) (w : MainWorld) :
    ∃ out,
      (w.wg - 1 < 0 → mainCallback result err w
          = Outcome.panicked "sync: negative WaitGroup counter" { wg := w.wg, out := out })
      ∧ (¬ w.wg - 1 < 0 → mainCallback result err w
          = Outcome.returned () { wg := w.wg - 1, out := out }) := by
  cases err with
  | none =>
    refine ⟨w.out ++ [s!"Task completed: {fmtAny result}\n"], ?_, ?_⟩
    · intro h
      simp only [mainCallback, h, if_true]
    · intro h
      simp only [mainCallback, h, if_false]
  | some e =>
    refine ⟨w.out ++ [s!"Task failed: {e}\n"], ?_, ?_⟩
    · intro h
      simp only [mainCallback, h, if_true]
    · intro h
      simp only [mainCallback, h, if_false]

/-- What lines 79-83 do for a task of `main`. -/
theorem workerTask_mainTask (s : Sys MainWorld) (k : Nat) (id j : Int) :
    (workerTask s k id (mainTask j)).tp.ctxDone = s.tp.ctxDone
      ∧ (workerTask s k id (mainTask j)).tp.taskChan = s.tp.taskChan
      ∧ (workerTask s k id (mainTask j)).accepted = s.accepted
      ∧ (workerTask s k id (mainTask j)).submitLog = s.submitLog
      ∧ (workerTask s k id (mainTask j)).received = s.received
      ∧ (workerTask s k id (mainTask j)).executed
          = s.executed ++ [(k, mainTask j, GoAny.str s!"Result of task {j}", none)]
      ∧ (workerTask s k id (mainTask j)).callbacks
          = s.callbacks ++ [(k, mainTask j, GoAny.str s!"Result of task {j}", none)]
      ∧ (s.world.wg - 1 < 0 →
          (workerTask s k id (mainTask j)).crashed = some "sync: negative WaitGroup counter"
          ∧ (workerTask s k id (mainTask j)).workers = s.workers.set k (id, WorkerPC.exited))
      ∧ (¬ s.world.wg - 1 < 0 →
          (workerTask s k id (mainTask j)).crashed = s.crashed
          ∧ (workerTask s k id (mainTask j)).world.wg = s.world.wg - 1
          ∧ (workerTask s k id (mainTask j)).workers = s.workers.set k (id, WorkerPC.loop)) := by
  have hex : (mainTask j).Execute = some mainExecute := rfl
  have hcb : (mainTask j).Callback = some mainCallback := rfl
  have hret : mainExecute (mainTask j).Input s.world
      = Outcome.returned (GoAny.str s!"Result of task {j}", none)
          { wg := s.world.wg, out := s.world.out ++ [s!"Processing task {j}\n"] } := rfl
  obtain ⟨out, hneg, hpos⟩ := mainCallback_cases (GoAny.str s!"Result of task {j}") none
    { wg := s.world.wg, out := s.world.out ++ [s!"Processing task {j}\n"] }
  by_cases hwg : s.world.wg - 1 < 0
  · rw [workerTask_callbackPanic s k id (mainTask j) mainExecute mainCallback _ _ _ _ _
      hex hret hcb (hneg hwg)]
    obtain ⟨f1, f2, f3, f4, f5, f6, f7, f8, f9, f10, f11, f12, f13, f14⟩ :=
      workerPanic_frame
        ({ s with
            world := { wg := s.world.wg, out := out },
            executed := s.executed ++ [(k, mainTask j, GoAny.str s!"Result of task {j}", none)],
            callbacks := s.callbacks
              ++ [(k, mainTask j, GoAny.str s!"Result of task {j}", none)] } : Sys MainWorld)
        k id (mainTask j) "sync: negative WaitGroup counter"
    exact ⟨f3, f6, f1, f2, f7, f8, f9, fun _ => ⟨f13, f12⟩, fun h => absurd hwg h⟩
  · rw [workerTask_returned s k id (mainTask j) mainExecute mainCallback _ _ _ _
      hex hret hcb (hpos hwg)]
    exact ⟨rfl, rfl, rfl, rfl, rfl, rfl, rfl, fun h => absurd h hwg, fun _ => ⟨rfl, rfl, rfl⟩⟩

/-- A change of the pool that leaves the program counter of `main`, the
signal, the channel flag and the history of `Submit` as they are keeps the
invariant when the facts about workers and counters are supplied. -/
theorem MainInv_frame (n : Nat) (nt : Int) (s : MainSys) (s1 : Sys MainWorld)
    (hi : MainInv n nt s) (hpool : Inv n s1)
    (hd : s1.tp.ctxDone = s.sys.tp.ctxDone)
    (hc : s1.tp.taskChan.closed = s.sys.tp.taskChan.closed)
    (ha : s1.accepted = s.sys.accepted) (hl : s1.submitLog = s.sys.submitLog)
    (hheld : (s1.executed.map (fun e => e.2.1) ++ heldTasks s1.workers).Perm
      (s1.received.map Prod.snd))
    (hcbs : s1.callbacks = s1.executed)
    (hcount : s1.crashed = none →
      s1.world.wg + s1.callbacks.length + pendingAdd s.pc = s1.accepted.length)
    (hw : s.pc = MainLine.callStop → s1.crashed = none ∧ s1.world.wg = 0) :
    MainInv n nt { s with sys := s1 } :=
  { pool := hpool
    bound := hi.bound
    isOpen := fun hb => by
      have := hi.isOpen hb
      exact ⟨hd.trans this.1, hc.trans this.2⟩
    ctr := hi.ctr
    tasks := fun t ht => hi.tasks t (ha ▸ ht)
    early := fun hp => ha.trans (hi.early hp)
    distinct := by
      have := hi.distinct
      rw [← ha] at this
      exact this
    held := hheld
    cbs := hcbs
    count := hcount
    log := by
      have := hi.log
      rw [← ha, ← hl] at this
      exact this
    waited := hw }

theorem heldTasks_set_idle {σ : Type} (ws : List (Int × WorkerPC σ)) (k : Nat) (id id' : Int)
    (pc pc' : WorkerPC σ) (hk : ws[k]? = some (id, pc)) (h1 : pc.holds = [])
    (h2 : pc'.holds = []) : (heldTasks (ws.set k (id', pc'))).Perm (heldTasks ws) := by
  have h := heldTasks_set ws k (id, pc) (id', pc') hk
  dsimp only at h
  rw [h1, h2] at h
  simpa using h.symm

theorem heldTasks_set_recv {σ : Type} (ws : List (Int × WorkerPC σ)) (k : Nat) (id id' : Int)
    (pc : WorkerPC σ) (t : Task σ) (hk : ws[k]? = some (id, pc)) (h1 : pc.holds = []) :
    (heldTasks (ws.set k (id', WorkerPC.task t))).Perm (heldTasks ws ++ [t]) := by
  have h := heldTasks_set ws k (id, pc) (id', WorkerPC.task t) hk
  dsimp only at h
  rw [h1] at h
  simp only [WorkerPC.holds, List.nil_append] at h
  exact h.symm.trans List.perm_append_comm

theorem heldTasks_set_exec {σ : Type} (ws : List (Int × WorkerPC σ)) (k : Nat) (id id' : Int)
    (pc' : WorkerPC σ) (t : Task σ) (hk : ws[k]? = some (id, WorkerPC.task t))
    (h2 : pc'.holds = []) :
    (t :: heldTasks (ws.set k (id', pc'))).Perm (heldTasks ws) := by
  have h := heldTasks_set ws k (id, WorkerPC.task t) (id', pc') hk
  dsimp only at h
  rw [h2] at h
  simp only [WorkerPC.holds, List.nil_append] at h
  exact h.symm

theorem MainInv_poolWorker (n : Nat) (nt : Int) (s s' : MainSys) (k : Nat) (a : WorkerStep)
    (hi : MainInv n nt s)
    (h : poolWorker s k a = some s') : MainInv n nt s' := by
  unfold poolWorker at h
  split at h
  · rename_i s1 hs1
    simp only [Option.some.injEq] at h
    subst h
    have hpool := Inv_worker n _ _ k a hi.pool hs1
    rcases worker_inv n _ _ k a hi.pool hs1 with
      ⟨id, hk, rfl⟩ | ⟨id, line, hk, -, rfl⟩ | ⟨id, t, rest, hk, hb, rfl⟩ | ⟨id, t, hk, rfl⟩
    · refine MainInv_frame n nt s _ hi hpool rfl rfl rfl rfl ?_ hi.cbs hi.count hi.waited
      exact (List.Perm.append_left _
        (heldTasks_set_idle s.sys.workers k id id _ WorkerPC.loop hk rfl rfl)).trans hi.held
    · refine MainInv_frame n nt s _ hi hpool rfl rfl rfl rfl ?_ hi.cbs hi.count hi.waited
      exact (List.Perm.append_left _
        (heldTasks_set_idle s.sys.workers k id id _ WorkerPC.exited hk rfl rfl)).trans hi.held
    · refine MainInv_frame n nt s _ hi hpool rfl rfl rfl rfl ?_ hi.cbs hi.count hi.waited
      have h1 := heldTasks_set_recv s.sys.workers k id id _ t hk rfl
      have h2 : (List.map (fun e => e.2.1) s.sys.executed
          ++ heldTasks (s.sys.workers.set k (id, WorkerPC.task t))).Perm
          (List.map (fun e => e.2.1) s.sys.executed ++ (heldTasks s.sys.workers ++ [t])) :=
        List.Perm.append_left _ h1
      have h3 := hi.held.append_right [t]
      rw [List.append_assoc] at h3
      simp only [Sys.setPC, Sys.setBuf, List.map_append, List.map_cons, List.map_nil]
      exact h2.trans h3
    · have ht : t ∈ heldTasks s.sys.workers := heldTasks_mem _ k id t hk
      have ht2 : t ∈ s.sys.received.map Prod.snd :=
        hi.held.subset (List.mem_append_right _ ht)
      have ht3 : t ∈ s.sys.accepted := by
        rw [hi.pool.fifo]
        exact List.mem_append_left _ ht2
      obtain ⟨j, rfl, -⟩ := hi.tasks _ ht3
      obtain ⟨e1, e2, e4, e5, e6, e7, e8, e9, e10⟩ := workerTask_mainTask s.sys k id j
      have hcbs : (workerTask s.sys k id (mainTask j)).callbacks
          = (workerTask s.sys k id (mainTask j)).executed := by
        rw [e7, e8, hi.cbs]
      have hlen : 1 ≤ (heldTasks s.sys.workers).length := List.length_pos_of_mem ht
      have hl1 := hi.held.length_eq
      have hl2 := congrArg List.length hi.pool.fifo
      have hl3 := congrArg List.length hi.cbs
      simp only [List.length_append, List.length_map] at hl1 hl2
      have hstop : s.pc = MainLine.callStop → False := by
        intro hq
        have hw := hi.waited hq
        have hc := hi.count hw.1
        simp only [hq, pendingAdd] at hc
        omega
      have hheld : ∀ pc : WorkerPC MainWorld, pc.holds = [] →
          (workerTask s.sys k id (mainTask j)).workers = s.sys.workers.set k (id, pc) →
          ((workerTask s.sys k id (mainTask j)).executed.map (fun e => e.2.1)
            ++ heldTasks (workerTask s.sys k id (mainTask j)).workers).Perm
            ((workerTask s.sys k id (mainTask j)).received.map Prod.snd) := by
        intro pc hpc hws
        rw [e7, hws, e6]
        have h1 := heldTasks_set_exec s.sys.workers k id id pc (mainTask j) hk hpc
        simp only [List.map_append, List.map_cons, List.map_nil, List.append_assoc,
          List.singleton_append]
        exact (List.Perm.append_left _ h1).trans hi.held
      by_cases hwg : s.sys.world.wg - 1 < 0
      · obtain ⟨e11, e12⟩ := e9 hwg
        refine MainInv_frame n nt s _ hi hpool e1 (congrArg (fun x => x.closed) e2) e4 e5
          (hheld WorkerPC.exited rfl e12) hcbs ?_ ?_
        · intro hc
          rw [e11] at hc
          simp at hc
        · intro hq
          exact absurd hq (fun hq => hstop hq)
      · obtain ⟨e11, e12, e13⟩ := e10 hwg
        refine MainInv_frame n nt s _ hi hpool e1 (congrArg (fun x => x.closed) e2) e4 e5
          (hheld WorkerPC.loop rfl e13) hcbs ?_ ?_
        · intro hc
          rw [e11] at hc
          have := hi.count hc
          rw [e12, e8, e4, List.length_append]
          simp only [List.length_singleton]
          push_cast
          omega
        · intro hq
          exact absurd hq (fun hq => hstop hq)
  · simp at h

theorem MainInv_init (allocOk : Bool) (workerCount taskQueueSize numTasks : Int) (s : MainSys)
    (h : MainSys.init allocOk workerCount taskQueueSize numTasks = some s) :
    MainInv taskQueueSize.toNat numTasks s := by
  unfold MainSys.init at h
  split at h
  · rename_i tp htp
    simp only [Option.some.injEq] at h
    subst h
    have hpool := Inv_init allocOk workerCount taskQueueSize mainWorld0 tp htp
    have hopen : tp.ctxDone = false ∧ tp.taskChan.closed = false := by
      unfold NewThreadPool at htp
      split at htp
      · simp at htp
      · rename_i ch hch
        obtain ⟨-, -, rfl⟩ := make_some_inv _ _ _ _ hch
        simp only [Option.some.injEq] at htp
        subst htp
        exact ⟨rfl, rfl⟩
    exact { pool := hpool
            bound := rfl
            isOpen := fun _ => hopen
            ctr := by simp
            tasks := by simp [Sys.init]
            early := by simp [Sys.init]
            distinct := by simp [Sys.init]
            held := by simp [Sys.init, heldTasks]
            cbs := rfl
            count := by simp [Sys.init, mainWorld0, pendingAdd]
            log := by simp [Sys.init]
            waited := by simp }
  · simp at h

theorem MainInv_progStep (n : Nat) (nt : Int) (s s' : MainSys) (l : MainLabel)
    (hi : MainInv n nt s) (h : progStep s l = some s') : MainInv n nt s' := by
  unfold progStep at h
  split at h
  · simp at h
  · rename_i hg
    have hcr : s.sys.crashed = none := by
      cases hc : s.sys.crashed with
      | none => rfl
      | some m => simp [hc] at hg
    cases l with
    | main c => exact MainInv_main n nt s s' c hi hcr h
    | worker k a => exact MainInv_poolWorker n nt s s' k a hi h

theorem MainInv_reachable (workerCount taskQueueSize numTasks : Int) (s : MainSys)
    (h : ProgReachable workerCount taskQueueSize numTasks s) :
    MainInv taskQueueSize.toNat numTasks s := by
  induction h with
  | init allocOk s hs => exact MainInv_init allocOk workerCount taskQueueSize numTasks s hs
  | step s l s' _ hs ih => exact MainInv_progStep _ _ s s' l ih hs

theorem ProgReachable_run (workerCount taskQueueSize numTasks : Int) (s s' : MainSys)
    (ls : List MainLabel) (h : ProgReachable workerCount taskQueueSize numTasks s)
    (hr : progRun s ls = some s') : ProgReachable workerCount taskQueueSize numTasks s' := by
  induction ls generalizing s with
  | nil =>
    simp [progRun] at hr
    subst hr
    exact h
  | cons l ls ih =>
    simp only [progRun] at hr
    split at hr
    · rename_i s1 hs1
      exact ih s1 (ProgReachable.step s l s1 h hs1) hr
    · simp at hr

theorem MainSys_init_ofNat (workerCount : Int) (n : Nat) (numTasks : Int)
    (hn : n * taskElemSize ≤ maxAlloc - hchanSize) :
    MainSys.init true workerCount (n : Int) numTasks
      = some (MainSys.start workerCount n numTasks) := by
  simp [MainSys.init, MainSys.start, NewThreadPool_ofNat workerCount n hn]

/-- Claim C12: in every execution of `main` (for the constants of the source,
3 workers, queue capacity 10 and 20 submissions, and for any other
constants), at every moment between the return of `wg.Wait()` (line 118) and
the call of `tp.Stop()` (line 119): the number of callback calls equals the
number of `Submit` calls that returned nil, which is the number of accepted
tasks; every `Execute` call was followed by its callback; the executed tasks
are exactly the accepted tasks, each once (a permutation of the accepted
tasks, which are pairwise different submissions `mainTask j`, `0 ≤ j <
numTasks`); the queue is empty and no worker holds a task; no panic has
happened and the counter of `wg` is 0. -/
theorem C12_wait_returns_after_all_callbacks (workerCount taskQueueSize numTasks : Int)
    (s : MainSys) (hr : ProgReachable workerCount taskQueueSize numTasks s)
    (hpc : s.pc = MainLine.callStop) :
    s.sys.callbacks.length
        = s.sys.submitLog.countP (fun e => decide (e.2 = SubmitResult.returned none))
      ∧ s.sys.accepted.length
        = s.sys.submitLog.countP (fun e => decide (e.2 = SubmitResult.returned none))
      ∧ s.sys.callbacks = s.sys.executed
      ∧ (s.sys.executed.map (fun e => e.2.1)).Perm s.sys.accepted
      ∧ s.sys.accepted.Pairwise (fun a b => a.Input ≠ b.Input)
      ∧ (∀ t ∈ s.sys.accepted, ∃ j, t = mainTask j ∧ 0 ≤ j ∧ j < numTasks)
      ∧ s.sys.tp.taskChan.buf = []
      ∧ heldTasks s.sys.workers = []
      ∧ s.sys.crashed = none ∧ s.sys.world.wg = 0 := by
  have hi := MainInv_reachable workerCount taskQueueSize numTasks s hr
  obtain ⟨hcr, hwg⟩ := hi.waited hpc
  have hc := hi.count hcr
  simp only [hpc, pendingAdd] at hc
  have hl1 := hi.held.length_eq
  have hl2 := congrArg List.length hi.pool.fifo
  have hl3 := congrArg List.length hi.cbs
  simp only [List.length_append, List.length_map] at hl1 hl2
  have hH : heldTasks s.sys.workers = [] := List.eq_nil_of_length_eq_zero (by omega)
  have hB : s.sys.tp.taskChan.buf = [] := List.eq_nil_of_length_eq_zero (by omega)
  have hperm : (s.sys.executed.map (fun e => e.2.1)).Perm s.sys.accepted := by
    have h1 := hi.held
    rw [hH, List.append_nil] at h1
    have h2 := hi.pool.fifo
    rw [hB, List.append_nil] at h2
    rw [h2]
    exact h1
  refine ⟨?_, hi.log.symm, hi.cbs, hperm, hi.distinct, ?_, hB, hH, hcr, hwg⟩
  · rw [hi.log]
    omega
  · intro t ht
    obtain ⟨j, hj, hj0, hjn, -⟩ := hi.tasks t ht
    exact ⟨j, hj, hj0, hjn⟩

/-- Witness for C12: an execution of `main` with the constants of the source
in which 13 of the 20 submissions are accepted; when `wg.Wait()` has returned,
13 callbacks have been called. -/
theorem C12_wait_returns_after_all_callbacks_witness :
    ∃ s, progRun (MainSys.start 3 10 20) demoSchedule = some s
      ∧ s.pc = MainLine.callStop
      ∧ s.sys.submitLog.length = 20
      ∧ s.sys.accepted.length = 13
      ∧ s.sys.callbacks.length
        = s.sys.submitLog.countP (fun e => decide (e.2 = SubmitResult.returned none)) := by
  refine ⟨_, rfl, rfl, rfl, rfl, ?_⟩
  exact (C12_wait_returns_after_all_callbacks 3 10 20 _
    (ProgReachable_run 3 10 20 (MainSys.start 3 10 20) _ demoSchedule
      (ProgReachable.init true _ (MainSys_init_ofNat 3 10 20 (by decide))) rfl) rfl).1

/-! Section: the wait group of `main` -/

/-- Claim C18, failing execution: in `main` with the constants of the source
(`NewThreadPool(3, 10)`, 20 submissions) the worker that has received task 0
can run its callback while `main` is still between the return of `Submit`
(line 95) and its `wg.Add(1)` (line 114).  The counter of `wg` is then 0, the
deferred `wg.Done()` of line 104 makes it negative and the program panics; no
action follows.  In the other order of the same two actions the counter goes
to 1 and back to 0. -/
theorem C18_done_can_run_before_add :
    ∃ s0 s1 s2 s3,
      MainSys.init true 3 10 20 = some s0
      ∧ progRun s0 [.main .send, .main .send, .main .send, .main .send, .main .send,
          .worker 0 .enter, .main .send, .worker 0 .recv] = some s1
      ∧ s1.pc = MainLine.submitted 0 none
      ∧ s1.sys.accepted.map (fun t => t.Input) = [GoAny.int 0]
      ∧ s1.sys.received.map (fun e => (e.1, e.2.Input)) = [(0, GoAny.int 0)]
      ∧ s1.sys.world.wg = 0 ∧ s1.sys.crashed = none
      ∧ progRun s1 [.worker 0 .exec] = some s2
      ∧ s2.pc = MainLine.submitted 0 none
      ∧ s2.sys.callbacks.length = 1
      ∧ s2.sys.crashed = some "sync: negative WaitGroup counter"
      ∧ (∀ l, progStep s2 l = none)
      ∧ progRun s1 [.main .send, .worker 0 .exec] = some s3
      ∧ s3.sys.crashed = none ∧ s3.sys.world.wg = 0 ∧ s3.sys.callbacks.length = 1 := by
  refine ⟨_, _, _, _, rfl, rfl, rfl, rfl, rfl, rfl, rfl, rfl, rfl, rfl, rfl, ?_, rfl, rfl, rfl, rfl⟩
  intro l
  rfl

end Demo3

namespace Demo2

open Go

/-! Section: what one worker received and sent -/

theorem rs_heldOf_congr (s s' : Sys) (k : Nat) (h : s'.workers = s.workers) :
    heldOf s' k = heldOf s k := by
  simp [heldOf, h]

theorem rs_heldOf_spawn (s s' : Sys) (k : Nat) (i : Int)
    (h : s'.workers = s.workers ++ [(i, WorkerPC.range)]) :
    heldOf s' k = heldOf s k := by
  simp only [heldOf, h]
  by_cases hlt : k < s.workers.length
  · rw [List.getElem?_append_left hlt]
  · have hge : s.workers.length ≤ k := by omega
    rw [List.getElem?_append_right hge]
    have hnone : s.workers[k]? = none := List.getElem?_eq_none hge
    rw [hnone]
    cases hd : k - s.workers.length with
    | zero => simp [WorkerPC.held]
    | succ d => simp

theorem rs_heldOf_set_same (s s' : Sys) (k : Nat) (id : Int) (pc pc' : WorkerPC)
    (hk : s.workers[k]? = some (id, pc)) (h : s'.workers = s.workers.set k (id, pc')) :
    heldOf s' k = pc'.held.toList := by
  have hlt : k < s.workers.length := by
    rw [List.getElem?_eq_some] at hk
    exact hk.1
  simp [heldOf, h, List.getElem?_set, hlt]

theorem rs_heldOf_set_other (s s' : Sys) (j k : Nat) (e : Int × WorkerPC) (hne : j ≠ k)
    (h : s'.workers = s.workers.set j e) :
    heldOf s' k = heldOf s k := by
  simp [heldOf, h, List.getElem?_set, hne]

theorem rs_heldOf_same (s : Sys) (k : Nat) (id : Int) (pc : WorkerPC)
    (hk : s.workers[k]? = some (id, pc)) : heldOf s k = pc.held.toList := by
  simp [heldOf, hk]

theorem rs_workerLog_frame (s s' : Sys) (k : Nat) (hs : s'.sent = s.sent)
    (hr : s'.received = s.received) (hw : heldOf s' k = heldOf s k)
    (hk : sentBy k s ++ heldOf s k = (receivedBy k s).map resultOf) :
    sentBy k s' ++ heldOf s' k = (receivedBy k s').map resultOf := by
  simp only [sentBy, receivedBy, hs, hr, hw] at hk ⊢
  exact hk

theorem rs_workerLog_main (s s' : Sys) (k : Nat) (h : mainStep s = some s')
    (hk : sentBy k s ++ heldOf s k = (receivedBy k s).map resultOf) :
    sentBy k s' ++ heldOf s' k = (receivedBy k s').map resultOf := by
  simp only [mainStep] at h
  split at h
  · rename_i i hm
    split at h
    · simp only [Option.some.injEq] at h
      subst h
      exact rs_workerLog_frame s _ k rfl rfl (rs_heldOf_spawn s _ k i rfl) hk
    · simp only [Option.some.injEq] at h
      subst h
      exact rs_workerLog_frame s _ k rfl rfl (rs_heldOf_congr s _ k rfl) hk
  · simp only [Option.some.injEq] at h
    subst h
    exact rs_workerLog_frame s _ k rfl rfl (rs_heldOf_congr s _ k rfl) hk
  · simp only [Option.some.injEq] at h
    subst h
    exact rs_workerLog_frame s _ k rfl rfl (rs_heldOf_congr s _ k rfl) hk
  · split at h
    · simp only [Option.some.injEq] at h
      subst h
      exact rs_workerLog_frame s _ k rfl rfl (rs_heldOf_congr s _ k rfl) hk
    · split at h
      · simp only [Option.some.injEq] at h
        subst h
        exact rs_workerLog_frame s _ k rfl rfl (rs_heldOf_congr s _ k rfl) hk
      · simp at h
  · simp at h

theorem rs_workerLog_producer (s s' : Sys) (p : Int) (k : Nat) (h : producerStep s p = some s')
    (hk : sentBy k s ++ heldOf s k = (receivedBy k s).map resultOf) :
    sentBy k s' ++ heldOf s' k = (receivedBy k s').map resultOf := by
  simp only [producerStep] at h
  split at h
  · simp at h
  · split at h
    · split at h
      · simp only [Option.some.injEq] at h
        subst h
        exact rs_workerLog_frame s _ k rfl rfl (rs_heldOf_congr s _ k rfl) hk
      · simp at h
    · split at h
      · simp only [Option.some.injEq] at h
        subst h
        exact rs_workerLog_frame s _ k rfl rfl (rs_heldOf_congr s _ k rfl) hk
      · simp only [Option.some.injEq] at h
        subst h
        exact rs_workerLog_frame s _ k rfl rfl (rs_heldOf_congr s _ k rfl) hk
  · split at h
    · simp only [Option.some.injEq] at h
      subst h
      exact rs_workerLog_frame s _ k rfl rfl (rs_heldOf_congr s _ k rfl) hk
    · split at h
      · simp only [Option.some.injEq] at h
        subst h
        exact rs_workerLog_frame s _ k rfl rfl (rs_heldOf_congr s _ k rfl) hk
      · simp at h
  · simp at h

theorem rs_workerLog_closer (s s' : Sys) (k : Nat) (h : closerStep s = some s')
    (hk : sentBy k s ++ heldOf s k = (receivedBy k s).map resultOf) :
    sentBy k s' ++ heldOf s' k = (receivedBy k s').map resultOf := by
  simp only [closerStep] at h
  split at h
  · simp at h
  · split at h
    · simp only [Option.some.injEq] at h
      subst h
      exact rs_workerLog_frame s _ k rfl rfl (rs_heldOf_congr s _ k rfl) hk
    · simp at h
  · split at h
    · simp only [Option.some.injEq] at h
      subst h
      exact rs_workerLog_frame s _ k rfl rfl (rs_heldOf_congr s _ k rfl) hk
    · simp only [Option.some.injEq] at h
      subst h
      exact rs_workerLog_frame s _ k rfl rfl (rs_heldOf_congr s _ k rfl) hk
  · simp at h

theorem rs_filter_snoc_same (α : Type) (l : List (Nat × α)) (k : Nat) (a : α) :
    ((l ++ [(k, a)]).filter (fun e => decide (e.1 = k))).map Prod.snd =
      (l.filter (fun e => decide (e.1 = k))).map Prod.snd ++ [a] := by
  simp [List.filter_append]

theorem rs_filter_snoc_other (α : Type) (l : List (Nat × α)) (j k : Nat) (a : α) (h : j ≠ k) :
    ((l ++ [(j, a)]).filter (fun e => decide (e.1 = k))).map Prod.snd =
      (l.filter (fun e => decide (e.1 = k))).map Prod.snd := by
  simp [List.filter_append, h]

theorem rs_workerLog_worker (s s' : Sys) (j k : Nat) (h : workerStep s j = some s')
    (hk : sentBy k s ++ heldOf s k = (receivedBy k s).map resultOf) :
    sentBy k s' ++ heldOf s' k = (receivedBy k s').map resultOf := by
  simp only [workerStep] at h
  split at h
  · rename_i id hj
    split at h
    · rename_i t rest hb
      simp only [Option.some.injEq] at h
      subst h
      by_cases hjk : j = k
      · subst hjk
        have h1 := rs_heldOf_set_same s { s.setPC j id (.task t) with
            tasks := { s.tasks with buf := rest }, received := s.received ++ [(j, t)] }
          j id _ (WorkerPC.task t) hj rfl
        have h2 := rs_heldOf_same s j id _ hj
        rw [h2] at hk
        rw [h1]
        simp only [WorkerPC.held, Option.toList, List.append_nil] at hk ⊢
        simp only [receivedBy, sentBy] at hk ⊢
        rw [rs_filter_snoc_same, List.map_append, ← hk]
        rfl
      · have h1 := rs_heldOf_set_other s { s.setPC j id (.task t) with
            tasks := { s.tasks with buf := rest }, received := s.received ++ [(j, t)] }
          j k (id, WorkerPC.task t) hjk rfl
        rw [h1]
        simp only [receivedBy, sentBy] at hk ⊢
        rw [rs_filter_snoc_other _ _ _ _ _ hjk, ← hk]
        rfl
    · split at h
      · split at h
        · simp only [Option.some.injEq] at h
          subst h
          exact rs_workerLog_frame s _ k rfl rfl (rs_heldOf_congr s _ k rfl) hk
        · simp only [Option.some.injEq] at h
          subst h
          by_cases hjk : j = k
          · subst hjk
            have h1 := rs_heldOf_set_same s { s.setPC j id .exited with
                wg := s.wg - 1, doneCalls := s.doneCalls + 1 }
              j id _ WorkerPC.exited hj rfl
            have h2 := rs_heldOf_same s j id _ hj
            refine rs_workerLog_frame s _ j rfl rfl ?_ hk
            rw [h1, h2]
            rfl
          · exact rs_workerLog_frame s _ k rfl rfl
              (rs_heldOf_set_other s _ j k (id, WorkerPC.exited) hjk rfl) hk
      · simp at h
  · rename_i id t hj
    simp only [Option.some.injEq] at h
    subst h
    by_cases hjk : j = k
    · subst hjk
      have h1 := rs_heldOf_set_same s ((s.print
          s!"Worker {id} processing Task ID: {t.ID}\n").setPC j id
          (.send { TaskID := t.ID, Output := wrapInt (t.Payload * 2) }))
        j id _ (WorkerPC.send { TaskID := t.ID, Output := wrapInt (t.Payload * 2) }) hj rfl
      have h2 := rs_heldOf_same s j id _ hj
      refine rs_workerLog_frame s _ j rfl rfl ?_ hk
      rw [h1, h2]
      rfl
    · exact rs_workerLog_frame s _ k rfl rfl
        (rs_heldOf_set_other s _ j k
          (id, WorkerPC.send { TaskID := t.ID, Output := wrapInt (t.Payload * 2) }) hjk rfl) hk
  · rename_i id r hj
    split at h
    · simp only [Option.some.injEq] at h
      subst h
      exact rs_workerLog_frame s _ k rfl rfl (rs_heldOf_congr s _ k rfl) hk
    · split at h
      · simp only [Option.some.injEq] at h
        subst h
        by_cases hjk : j = k
        · subst hjk
          have h1 := rs_heldOf_set_same s { s.setPC j id .range with
              results := { s.results with buf := s.results.buf ++ [r] },
              sent := s.sent ++ [(j, r)] }
            j id _ WorkerPC.range hj rfl
          have h2 := rs_heldOf_same s j id _ hj
          rw [h2] at hk
          rw [h1]
          simp only [WorkerPC.held, Option.toList, List.append_nil] at hk ⊢
          simp only [receivedBy, sentBy] at hk ⊢
          rw [rs_filter_snoc_same, hk]
          rfl
        · have h1 := rs_heldOf_set_other s { s.setPC j id .range with
              results := { s.results with buf := s.results.buf ++ [r] },
              sent := s.sent ++ [(j, r)] }
            j k (id, WorkerPC.range) hjk rfl
          rw [h1]
          simp only [receivedBy, sentBy] at hk ⊢
          rw [rs_filter_snoc_other _ _ _ _ _ hjk]
          exact hk
      · simp at h
  · simp at h

/-- The results worker `k` has sent, followed by the one it holds, are the
results of the tasks it has received, in order: preserved by every action. -/
theorem rs_workerLog_step (s s' : Sys) (l : Label) (k : Nat) (h : step s l = some s')
    (hk : sentBy k s ++ heldOf s k = (receivedBy k s).map resultOf) :
    sentBy k s' ++ heldOf s' k = (receivedBy k s').map resultOf := by
  unfold step at h
  split at h
  · simp at h
  · cases l with
    | main => exact rs_workerLog_main s s' k h hk
    | producer p => exact rs_workerLog_producer s s' p k h hk
    | closer => exact rs_workerLog_closer s s' k h hk
    | worker j => exact rs_workerLog_worker s s' j k h hk

theorem rs_workerLog_run (s s' : Sys) (ls : List Label) (k : Nat) (h : run s ls = some s')
    (hk : sentBy k s ++ heldOf s k = (receivedBy k s).map resultOf) :
    sentBy k s' ++ heldOf s' k = (receivedBy k s').map resultOf := by
  induction ls generalizing s with
  | nil =>
    simp [run] at h
    subst h
    exact hk
  | cons l ls ih =>
    simp only [run] at h
    split at h
    · rename_i s1 hs1
      exact ih s1 h (rs_workerLog_step s s1 l k hs1 hk)
    · simp at h

/-- Claim C11: in every execution of the worker pool of `08-chan/demo_2.go`
that starts with nothing received or sent and worker `k` holding no result,
the Results worker `k` has sent on `results`, followed by the one Result it
still has to send (at most one), are exactly `Result{t.ID, t.Payload*2}`
(Go `int` arithmetic) over the tasks `k` has received, in the order of
receipt; whenever `k` holds nothing, in particular once it has returned, the
sent Results are that whole sequence, one per task. -/
theorem C11_worker_sends_results_in_order (s0 s : Sys) (ls : List Label) (k : Nat)
    (hsent : s0.sent = []) (hrecv : s0.received = []) (hheld : heldOf s0 k = [])
    (hrun : run s0 ls = some s) :
    sentBy k s ++ heldOf s k
        = (receivedBy k s).map
            (fun t => { TaskID := t.ID, Output := wrapInt (t.Payload * 2) })
      ∧ (heldOf s k).length ≤ 1
      ∧ (heldOf s k = [] →
          sentBy k s = (receivedBy k s).map
            (fun t => { TaskID := t.ID, Output := wrapInt (t.Payload * 2) }))
      ∧ (∀ id, s.workers[k]? = some (id, WorkerPC.exited) →
          sentBy k s = (receivedBy k s).map
            (fun t => { TaskID := t.ID, Output := wrapInt (t.Payload * 2) })) := by
  have h0 : sentBy k s0 ++ heldOf s0 k = (receivedBy k s0).map resultOf := by
    simp [sentBy, receivedBy, hsent, hrecv, hheld]
  have h1 := rs_workerLog_run s0 s ls k hrun h0
  have hlen : (heldOf s k).length ≤ 1 := by
    simp only [heldOf]
    split
    · rename_i pc _
      cases pc <;> simp [WorkerPC.held]
    · simp
  refine ⟨h1, hlen, ?_, ?_⟩
  · intro he
    rw [he, List.append_nil] at h1
    exact h1
  · intro id hid
    have he : heldOf s k = [] := by simp [heldOf, hid, WorkerPC.held]
    rw [he, List.append_nil] at h1
    exact h1

/-- Witness for C11: one worker receives the tasks `(0, 2^62)` and `(1, 21)`
and returns; it has sent `(0, -2^63)` and `(1, 42)` in that order. -/
theorem C11_worker_sends_results_in_order_witness :
    ∃ s, run oneWorkerState
          [.worker 0, .worker 0, .worker 0, .worker 0, .worker 0, .worker 0, .worker 0] = some s
      ∧ s.workers[0]? = some (0, WorkerPC.exited)
      ∧ receivedBy 0 s
          = [{ ID := 0, Payload := 4611686018427387904 }, { ID := 1, Payload := 21 }]
      ∧ (receivedBy 0 s).map
            (fun t => ({ TaskID := t.ID, Output := wrapInt (t.Payload * 2) } : Result))
          = [{ TaskID := 0, Output := -9223372036854775808 }, { TaskID := 1, Output := 42 }]
      ∧ sentBy 0 s = (receivedBy 0 s).map
            (fun t => { TaskID := t.ID, Output := wrapInt (t.Payload * 2) }) := by
  refine ⟨_, rfl, rfl, rfl, by decide, ?_⟩
  exact (C11_worker_sends_results_in_order oneWorkerState _
    [.worker 0, .worker 0, .worker 0, .worker 0, .worker 0, .worker 0, .worker 0] 0
    rfl rfl rfl rfl).2.2.2 0 rfl

end Demo2

namespace Demo4

open Go

/-! Section: counting over the goroutines -/

theorem pc_total_append {α : Type} (f : α → Nat) (xs ys : List α) :
    total f (xs ++ ys) = total f xs + total f ys := by
  simp [total]

theorem pc_total_set {α : Type} (f : α → Nat) (ws : List α) (k : Nat) (w w' : α)
    (hk : ws[k]? = some w) : total f (ws.set k w') + f w = total f ws + f w' := by
  induction ws generalizing k with
  | nil => simp at hk
  | cons x xs ih =>
    cases k with
    | zero =>
      simp at hk
      subst hk
      simp [total]
      omega
    | succ k =>
      simp at hk
      have := ih k hk
      simp only [total, List.set_cons_succ, List.map_cons, List.sum_cons] at this ⊢
      omega

theorem pc_total_ge {α : Type} (f : α → Nat) (ws : List α) (k : Nat) (w : α)
    (hk : ws[k]? = some w) : f w ≤ total f ws := by
  induction ws generalizing k with
  | nil => simp at hk
  | cons x xs ih =>
    cases k with
    | zero =>
      simp at hk
      subst hk
      simp [total]
    | succ k =>
      simp at hk
      have := ih k hk
      simp only [total, List.map_cons, List.sum_cons] at this ⊢
      omega

theorem pc_total_zero {α : Type} (f : α → Nat) (ws : List α) (h : total f ws = 0) :
    ∀ w ∈ ws, f w = 0 := by
  induction ws with
  | nil => simp
  | cons x xs ih =>
    simp only [total, List.map_cons, List.sum_cons] at h
    intro w hw
    rcases List.mem_cons.1 hw with rfl | hw
    · omega
    · exact ih (by simp only [total]; omega) w hw

theorem pc_total_const {α : Type} (f : α → Nat) (c : Nat) (ws : List α)
    (h : ∀ w ∈ ws, f w = c) : total f ws = c * ws.length := by
  induction ws with
  | nil => simp [total]
  | cons x xs ih =>
    have h1 := h x (List.mem_cons_self _ _)
    have h2 := ih (fun w hw => h w (List.mem_cons_of_mem _ hw))
    simp only [total, List.map_cons, List.sum_cons, List.length_cons] at h2 ⊢
    rw [h1, h2]
    ring

/-! Section: the invariant -/

theorem pc_Inv_init (allocOk : Bool) (nProducer nConsumer : Int) (s : Sys)
    (h : Sys.init allocOk nProducer nConsumer = some s) : Inv nProducer nConsumer s := by
  unfold Sys.init at h
  split at h
  · rename_i ch hch
    obtain ⟨-, -, rfl⟩ := make_some_inv _ _ _ _ hch
    simp only [Option.some.injEq] at h
    subst h
    exact { constP := rfl
            constC := rfl
            nocrash := rfl
            fifo := rfl
            wg1_live := by simp [total]
            wg2_live := by simp [total]
            sent_total := by simp [total]
            ctr := by simp
            spawningP := by
              intro i hi
              simp at hi
              subst hi
              simp
            spawnedP := by
              intro h
              exact absurd rfl (h 0)
            spawningC := by simp
            spawnedC := by simp
            closerStarted := by simp
            closerWaited := by simp
            closedBy := by simp
            drained := by simp
            mainDone := by simp }
  · simp at h

theorem pc_Inv_main (nP nC : Int) (s s' : Sys) (hi : Inv nP nC s)
    (h : mainStep s = some s') : Inv nP nC s' := by
  have hcl : s.main ≠ MainPC.wait → s.closer = CloserPC.notStarted := by
    intro hm
    by_contra hne
    rcases hi.closerStarted hne with h1 | h1
    · exact hm h1
    · simp [mainStep, h1] at h
  unfold mainStep at h
  split at h
  · rename_i i hm
    have hn := hcl (by simp [hm])
    obtain ⟨h0, hlen, hle, hcs⟩ := hi.spawningP i hm
    split at h
    · rename_i hlt
      rw [hi.constP] at hlt
      simp only [Option.some.injEq] at h
      subst h
      exact { hi with
        wg1_live := by
          have := hi.wg1_live
          have h1 : total liveP [(i, ProducerPC.loop 0)] = 1 := rfl
          simp only [pc_total_append, h1]
          omega
        sent_total := by
          have := hi.sent_total
          have h1 : total sentOf [(i, ProducerPC.loop 0)] = 0 := rfl
          simp only [pc_total_append, h1]
          omega
        closerWaited := by simp [hn]
        ctr := by
          intro w hw
          rcases List.mem_append.1 hw with hw | hw
          · exact hi.ctr w hw
          · simp at hw
            subst hw
            simp [ProducerPC.inRange]
        spawningP := by
          intro j hj
          simp at hj
          subst hj
          refine ⟨by omega, ?_, Or.inl (by omega), hcs⟩
          simp only [List.length_append, List.length_singleton, hlen]
          omega
        spawnedP := by
          intro hne
          exact absurd rfl (hne (i + 1))
        spawningC := by simp
        spawnedC := by simp
        closerStarted := by simp [hn]
        mainDone := by simp }
    · rename_i hge
      rw [hi.constP] at hge
      simp only [Option.some.injEq] at h
      subst h
      exact { hi with
        spawningP := by simp
        spawnedP := by
          intro _
          rw [hlen]
          omega
        spawningC := by
          intro j hj
          simp at hj
          subst hj
          simp [hcs]
        spawnedC := by simp
        closerStarted := by simp [hn]
        mainDone := by simp }
  · rename_i i hm
    have hn := hcl (by simp [hm])
    obtain ⟨h0, hlen, hle⟩ := hi.spawningC i hm
    have hps := hi.spawnedP (by simp [hm])
    split at h
    · rename_i hlt
      rw [hi.constC] at hlt
      simp only [Option.some.injEq] at h
      subst h
      exact { hi with
        wg2_live := by
          have := hi.wg2_live
          have h1 : total liveC [(i, ConsumerPC.range)] = 1 := rfl
          simp only [pc_total_append, h1]
          omega
        spawningP := by simp
        spawnedP := fun _ => hps
        spawningC := by
          intro j hj
          simp at hj
          subst hj
          refine ⟨by omega, ?_, Or.inl (by omega)⟩
          simp only [List.length_append, List.length_singleton, hlen]
          omega
        spawnedC := by simp
        closerStarted := by simp [hn]
        mainDone := by simp
        drained := by
          intro w hw hex
          rcases List.mem_append.1 hw with hw | hw
          · exact hi.drained w hw hex
          · simp at hw
            subst hw
            simp at hex }
    · rename_i hge
      rw [hi.constC] at hge
      simp only [Option.some.injEq] at h
      subst h
      exact { hi with
        spawningP := by simp
        spawnedP := fun _ => hps
        spawningC := by simp
        spawnedC := by
          intro _
          rw [hlen]
          omega
        closerStarted := by simp [hn]
        mainDone := by simp }
  · rename_i hm
    have hn := hcl (by simp [hm])
    have hps := hi.spawnedP (by simp [hm])
    have hcs := hi.spawnedC (Or.inl hm)
    have hnc : s.itemCh.closed = false := by
      cases hc : s.itemCh.closed with
      | false => rfl
      | true =>
        have := hi.closedBy.1 hc
        simp [hn] at this
    simp only [Option.some.injEq] at h
    subst h
    exact { hi with
      spawningP := by simp
      spawnedP := fun _ => hps
      spawningC := by simp
      spawnedC := fun _ => hcs
      closerStarted := by simp
      closerWaited := by simp
      closedBy := by simp [hnc]
      mainDone := by simp }
  · rename_i hm
    have hps := hi.spawnedP (by simp [hm])
    have hcs := hi.spawnedC (Or.inr (Or.inl hm))
    split at h
    · rename_i hwg2
      simp only [Option.some.injEq] at h
      subst h
      exact { hi with
        spawningP := by simp
        spawnedP := fun _ => hps
        spawningC := by simp
        spawnedC := fun _ => hcs
        closerStarted := by simp
        mainDone := fun _ => hwg2 }
    · simp at h
  · simp at h

theorem pc_Inv_producer (nP nC : Int) (s s' : Sys) (k : Nat) (v : Int) (hi : Inv nP nC s)
    (h : producerStep s k v = some s') : Inv nP nC s' := by
  unfold producerStep at h
  split at h
  · rename_i id i hk
    have hr := hi.ctr _ (mem_of_getElem? _ _ _ hk)
    simp only [ProducerPC.inRange] at hr
    have hge := pc_total_ge liveP s.producers k _ hk
    simp only [liveP] at hge
    split at h
    · rename_i hlt
      split at h
      · simp only [Option.some.injEq] at h
        subst h
        have hset := pc_total_set liveP s.producers k _ (id, ProducerPC.send i (mkItem id i v)) hk
        have hset2 := pc_total_set sentOf s.producers k _
          (id, ProducerPC.send i (mkItem id i v)) hk
        simp only [liveP, sentOf] at hset hset2
        exact { hi with
          wg1_live := by
            have := hi.wg1_live
            simp only [Sys.print]
            omega
          sent_total := by
            have := hi.sent_total
            simp only [Sys.print]
            omega
          ctr := by
            intro w hw
            rcases List.mem_or_eq_of_mem_set hw with hw | hw
            · exact hi.ctr w hw
            · subst hw
              simp only [ProducerPC.inRange]
              omega
          spawningP := by
            intro j hj
            have := hi.spawningP j hj
            simpa [Sys.print] using this
          spawnedP := by
            intro hj
            have := hi.spawnedP hj
            simpa [Sys.print] using this }
      · simp at h
    · rename_i hnlt
      split at h
      · rename_i hneg
        have := hi.wg1_live
        omega
      · simp only [Option.some.injEq] at h
        subst h
        have hset := pc_total_set liveP s.producers k _ (id, ProducerPC.exited) hk
        have hset2 := pc_total_set sentOf s.producers k _ (id, ProducerPC.exited) hk
        simp only [liveP, sentOf] at hset hset2
        have hw1 := hi.wg1_live
        exact { hi with
          wg1_live := by
            dsimp only [Sys.print]
            omega
          sent_total := by
            have := hi.sent_total
            dsimp only [Sys.print]
            omega
          ctr := by
            intro w hw
            rcases List.mem_or_eq_of_mem_set hw with hw | hw
            · exact hi.ctr w hw
            · subst hw
              simp only [ProducerPC.inRange]
          spawningP := by
            intro j hj
            have := hi.spawningP j hj
            simpa using this
          spawnedP := by
            intro hj
            have := hi.spawnedP hj
            simpa using this
          closerWaited := by
            intro hc
            have := hi.closerWaited hc
            omega }
  · rename_i id i item hk
    have hr := hi.ctr _ (mem_of_getElem? _ _ _ hk)
    simp only [ProducerPC.inRange] at hr
    have hge := pc_total_ge liveP s.producers k _ hk
    simp only [liveP] at hge
    have hw1 := hi.wg1_live
    have hopen : s.itemCh.closed = false := by
      cases hc : s.itemCh.closed with
      | false => rfl
      | true =>
        have := hi.closerWaited (Or.inr (hi.closedBy.1 hc))
        omega
    split at h
    · rename_i hc
      simp [hopen] at hc
    · split at h
      · simp only [Option.some.injEq] at h
        subst h
        have hset := pc_total_set liveP s.producers k _ (id, ProducerPC.loop (i + 1)) hk
        have hset2 := pc_total_set sentOf s.producers k _ (id, ProducerPC.loop (i + 1)) hk
        simp only [liveP, sentOf] at hset hset2
        exact { hi with
          fifo := by
            have := hi.fifo
            simp only [List.map_append, List.map_cons, List.map_nil]
            rw [← List.append_assoc, this]
          wg1_live := by
            dsimp only [Sys.print]
            omega
          sent_total := by
            have := hi.sent_total
            dsimp only
            simp only [List.length_append, List.length_singleton]
            omega
          ctr := by
            intro w hw
            rcases List.mem_or_eq_of_mem_set hw with hw | hw
            · exact hi.ctr w hw
            · subst hw
              simp only [ProducerPC.inRange]
              omega
          spawningP := by
            intro j hj
            have := hi.spawningP j hj
            simpa using this
          spawnedP := by
            intro hj
            have := hi.spawnedP hj
            simpa using this
          closedBy := hi.closedBy
          drained := by
            intro w hw hex
            have := (hi.drained w hw hex).1
            simp [hopen] at this }
      · simp at h
  · simp at h

theorem pc_Inv_consumer (nP nC : Int) (s s' : Sys) (k : Nat) (hi : Inv nP nC s)
    (hnf : s.main ≠ MainPC.finished)
    (h : consumerStep s k = some s') : Inv nP nC s' := by
  unfold consumerStep at h
  have hne : ∀ w, s.consumers[k]? = some w → s.consumers ≠ [] := by
    intro w hk hnil
    simp [hnil] at hk
  split at h
  · rename_i id hk
    have hge := pc_total_ge liveC s.consumers k _ hk
    simp only [liveC] at hge
    split at h
    · rename_i item rest hb
      simp only [Option.some.injEq] at h
      subst h
      have hset := pc_total_set liveC s.consumers k _ (id, ConsumerPC.body item) hk
      simp only [liveC] at hset
      exact { hi with
        fifo := by
          have := hi.fifo
          rw [hb] at this
          simp only [List.map_append, List.map_cons, List.map_nil]
          rw [List.append_assoc]
          exact this
        wg2_live := by
          have := hi.wg2_live
          dsimp only [Sys.print]
          omega
        spawningP := by
          intro j hj
          have := hi.spawningP j hj
          exact absurd this.2.2.2 (hne _ hk)
        spawningC := by
          intro j hj
          have := hi.spawningC j hj
          simpa using this
        spawnedC := by
          intro hj
          have := hi.spawnedC hj
          simpa using this
        drained := by
          intro w hw hex
          rcases List.mem_or_eq_of_mem_set hw with hw | hw
          · have := (hi.drained w hw hex).2
            simp [hb] at this
          · subst hw
            simp at hex }
    · rename_i hb
      split at h
      · rename_i hc
        split at h
        · rename_i hneg
          have := hi.wg2_live
          omega
        · simp only [Option.some.injEq] at h
          subst h
          have hset := pc_total_set liveC s.consumers k _ (id, ConsumerPC.exited) hk
          simp only [liveC] at hset
          exact { hi with
            wg2_live := by
              have := hi.wg2_live
              dsimp only [Sys.print]
              omega
            spawningP := by
              intro j hj
              have := hi.spawningP j hj
              exact absurd this.2.2.2 (hne _ hk)
            spawningC := by
              intro j hj
              have := hi.spawningC j hj
              simpa using this
            spawnedC := by
              intro hj
              have := hi.spawnedC hj
              simpa using this
            drained := fun _ _ _ => ⟨hc, hb⟩
            mainDone := fun hm => absurd hm hnf }
      · simp at h
  · rename_i id item hk
    simp only [Option.some.injEq] at h
    subst h
    have hset := pc_total_set liveC s.consumers k _ (id, ConsumerPC.range) hk
    simp only [liveC] at hset
    exact { hi with
      wg2_live := by
        have := hi.wg2_live
        dsimp only [Sys.print]
        omega
      spawningP := by
        intro j hj
        have := hi.spawningP j hj
        exact absurd this.2.2.2 (hne _ hk)
      spawningC := by
        intro j hj
        have := hi.spawningC j hj
        simpa [Sys.print] using this
      spawnedC := by
        intro hj
        have := hi.spawnedC hj
        simpa [Sys.print] using this
      drained := by
        intro w hw hex
        rcases List.mem_or_eq_of_mem_set hw with hw | hw
        · exact hi.drained w hw hex
        · subst hw
          simp at hex }
  · simp at h

theorem pc_Inv_closer (nP nC : Int) (s s' : Sys) (hi : Inv nP nC s)
    (h : closerStep s = some s') : Inv nP nC s' := by
  unfold closerStep at h
  split at h
  · simp at h
  · rename_i hc
    have hm := hi.closerStarted (by simp [hc])
    have hnc : s.itemCh.closed = false := by
      cases hcl : s.itemCh.closed with
      | false => rfl
      | true =>
        have := hi.closedBy.1 hcl
        simp [hc] at this
    split at h
    · rename_i hwg
      simp only [Option.some.injEq] at h
      subst h
      exact { hi with
        closerStarted := fun _ => hm
        closerWaited := fun _ => hwg
        closedBy := by simp [hnc] }
    · simp at h
  · rename_i hc
    have hm := hi.closerStarted (by simp [hc])
    have hwg := hi.closerWaited (Or.inl hc)
    have hnc : s.itemCh.closed = false := by
      cases hcl : s.itemCh.closed with
      | false => rfl
      | true =>
        have := hi.closedBy.1 hcl
        simp [hc] at this
    split at h
    · rename_i hcl
      simp [hnc] at hcl
    · simp only [Option.some.injEq] at h
      subst h
      exact { hi with
        closerStarted := fun _ => hm
        closerWaited := fun _ => hwg
        closedBy := by simp
        drained := by
          intro w hw hex
          have := (hi.drained w hw hex).1
          simp [hnc] at this }
  · simp at h

theorem pc_Inv_step (nP nC : Int) (s s' : Sys) (l : Label) (hi : Inv nP nC s)
    (h : step s l = some s') : Inv nP nC s' := by
  unfold step at h
  split at h
  · simp at h
  · rename_i hg
    have hnf : s.main ≠ MainPC.finished := fun hm => hg (Or.inr hm)
    cases l with
    | main => exact pc_Inv_main nP nC s s' hi h
    | producer k v => exact pc_Inv_producer nP nC s s' k v hi h
    | consumer k => exact pc_Inv_consumer nP nC s s' k hi hnf h
    | closer => exact pc_Inv_closer nP nC s s' hi h

theorem pc_Inv_reachable (nP nC : Int) (s : Sys) (h : Reachable nP nC s) : Inv nP nC s := by
  induction h with
  | init allocOk s hs => exact pc_Inv_init allocOk nP nC s hs
  | step s l s' _ hs ih => exact pc_Inv_step nP nC s s' l ih hs

theorem pc_Reachable_run (nP nC : Int) (s s' : Sys) (ls : List Label)
    (h : Reachable nP nC s) (hr : run s ls = some s') : Reachable nP nC s' := by
  induction ls generalizing s with
  | nil =>
    simp [run] at hr
    subst hr
    exact h
  | cons l ls ih =>
    simp only [run] at hr
    split at hr
    · rename_i s1 hs1
      exact ih s1 (Reachable.step s l s1 h hs1) hr
    · simp at hr

theorem pc_init_start (nP nC : Int) : Sys.init true nP nC = some (Sys.start nP nC) := by
  have h : Chan.make Item 16 true ((10 : Nat) : Int) = some _ := make_ofNat 16 10 (by decide)
  simp only [Nat.cast_ofNat] at h
  simp [Sys.init, Sys.start, h]

/-! Section: the claim about `itemCh` -/

/-- Claim C17, counterexample: with one producer and no consumer `wg2.Wait()`
returns at once and `main` returns while the item the producer has sent is
still in the buffer of `itemCh`: nothing has been consumed, not 10 items. -/
theorem C17_counterexample_no_consumers :
    ∃ s0 s, Sys.init true 1 0 = some s0
      ∧ run s0 [.main, .main, .main, .main, .producer 0 5, .producer 0 5, .main] = some s
      ∧ s.main = MainPC.finished ∧ s.crashed = none
      ∧ s.sent.map Prod.snd = [{ ID := 0, Value := 5 }]
      ∧ s.itemCh.buf = [{ ID := 0, Value := 5 }]
      ∧ s.consumed = []
      ∧ s.consumed.length ≠ 10 * 1 := by
  refine ⟨_, _, rfl, rfl, rfl, rfl, rfl, rfl, rfl, by decide⟩

/-- Claim C17, amended: in every execution of the producer/consumer program
with at least one consumer (and any number of producers): no panic happens;
`itemCh` is closed only when all `nProducer` producers have been started and
have returned, and no producer that is at its send finds the channel closed;
the items received are, in order, the items sent, the rest being still
buffered; once one consumer has left its `range` loop every item sent has
been received, 10 times the number of producers in all; and when `main` has
returned all consumers have returned and exactly that many items have been
consumed. -/
theorem C17_all_items_consumed (nProducer nConsumer : Int) (s : Sys)
    (hr : Reachable nProducer nConsumer s) (hC : 1 ≤ nConsumer) :
    s.crashed = none
      ∧ (s.itemCh.closed = true →
          s.producers.length = nProducer.toNat ∧ ∀ w ∈ s.producers, w.2 = ProducerPC.exited)
      ∧ (∀ (k : Nat) (id i : Int) (item : Item),
          s.producers[k]? = some (id, ProducerPC.send i item) → s.itemCh.closed = false)
      ∧ s.consumed.map Prod.snd ++ s.itemCh.buf = s.sent.map Prod.snd
      ∧ ((∃ w ∈ s.consumers, w.2 = ConsumerPC.exited) →
          s.consumed.map Prod.snd = s.sent.map Prod.snd
          ∧ s.consumed.length = 10 * nProducer.toNat)
      ∧ (s.main = MainPC.finished →
          (∀ w ∈ s.consumers, w.2 = ConsumerPC.exited)
          ∧ s.consumed.length = 10 * nProducer.toNat) := by
  have hi := pc_Inv_reachable nProducer nConsumer s hr
  have hclosed : s.itemCh.closed = true →
      s.producers.length = nProducer.toNat ∧ ∀ w ∈ s.producers, w.2 = ProducerPC.exited := by
    intro hc
    have hf := hi.closedBy.1 hc
    have hm := hi.closerStarted (by simp [hf])
    have hlen := hi.spawnedP (by
      intro i hmi
      rcases hm with hm | hm <;> simp [hm] at hmi)
    have hwg := hi.closerWaited (Or.inr hf)
    have hl := hi.wg1_live
    have hz : total liveP s.producers = 0 := by omega
    refine ⟨hlen, ?_⟩
    intro w hw
    have := pc_total_zero liveP s.producers hz w hw
    obtain ⟨id, pc⟩ := w
    cases pc <;> simp_all [liveP]
  have hex : (∃ w ∈ s.consumers, w.2 = ConsumerPC.exited) →
      s.consumed.map Prod.snd = s.sent.map Prod.snd
      ∧ s.consumed.length = 10 * nProducer.toNat := by
    rintro ⟨w, hw, hwe⟩
    obtain ⟨hc, hb⟩ := hi.drained w hw hwe
    obtain ⟨hlen, hall⟩ := hclosed hc
    have hf := hi.fifo
    rw [hb, List.append_nil] at hf
    refine ⟨hf, ?_⟩
    have h1 := congrArg List.length hf
    simp only [List.length_map] at h1
    have h2 := hi.sent_total
    have h3 := pc_total_const sentOf 10 s.producers (by
      intro w hw
      have := hall w hw
      obtain ⟨id, pc⟩ := w
      simp only at this
      subst this
      rfl)
    omega
  refine ⟨hi.nocrash, hclosed, ?_, hi.fifo, hex, ?_⟩
  · intro k id i item hk
    cases hc : s.itemCh.closed with
    | false => rfl
    | true =>
      have := (hclosed hc).2 _ (mem_of_getElem? _ _ _ hk)
      simp at this
  · intro hm
    have hwg := hi.mainDone hm
    have hl := hi.wg2_live
    have hz : total liveC s.consumers = 0 := by omega
    have hall : ∀ w ∈ s.consumers, w.2 = ConsumerPC.exited := by
      intro w hw
      have := pc_total_zero liveC s.consumers hz w hw
      obtain ⟨id, pc⟩ := w
      cases pc <;> simp_all [liveC]
    refine ⟨hall, ?_⟩
    have hlen := hi.spawnedC (Or.inr (Or.inr hm))
    have hpos : 0 < s.consumers.length := by omega
    obtain ⟨w, hw⟩ := List.exists_mem_of_length_pos hpos
    exact (hex ⟨w, hw, hall w hw⟩).2

/-- Witness for C17: a complete execution with one producer and one consumer;
`main` returns with the ten items of the producer consumed. -/
theorem C17_all_items_consumed_witness :
    ∃ s, run (Sys.start 1 1) fullSchedule = some s
      ∧ s.main = MainPC.finished
      ∧ s.consumed.map (fun e => e.2.ID) = [0, 1, 2, 3, 4, 5, 6, 7, 8, 9]
      ∧ s.consumed.length = 10 * (1 : Int).toNat := by
  refine ⟨_, rfl, rfl, rfl, ?_⟩
  exact ((C17_all_items_consumed 1 1 _
    (pc_Reachable_run 1 1 (Sys.start 1 1) _ fullSchedule
      (Reachable.init true _ (pc_init_start 1 1)) rfl) (by decide)).2.2.2.2.2 rfl).2

end Demo4

namespace DeferDemo

/-- C20: `f2`, whose result is named, returns 15: the deferred closure adds 10
to the 5 stored by `return 5`, and the caller reads the named result after the
deferred call.  `f3`, whose result is unnamed, returns 5: the deferred closure
adds 10 to the local variable (it prints "defer result: 15") after `return`
has copied the 5 into the result slot. -/
theorem C20_defer_named_result_15_unnamed_5 :
    f2.1 = 15 ∧ f3.1 = 5
      ∧ f3.2 = ["---------------- f3 -------------------\n", "defer result: 15\n"] := by
  decide

end DeferDemo
